import Mathlib

/-! zoom: the transaction engine (`transaction.go`)

A shallow embedding of the transaction abstraction of zoom, an object mapper
over redis, and theorems about it.

Conventions of the embedding.

* Go closures stored in the transaction (reply handlers, waiter callbacks) are
  defunctionalised: a closure is named by a constructor of `Handler` or by a
  number, and a table (`Closures`) says what a numbered closure does when it is
  called.  What a closure can do to the transaction is what the transaction's
  own methods allow: `sendData`, `doWhenDataReady` and `command` (`Act`).
* The redis connection is external.  Its answers come from an oracle
  (`Conn`); every call made on it, and every call of a closure, is recorded in
  a list of `Event`s returned beside the result.
* A Go `error` is `Option Err`, `none` being `nil`.
* The loop of `exec` need not terminate, so it takes fuel and returns `none`
  when the fuel runs out.
* Functions of the package that `transaction.go` calls and that are declared in
  other files are parameters (`Lib`, `Registry`) or, where a theorem needs their
  shape, definitions whose comment says that they follow the spec.
* The records that `findModel` fills live in a memory of records by address
  (`Finder`): `reflect.New` takes the next free address, a to-one field holds an
  address or nil, a to-many field a slice of addresses, and the cache maps a key
  to an address.  Reads that a find makes on a connection of its own are
  answered by `Conn.read`, a function of the command: the store does not change
  while a find runs.  `findModel` takes fuel, one unit per call that misses the
  cache, and returns `Ret.outOfFuel` when none is left.
-/

namespace Zoom

/-! ## Values exchanged with redis -/

/-- A float64, kept as its IEEE-754 bit pattern; it is transported, never computed with. -/
structure Float64 where
  bits : Nat
deriving DecidableEq, Repr

/-- An element of `redis.Args`. -/
inductive Arg where
  | str (s : String)
  | int (i : Int)
  | float (f : Float64)
deriving DecidableEq, Repr

/-- A reply of the redis driver (`interface{}`): nil, an integer, a bulk string or a multi-bulk. -/
inductive Reply where
  | nil
  | int (i : Int)
  | str (s : String)
  | multi (items : List String)
deriving DecidableEq, Repr

/-- Go `error` values that the engine produces or passes on. -/
inductive Err where
  /-- the `fmt.Errorf` at the end of `exec`: `%d` waiters still waiting, `%v` the pending data -/
  | pendingData (waiting : Nat) (pending : List String)
  /-- "zoom: cannot convert type %s to Model" -/
  | cannotConvert (typeName : String)
  /-- "zoom: cannot save a relation for a model with no Id" -/
  | noId
  /-- `KeyNotFoundError` -/
  | keyNotFound (key : String)
  /-- `ModelNameNotRegisteredError` -/
  | modelNameNotRegistered (name : String)
  /-- a run-time panic: index out of range -/
  | indexOutOfRange
  /-- any other error: of the redis driver, of a closure, of the schema registry -/
  | other (msg : String)
deriving DecidableEq, Repr

/-! ## The schema registry and `modelRef` (declared outside `transaction.go`) -/

/-- The `rType` constants of a relationship. -/
inductive relationType where
  | oneToOne
  | oneToMany
deriving DecidableEq, Repr

/-- The `indexType` constants of an indexed field. -/
inductive indexType where
  | indexNumeric
  | indexAlpha
  | indexBoolean
deriving DecidableEq, Repr

/-- A relationship descriptor: the struct field, its store-facing name, its cardinality. -/
structure relationship where
  fieldName : String
  redisName : String
  rType : relationType
deriving DecidableEq, Repr

/-- An external list or set descriptor of a `modelSpec`. -/
structure externalCollection where
  fieldName : String
  redisName : String
deriving DecidableEq, Repr

/-- An indexed field of primitive type. -/
structure primative where
  fieldName : String
  redisName : String
  indexType : indexType
deriving DecidableEq, Repr

/-- An indexed field of pointer-to-primitive type. -/
structure pointer where
  fieldName : String
  redisName : String
  indexType : indexType
deriving DecidableEq, Repr

/-- The part of `modelSpec` that `transaction.go` reads. -/
structure modelSpec where
  modelName : String
  lists : List externalCollection
  sets : List externalCollection
  relationships : List relationship
  primativeIndexes : List primative
  pointerIndexes : List pointer
deriving DecidableEq, Repr

/-- What a pointer or a slice element points at, as far as the engine looks. -/
inductive Scalar where
  | str (s : String)
  | bool (b : Bool)
  | num (x : Float64)
  /-- a value implementing `Model`, with the result of its `GetId()` -/
  | model (id : String)
  /-- a value of the named type, which does not implement `Model` -/
  | notModel (typeName : String)
deriving DecidableEq, Repr

/-- A `reflect.Value` of a struct field, as far as the engine looks. -/
inductive Value where
  /-- a nil pointer, slice or interface: `IsNil()` is true -/
  | nil
  /-- a field of primitive type -/
  | prim (s : Scalar)
  /-- a non-nil pointer; `Elem()` is the scalar -/
  | ptr (s : Scalar)
  /-- a non-nil slice with its elements, the named type being the slice's type -/
  | slice (typeName : String) (elems : List Scalar)
deriving DecidableEq, Repr

/-- `reflect.Value.IsNil`. -/
def Value.IsNil : Value → Bool
  | .nil => true
  | _ => false

/-- `reflect.Value.String` of a scalar: the string itself for a string kind, and the
    placeholder `<T Value>` otherwise. -/
def Scalar.StringValue : Scalar → String
  | .str s => s
  | .bool _ => "<bool Value>"
  | .num _ => "<float64 Value>"
  | .model _ => "<Model Value>"
  | .notModel typeName => "<" ++ typeName ++ " Value>"

/-- The name of the type of a scalar, as `reflect.Type.String` prints it. -/
def Scalar.typeString : Scalar → String
  | .str _ => "string"
  | .bool _ => "bool"
  | .num _ => "float64"
  | .model _ => "Model"
  | .notModel typeName => typeName

/-- `reflect.Value.String`: the string itself for a string kind and `<T Value>` with the type
    `T` otherwise, `*T` for a pointer.  The model keeps no type for a nil value; the
    placeholder of the zero Value stands in for it. -/
def Value.StringValue : Value → String
  | .prim s => s.StringValue
  | .nil => "<invalid Value>"
  | .ptr s => "<*" ++ s.typeString ++ " Value>"
  | .slice typeName _ => "<" ++ typeName ++ " Value>"

/-- `reflect.Value.Elem`: what a non-nil pointer points at; the zero Value otherwise. -/
def Value.Elem : Value → Value
  | .ptr s => .prim s
  | _ => .nil

/-- `reflect.Value.Bool`; false stands in for what is not a bool. -/
def Value.BoolValue : Value → Bool
  | .prim (.bool b) => b
  | _ => false

/-- The type name `field.Type().String()` prints in an error. -/
def Value.typeName : Value → String
  | .nil => "nil"
  | .prim (.notModel n) => n
  | .ptr (.notModel n) => n
  | .slice n _ => n
  | _ => "Model"

/-- The type assertion `x.Interface().(Model)` on an element, with the id of the model when it holds. -/
def Scalar.asModel : Scalar → Option String
  | .model id => some id
  | _ => none

/-- The type assertion `field.Interface().(Model)` on a non-nil field. -/
def Value.asModel : Value → Option String
  | .ptr s => s.asModel
  | .prim s => s.asModel
  | _ => none

/-- A scalar as a redis argument (`redis.Args.AddFlat` on an element). -/
def Scalar.toArg : Scalar → Arg
  | .str s => .str s
  | .bool b => .int (if b then 1 else 0)
  | .num x => .float x
  | .model id => .str id
  | .notModel n => .str n

/-- The arguments `redis.Args.AddFlat` adds for a field value: the elements of a slice, else
    the value itself. -/
def Value.flat : Value → List Arg
  | .nil => []
  | .prim s => [s.toArg]
  | .ptr s => [s.toArg]
  | .slice _ elems => elems.map Scalar.toArg

/-- A `Model` behind its pointer: its id (`GetId`) and its fields by name (`mr.value`). -/
structure Model where
  id : String
  fields : String → Value

/-- `Model.GetId`. -/
def Model.GetId (m : Model) : String := m.id

/-- `Model.SetId`. -/
def Model.SetId (m : Model) (id : String) : Model := { m with id := id }

/-- A `modelRef`: a model with its spec and the counter of keys that may still hold its data.
    `transaction.go` takes a `modelRef` by value (`mr modelRef`): a closure that captures one
    has a copy of its own. -/
structure modelRef where
  modelSpec : modelSpec
  model : Model
  possibleKeyHits : Int

/-- `mr.value(fieldName)`. -/
def modelRef.value (mr : modelRef) (fieldName : String) : Value := mr.model.fields fieldName

/-- Modelled from the spec: `modelRef.key` is not in `transaction.go`; the key of a record is
    `{typeName}:{id}`, as `deleteModel` also builds it. -/
def modelRef.key (mr : modelRef) : String := mr.modelSpec.modelName ++ ":" ++ mr.model.GetId

/-- Modelled from the spec: `modelRef.indexKey` is not in `transaction.go`; the existence index of a
    type is `{typeName}:all`, as `checkModelExists` also builds it. -/
def modelRef.indexKey (mr : modelRef) : String := mr.modelSpec.modelName ++ ":all"

/-! ## The transaction -/

/-- A `command`: name and arguments. -/
structure command where
  name : String
  args : List Arg
deriving DecidableEq, Repr

/-- A reply handler `func(interface{}) error`, by the place that builds the closure. -/
inductive Handler where
  /-- the closure of `newSendDataHandler(t, key)` -/
  | newSendDataHandler (key : String)
  /-- the closure `removeOldAlphaIndex(mr, fieldName, redisName)` passes to its HGET -/
  | removeOldAlphaIndex (mr : modelRef) (fieldName : String)
  /-- any other closure, by its number in the table of closures -/
  | closure (id : Nat)
  /-- the closure of `newScanHandler(mr, scannables)`; it holds its own copy of `mr`, and
      `scan` is the error of `redis.Scan(replies, scannables...)` -/
  | newScanHandler (mr : modelRef) (scan : List String → Option Err)
  /-- the closure of `newScanModelHandler(mr)`; it holds its own copy of `mr`, and
      `scanModel` is the error of `scanModel(bulk, mr)` -/
  | newScanModelHandler (mr : modelRef) (scanModel : List String → Option Err)
  /-- the closure of `newScanModelSliceHandler(mr, scanVal)`; it holds its own copy of `mr` -/
  | newScanModelSliceHandler (mr : modelRef)

/-- A `waiter`.  The pointer `trans` is the transaction the methods are given; `seq` is a ghost
    field: the number of waiters registered before this one, which tells apart two waiters with
    equal keys and callback. -/
structure waiter where
  keys : List String
  do_ : Nat
  done : Bool
  seq : Nat
deriving DecidableEq, Repr

/-- What the external connection answers. -/
structure Conn where
  /-- the error of `conn.Send(c.name, c.args...)` for the command at a position of a round -/
  send : Nat → Nat → command → Option Err
  /-- the result of `redis.MultiBulk(conn.Do("EXEC"))` in a round, given the commands sent -/
  exec : Nat → List command → Except Err (List Reply)
  /-- the error of `conn.Do` on a connection opened by a handler -/
  side : command → Option Err
  /-- the reply of `conn.Do` for a read (GET, SMEMBERS, SISMEMBER) on a connection got from
      `GetConn()` for it -/
  read : command → Except Err Reply := fun _ => .ok Reply.nil

/-- A `transaction`.  `registered` is a ghost field: the number of calls of `doWhenDataReady`
    so far.  The model cache maps a record key to the address of the cached record. -/
structure transaction where
  conn : Conn
  commands : List command
  handlers : List (Option Handler)
  dataReady : String → Bool
  data : String → Option Reply
  waiters : List waiter
  modelCache : String → Option Nat
  registered : Nat

/-- The method `waiter.ready`. -/
def waiter.ready.go (dataReady : String → Bool) : List String → Bool
  | [] => true
  | key :: rest =>
    if key = "" then true
    else if !dataReady key then false
    else waiter.ready.go dataReady rest

/-- The method `waiter.ready`, on the transaction the waiter points to. -/
def waiter.ready (w : waiter) (t : transaction) : Bool :=
  waiter.ready.go t.dataReady w.keys

/-- `newTransaction`, on the connection `GetConn()` returns. -/
def newTransaction (conn : Conn) : transaction :=
  { conn := conn, commands := [], handlers := [], dataReady := fun _ => false,
    data := fun _ => none, waiters := [], modelCache := fun _ => none, registered := 0 }

/-- `transaction.sendData`. -/
def transaction.sendData (t : transaction) (key : String) (data : Reply) : transaction :=
  { t with
    data := fun k => if k = key then some data else t.data k
    dataReady := fun k => if k = key then true else t.dataReady k }

/-- `transaction.doWhenDataReady`. -/
def transaction.doWhenDataReady (t : transaction) (dataKeys : List String) (do_ : Nat) :
    transaction :=
  { t with
    waiters := t.waiters ++ [{ keys := dataKeys, do_ := do_, done := false, seq := t.registered }]
    registered := t.registered + 1 }

/-- `transaction.command`. -/
def transaction.command (t : transaction) (cmd : String) (args : List Arg)
    (handler : Option Handler) : transaction :=
  { t with
    commands := t.commands ++ [{ name := cmd, args := args }]
    handlers := t.handlers ++ [handler] }

/-! ## Closures and the trace -/

/-- What a closure may do to the transaction: a call of one of its methods. -/
inductive Act where
  | sendData (key : String) (data : Reply)
  | doWhenDataReady (dataKeys : List String) (do_ : Nat)
  | command (cmd : String) (args : List Arg) (handler : Option Handler)

/-- One call of a closure: the methods it calls on the transaction, in order, and the error it
    then returns. -/
structure Effect where
  acts : List Act
  err : Option Err

/-- The closures of the caller: what the handler or the waiter callback with a given number
    does, given the reply (for a handler) and the transaction as it is when the closure is
    called. -/
structure Closures where
  handler : Nat → Reply → transaction → Effect
  waiter : Nat → transaction → Effect

/-- The calls the engine makes on the outside, in the order it makes them. -/
inductive Event where
  /-- `t.conn.Send(name, args...)` -/
  | send (name : String) (args : List Arg)
  /-- `t.conn.Do(name)` -/
  | doCmd (name : String)
  /-- `t.conn.Close()` -/
  | close
  /-- `handler(reply)` for the handler at a position, with the error it returned -/
  | handler (pos : Nat) (reply : Reply) (err : Option Err)
  /-- `conn.Do(name, args...)` on a connection a handler got from `GetConn()` -/
  | side (c : command)
  /-- the reset of `t.commands` and `t.handlers` after a round -/
  | reset
  /-- `w.do()` of the waiter with a registration number, with the error it returned -/
  | waiter (seq : Nat) (err : Option Err)
deriving DecidableEq, Repr

/-- One method call of a closure on the transaction. -/
def transaction.act (t : transaction) : Act → transaction
  | .sendData key data => t.sendData key data
  | .doWhenDataReady dataKeys do_ => t.doWhenDataReady dataKeys do_
  | .command cmd args handler => t.command cmd args handler

/-- The method calls of a closure, in order. -/
def transaction.acts (t : transaction) (as : List Act) : transaction :=
  as.foldl transaction.act t

/-- `redis.String(reply, nil)`: a bulk string converts, an integer or a multi-bulk does not,
    and nil is `redis.ErrNil`. -/
def redisString : Reply → Except Err String
  | .str s => .ok s
  | .nil => .error (.other "redigo: nil returned")
  | .int _ => .error (.other "redigo: unexpected type for String")
  | .multi _ => .error (.other "redigo: unexpected type for String")

/-- The closure `removeOldAlphaIndex` passes to its HGET: the ZREM it sends on a connection
    of its own, if any, and the error it returns. -/
def removeOldAlphaIndexHandler (conn : Conn) (mr : modelRef) (fieldName : String)
    (reply : Reply) : List Event × Option Err :=
  if reply = Reply.nil then ([], none)
  else
    match redisString reply with
    | .error e => ([], some e)
    | .ok oldFieldValue =>
      if oldFieldValue = "" then ([], none)
      else if oldFieldValue ≠ "" ∧ oldFieldValue ≠ (mr.value fieldName).StringValue then
        let alphaIndexKey := mr.modelSpec.modelName ++ ":" ++ fieldName
        let member := oldFieldValue ++ " " ++ mr.model.GetId
        let zrem : command := { name := "ZREM", args := [.str alphaIndexKey, .str member] }
        ([Event.side zrem], conn.side zrem)
      else ([], none)

/-- `redis.MultiBulk(reply, nil)` and `redis.Values(reply, nil)`: a multi-bulk converts, nil is
    `redis.ErrNil`, anything else is an error. -/
def redisMultiBulk : Reply → Except Err (List String)
  | .multi items => .ok items
  | .nil => .error (.other "redigo: nil returned")
  | .int _ => .error (.other "redigo: unexpected type for Values")
  | .str _ => .error (.other "redigo: unexpected type for Values")

/-- `redis.Bool(reply, nil)`: an integer is true when it is not 0, a bulk string is parsed as
    `strconv.ParseBool` does, nil is `redis.ErrNil`. -/
def redisBool : Reply → Except Err Bool
  | .int i => .ok (decide (i ≠ 0))
  | .str s =>
    if s ∈ ["1", "t", "T", "TRUE", "true", "True"] then .ok true
    else if s ∈ ["0", "f", "F", "FALSE", "false", "False"] then .ok false
    else .error (.other "strconv.ParseBool: invalid syntax")
  | .nil => .error (.other "redigo: nil returned")
  | .multi _ => .error (.other "redigo: unexpected type for Bool")

/-- `checkModelExists(mr)`: SISMEMBER of the id in the index of the type, on a connection of
    its own; the key-not-found error when the id is no member. -/
def checkModelExists (conn : Conn) (mr : modelRef) : List Event × Option Err :=
  let indexKey := mr.modelSpec.modelName ++ ":all"
  let sismember : command := { name := "SISMEMBER", args := [.str indexKey, .str mr.model.GetId] }
  match conn.read sismember with
  | .error err => ([Event.side sismember], some err)
  | .ok reply =>
    match redisBool reply with
    | .error err => ([Event.side sismember], some err)
    | .ok isMember =>
      if !isMember then ([Event.side sismember], some (Err.keyNotFound mr.key))
      else ([Event.side sismember], none)

/-- The part the three scan handlers share: after a reply without elements the handler takes
    1 from `possibleKeyHits` of its copy of `mr` and, when that leaves 0, returns what
    `checkModelExists` returns; otherwise it goes on to `rest`. -/
def scanAfterMiss (conn : Conn) (mr : modelRef) (bulk : List String) (rest : Option Err) :
    List Event × Option Err :=
  if bulk.length = 0 then
    let mr1 : modelRef := { mr with possibleKeyHits := mr.possibleKeyHits - 1 }
    if mr1.possibleKeyHits = 0 then checkModelExists conn mr1
    else ([], rest)
  else ([], rest)

/-- The closure of `newScanHandler`. -/
def newScanHandler (conn : Conn) (mr : modelRef) (scan : List String → Option Err)
    (reply : Reply) : List Event × Option Err :=
  match redisMultiBulk reply with
  | .error err => ([], some err)
  | .ok replies => scanAfterMiss conn mr replies (scan replies)

/-- The closure of `newScanModelHandler`. -/
def newScanModelHandler (conn : Conn) (mr : modelRef) (scanModel : List String → Option Err)
    (reply : Reply) : List Event × Option Err :=
  match redisMultiBulk reply with
  | .error err => ([], some err)
  | .ok bulk => scanAfterMiss conn mr bulk (scanModel bulk)

/-- The closure of `newScanModelSliceHandler`: after the check of a miss it appends the
    elements of the reply to the field and returns nil. -/
def newScanModelSliceHandler (conn : Conn) (mr : modelRef) (reply : Reply) :
    List Event × Option Err :=
  match redisMultiBulk reply with
  | .error err => ([], some err)
  | .ok bulk => scanAfterMiss conn mr bulk none

/-- A call `handler(reply)`: the transaction after it, the calls it made on connections of its
    own, and the error it returned.  The scan handlers write into the record, which is no
    part of the transaction. -/
def runHandler (C : Closures) (h : Handler) (reply : Reply) (t : transaction) :
    transaction × List Event × Option Err :=
  match h with
  | .newSendDataHandler key => (t.sendData key reply, [], none)
  | .removeOldAlphaIndex mr fieldName =>
    let r := removeOldAlphaIndexHandler t.conn mr fieldName reply
    (t, r.1, r.2)
  | .closure id =>
    let e := C.handler id reply t
    (t.acts e.acts, [], e.err)
  | .newScanHandler mr scan =>
    let r := newScanHandler t.conn mr scan reply
    (t, r.1, r.2)
  | .newScanModelHandler mr scanModel =>
    let r := newScanModelHandler t.conn mr scanModel reply
    (t, r.1, r.2)
  | .newScanModelSliceHandler mr =>
    let r := newScanModelSliceHandler t.conn mr reply
    (t, r.1, r.2)

/-! ## `exec` -/

/-- The loop of `executeWaitersIfReady` over the waiters it ranges over: the transaction, the
    list `stillWaiting`, the calls made and the error returned, if any. -/
def executeWaitersIfReady.loop (C : Closures) :
    List waiter → transaction → List waiter → transaction × List waiter × List Event × Option Err
  | [], t, stillWaiting => (t, stillWaiting, [], none)
  | w :: ws, t, stillWaiting =>
    if w.ready t && !w.done then
      let e := C.waiter w.do_ t
      match e.err with
      | some err => (t.acts e.acts, stillWaiting, [Event.waiter w.seq (some err)], some err)
      | none =>
        let r := executeWaitersIfReady.loop C ws (t.acts e.acts) stillWaiting
        (r.1, r.2.1, Event.waiter w.seq none :: r.2.2.1, r.2.2.2)
    else executeWaitersIfReady.loop C ws t (stillWaiting ++ [w])

/-- The method `transaction.executeWaitersIfReady`.  The loop ranges over the slice `t.waiters`
    as it is when the loop starts; `t.waiters` is assigned only when no callback failed. -/
def transaction.executeWaitersIfReady (C : Closures) (t : transaction) :
    transaction × List Event × Option Err :=
  let r := executeWaitersIfReady.loop C t.waiters t []
  match r.2.2.2 with
  | some err => (r.1, r.2.2.1, some err)
  | none => ({ r.1 with waiters := r.2.1 }, r.2.2.1, none)

/-- The method `transaction.discard`: DISCARD, then the deferred `Close`. -/
def discard : List Event := [Event.doCmd "DISCARD", Event.close]

/-- The loop of `exec` that sends the pending commands of a round, from a position on: the
    calls made and the error of the first `Send` that fails. -/
def exec.sendAll (conn : Conn) (round : Nat) : Nat → List command → List Event × Option Err
  | _, [] => ([], none)
  | i, c :: cs =>
    match conn.send round i c with
    | some err => ([Event.send c.name c.args], some err)
    | none =>
      let r := exec.sendAll conn round (i + 1) cs
      (Event.send c.name c.args :: r.1, r.2)

/-- The loop of `exec` over the replies, from a position on, calling the handlers. -/
def exec.dispatch (C : Closures) :
    Nat → List Reply → transaction → transaction × List Event × Option Err
  | _, [], t => (t, [], none)
  | i, reply :: replies, t =>
    match t.handlers[i]? with
    | none => (t, [], some Err.indexOutOfRange)
    | some none => exec.dispatch C (i + 1) replies t
    | some (some h) =>
      let r := runHandler C h reply t
      match r.2.2 with
      | some err => (r.1, r.2.1 ++ [Event.handler i reply (some err)], some err)
      | none =>
        let r2 := exec.dispatch C (i + 1) replies r.1
        (r2.1, r.2.1 ++ Event.handler i reply none :: r2.2.1, r2.2.2)

/-- How the body of the loop of `exec` ends: with a `return err`, or at its end. -/
inductive Flow where
  | returned (err : Err)
  | next
deriving DecidableEq, Repr

/-- The body of the loop of `exec`, one round: MULTI, the commands, EXEC, the handlers, the
    reset, the waiters. -/
def exec.round (C : Closures) (round : Nat) (t : transaction) :
    transaction × List Event × Flow :=
  let multi := Event.send "MULTI" []
  let s := exec.sendAll t.conn round 0 t.commands
  match s.2 with
  | some err => (t, multi :: s.1, .returned err)
  | none =>
    match t.conn.exec round t.commands with
    | .error err => (t, multi :: s.1 ++ Event.doCmd "EXEC" :: discard, .returned err)
    | .ok replies =>
      let d := exec.dispatch C 0 replies t
      match d.2.2 with
      | some err => (d.1, multi :: s.1 ++ Event.doCmd "EXEC" :: d.2.1, .returned err)
      | none =>
        let t1 := { d.1 with commands := [], handlers := [] }
        let w := t1.executeWaitersIfReady C
        match w.2.2 with
        | some err =>
          (w.1, multi :: s.1 ++ Event.doCmd "EXEC" :: d.2.1 ++ Event.reset :: w.2.1,
            .returned err)
        | none =>
          (w.1, multi :: s.1 ++ Event.doCmd "EXEC" :: d.2.1 ++ Event.reset :: w.2.1, .next)

/-- The loop `for len(t.commands) > 0` of `exec`, with fuel: `none` when the fuel runs out
    before the loop ends. -/
def exec.loop (C : Closures) :
    Nat → Nat → transaction → Option (transaction × List Event × Option Err)
  | fuel, round, t =>
    if t.commands.length > 0 then
      match fuel with
      | 0 => none
      | fuel + 1 =>
        let r := exec.round C round t
        match r.2.2 with
        | .returned err => some (r.1, r.2.1, some err)
        | .next =>
          match exec.loop C fuel (round + 1) r.1 with
          | none => none
          | some r2 => some (r2.1, r.2.1 ++ r2.2.1, r2.2.2)
    else some (t, [], none)

/-- The keys `exec` reports as pending: the keys of the waiters left that are not marked
    ready. -/
def exec.pendingData (t : transaction) : List String :=
  (t.waiters.map (fun w => w.keys.filter (fun key => !t.dataReady key))).flatten

/-- The end of `exec`, after the loop: the error about pending data when waiters are left. -/
def exec.finish (t : transaction) : Option Err :=
  if t.waiters.length > 0 then
    some (Err.pendingData t.waiters.length (exec.pendingData t))
  else none

/-- The body of `exec`, before its deferred `discard`. -/
def exec.body (C : Closures) (fuel : Nat) (t : transaction) :
    Option (transaction × List Event × Option Err) :=
  let w := t.executeWaitersIfReady C
  match w.2.2 with
  | some err => some (w.1, w.2.1, some err)
  | none =>
    match exec.loop C fuel 0 w.1 with
    | none => none
    | some r =>
      match r.2.2 with
      | some err => some (r.1, w.2.1 ++ r.2.1, some err)
      | none => some (r.1, w.2.1 ++ r.2.1, exec.finish r.1)

/-- The method `transaction.exec`: the transaction it leaves, the calls it made and the error
    it returns; `none` when the fuel runs out. -/
def transaction.exec (C : Closures) (fuel : Nat) (t : transaction) :
    Option (transaction × List Event × Option Err) :=
  match exec.body C fuel t with
  | none => none
  | some r => some (r.1, r.2.1 ++ discard, r.2.2)

/-! ## Saving a model -/

/-- The functions `transaction.go` calls that are declared elsewhere in the package. -/
structure Lib where
  /-- the spec `newModelRefFromModel` finds for the type of a model, or its error -/
  specOf : Model → Except Err modelSpec
  /-- the id `generateRandomId()` returns -/
  generateRandomId : String
  /-- `convertNumericToFloat64` -/
  convertNumericToFloat64 : Value → Except Err Float64
  /-- `modelRef.mainHashArgs` -/
  mainHashArgs : modelRef → Except Err (List Arg)

/-- Modelled from the spec: `newModelRefFromModel` is not in `transaction.go`; it pairs the model
    with the spec of its type, and the counter of possible key hits starts at the number of
    remote structures that could hold data of the record: its main hash, each list, each set,
    each relationship. -/
def newModelRefFromModel (L : Lib) (m : Model) : Except Err modelRef :=
  match L.specOf m with
  | .error e => .error e
  | .ok ms =>
    .ok { modelSpec := ms, model := m,
          possibleKeyHits := 1 + ms.lists.length + ms.sets.length + ms.relationships.length }

/-- `transaction.saveStruct`. -/
def transaction.saveStruct (L : Lib) (t : transaction) (mr : modelRef) :
    transaction × Option Err :=
  match L.mainHashArgs mr with
  | .error err => (t, some err)
  | .ok args => (if args.length > 1 then t.command "HMSET" args none else t, none)

/-- `transaction.index`. -/
def transaction.index (t : transaction) (mr : modelRef) : transaction :=
  t.command "SADD" [.str mr.indexKey, .str mr.model.GetId] none

/-- `transaction.saveModelLists`. -/
def transaction.saveModelLists (t : transaction) (mr : modelRef) : transaction :=
  mr.modelSpec.lists.foldl (fun t list =>
    let field := mr.value list.fieldName
    if field.IsNil then t
    else
      let listKey := mr.key ++ ":" ++ list.redisName
      t.command "RPUSH" (.str listKey :: field.flat) none) t

/-- `transaction.saveModelSets`. -/
def transaction.saveModelSets (t : transaction) (mr : modelRef) : transaction :=
  mr.modelSpec.sets.foldl (fun t set =>
    let field := mr.value set.fieldName
    if field.IsNil then t
    else
      let setKey := mr.key ++ ":" ++ set.redisName
      t.command "SADD" (.str setKey :: field.flat) none) t

/-- `transaction.saveModelOneToOneRelationship`. -/
def transaction.saveModelOneToOneRelationship (t : transaction) (mr : modelRef)
    (r : relationship) : transaction × Option Err :=
  let field := mr.value r.fieldName
  if field.IsNil then (t, none)
  else
    match field.asModel with
    | none => (t, some (Err.cannotConvert field.typeName))
    | some rModelId =>
      if rModelId = "" then (t, some Err.noId)
      else
        let relationKey := mr.key ++ ":" ++ r.redisName
        (t.command "SET" [.str relationKey, .str rModelId] none, none)

/-- The loop of `saveModelOneToManyRelationship` over the elements of the field: the ids
    collected, or the error of the first element that is no model or has no id. -/
def saveModelOneToManyRelationship.ids (typeName : String) :
    List Scalar → List String → Except Err (List String)
  | [], ids => .ok ids
  | rElem :: rest, ids =>
    match rElem.asModel with
    | none => .error (Err.cannotConvert typeName)
    | some rModelId =>
      if rModelId = "" then .error Err.noId
      else saveModelOneToManyRelationship.ids typeName rest (ids ++ [rModelId])

/-- The elements `field.Index(i)` of a field, for `i < field.Len()`. -/
def Value.elems : Value → List Scalar
  | .slice _ elems => elems
  | _ => []

/-- `transaction.saveModelOneToManyRelationship`. -/
def transaction.saveModelOneToManyRelationship (t : transaction) (mr : modelRef)
    (r : relationship) : transaction × Option Err :=
  let field := mr.value r.fieldName
  if field.IsNil then (t, none)
  else
    match saveModelOneToManyRelationship.ids field.typeName field.elems [] with
    | .error err => (t, some err)
    | .ok ids =>
      if ids.length > 0 then
        let relationKey := mr.key ++ ":" ++ r.redisName
        (t.command "SADD" (.str relationKey :: ids.map Arg.str) none, none)
      else (t, none)

/-- The loop of `saveModelRelationships` over the relationships of the spec. -/
def saveModelRelationships.loop (mr : modelRef) :
    List relationship → transaction → transaction × Option Err
  | [], t => (t, none)
  | r :: rs, t =>
    match r.rType with
    | .oneToOne =>
      match t.saveModelOneToOneRelationship mr r with
      | (t1, some err) => (t1, some err)
      | (t1, none) => saveModelRelationships.loop mr rs t1
    | .oneToMany =>
      match t.saveModelOneToManyRelationship mr r with
      | (t1, some err) => (t1, some err)
      | (t1, none) => saveModelRelationships.loop mr rs t1

/-- `transaction.saveModelRelationships`. -/
def transaction.saveModelRelationships (t : transaction) (mr : modelRef) :
    transaction × Option Err :=
  saveModelRelationships.loop mr mr.modelSpec.relationships t

/-- `transaction.indexNumeric`. -/
def transaction.indexNumeric (t : transaction) (indexKey : String) (score : Float64)
    (id : String) : transaction :=
  t.command "ZADD" [.str indexKey, .float score, .str id] none

/-- `transaction.saveModelPrimativeIndexNumeric`. -/
def transaction.saveModelPrimativeIndexNumeric (L : Lib) (t : transaction) (mr : modelRef)
    (p : primative) : transaction × Option Err :=
  let indexKey := mr.modelSpec.modelName ++ ":" ++ p.redisName
  match L.convertNumericToFloat64 (mr.value p.fieldName) with
  | .error err => (t, some err)
  | .ok score => (t.indexNumeric indexKey score mr.model.GetId, none)

/-- `transaction.saveModelPointerIndexNumeric`. -/
def transaction.saveModelPointerIndexNumeric (L : Lib) (t : transaction) (mr : modelRef)
    (p : pointer) : transaction × Option Err :=
  if (mr.value p.fieldName).IsNil then (t, none)
  else
    let indexKey := mr.modelSpec.modelName ++ ":" ++ p.redisName
    match L.convertNumericToFloat64 (mr.value p.fieldName).Elem with
    | .error err => (t, some err)
    | .ok score => (t.indexNumeric indexKey score mr.model.GetId, none)

/-- `transaction.indexAlpha`. -/
def transaction.indexAlpha (t : transaction) (indexKey value id : String) : transaction :=
  let member := value ++ " " ++ id
  t.command "ZADD" [.str indexKey, .int 0, .str member] none

/-- `transaction.removeOldAlphaIndex`: the HGET of the stored value of the field, with the
    handler that removes the old member of the index. -/
def transaction.removeOldAlphaIndex (t : transaction) (mr : modelRef) (fieldName : String)
    (redisName : String) : transaction :=
  t.command "HGET" [.str mr.key, .str redisName] (some (.removeOldAlphaIndex mr fieldName))

/-- `transaction.saveModelPrimativeIndexAlpha`. -/
def transaction.saveModelPrimativeIndexAlpha (t : transaction) (mr : modelRef)
    (p : primative) : transaction :=
  let t1 := t.removeOldAlphaIndex mr p.fieldName p.redisName
  let indexKey := mr.modelSpec.modelName ++ ":" ++ p.redisName
  let value := (mr.value p.fieldName).StringValue
  t1.indexAlpha indexKey value mr.model.GetId

/-- `transaction.saveModelPointerIndexAlpha`. -/
def transaction.saveModelPointerIndexAlpha (t : transaction) (mr : modelRef)
    (p : pointer) : transaction :=
  let t1 := t.removeOldAlphaIndex mr p.fieldName p.redisName
  if (mr.value p.fieldName).IsNil then t1
  else
    let indexKey := mr.modelSpec.modelName ++ ":" ++ p.redisName
    let value := (mr.value p.fieldName).Elem.StringValue
    t1.indexAlpha indexKey value mr.model.GetId

/-- The float64 constants 1.0 and 0.0 of the boolean indexes. -/
def boolScore (value : Bool) : Float64 :=
  if value = true then ⟨0x3FF0000000000000⟩ else ⟨0⟩

/-- `transaction.saveModelPrimativeIndexBoolean`. -/
def transaction.saveModelPrimativeIndexBoolean (t : transaction) (mr : modelRef)
    (p : primative) : transaction :=
  let value := (mr.value p.fieldName).BoolValue
  let indexKey := mr.modelSpec.modelName ++ ":" ++ p.redisName
  t.indexNumeric indexKey (boolScore value) mr.model.GetId

/-- `transaction.saveModelPointerIndexBoolean`. -/
def transaction.saveModelPointerIndexBoolean (t : transaction) (mr : modelRef)
    (p : pointer) : transaction :=
  if (mr.value p.fieldName).IsNil then t
  else
    let value := (mr.value p.fieldName).Elem.BoolValue
    let indexKey := mr.modelSpec.modelName ++ ":" ++ p.redisName
    t.indexNumeric indexKey (boolScore value) mr.model.GetId

/-- The first loop of `saveModelIndexes`, over the indexed fields of primitive type. -/
def saveModelIndexes.primatives (L : Lib) (mr : modelRef) :
    List primative → transaction → transaction × Option Err
  | [], t => (t, none)
  | p :: ps, t =>
    match p.indexType with
    | .indexNumeric =>
      match t.saveModelPrimativeIndexNumeric L mr p with
      | (t1, some err) => (t1, some err)
      | (t1, none) => saveModelIndexes.primatives L mr ps t1
    | .indexAlpha => saveModelIndexes.primatives L mr ps (t.saveModelPrimativeIndexAlpha mr p)
    | .indexBoolean => saveModelIndexes.primatives L mr ps (t.saveModelPrimativeIndexBoolean mr p)

/-- The second loop of `saveModelIndexes`, over the indexed fields of pointer type. -/
def saveModelIndexes.pointers (L : Lib) (mr : modelRef) :
    List pointer → transaction → transaction × Option Err
  | [], t => (t, none)
  | p :: ps, t =>
    match p.indexType with
    | .indexNumeric =>
      match t.saveModelPointerIndexNumeric L mr p with
      | (t1, some err) => (t1, some err)
      | (t1, none) => saveModelIndexes.pointers L mr ps t1
    | .indexAlpha => saveModelIndexes.pointers L mr ps (t.saveModelPointerIndexAlpha mr p)
    | .indexBoolean => saveModelIndexes.pointers L mr ps (t.saveModelPointerIndexBoolean mr p)

/-- `transaction.saveModelIndexes`. -/
def transaction.saveModelIndexes (L : Lib) (t : transaction) (mr : modelRef) :
    transaction × Option Err :=
  match saveModelIndexes.primatives L mr mr.modelSpec.primativeIndexes t with
  | (t1, some err) => (t1, some err)
  | (t1, none) => saveModelIndexes.pointers L mr mr.modelSpec.pointerIndexes t1

/-- `transaction.saveModel`: the transaction, the model (whose id it may set) and the error
    returned.  The `modelRef` holds the pointer to the model, so it sees the id that is set.
    The result of `saveModelRelationships` is not looked at. -/
def transaction.saveModel (L : Lib) (t : transaction) (m : Model) :
    transaction × Model × Option Err :=
  match newModelRefFromModel L m with
  | .error err => (t, m, some err)
  | .ok mr0 =>
    let m1 := if m.GetId = "" then m.SetId L.generateRandomId else m
    let mr : modelRef := { mr0 with model := m1 }
    match t.saveModelIndexes L mr with
    | (t1, some err) => (t1, m1, some err)
    | (t1, none) =>
      match t1.saveStruct L mr with
      | (t2, some err) => (t2, m1, some err)
      | (t2, none) =>
        let t3 := t2.index mr
        let t4 := t3.saveModelLists mr
        let t5 := t4.saveModelSets mr
        let t6 := (t5.saveModelRelationships mr).1
        (t6, m1, none)

/-! ## Reading a trace -/

/-- The registration numbers of the waiters whose callback was called, in the order of the
    calls. -/
def waiterSeqs (events : List Event) : List Nat :=
  events.filterMap (fun e => match e with
    | .waiter seq _ => some seq
    | _ => none)

/-- The handler calls of a trace, in order: position, reply given, error returned. -/
def handlerCalls (events : List Event) : List (Nat × Reply × Option Err) :=
  events.filterMap (fun e => match e with
    | .handler pos reply err => some (pos, reply, err)
    | _ => none)

/-- Whether the handler slot at a position holds a handler (is not nil). -/
def hasHandler (handlers : List (Option Handler)) (i : Nat) : Bool :=
  match handlers[i]? with
  | some (some _) => true
  | _ => false

/-- The transaction as it is when `executeWaitersIfReady` visits the waiter that follows the
    waiters `before` in `t.waiters`. -/
def visitState (C : Closures) (before : List waiter) (t : transaction) : transaction :=
  (executeWaitersIfReady.loop C before t []).1

/-- The registration numbers `waiting` of the waiters pending and `fired` of the waiters called
    are pairwise distinct and below the number of registrations so far. -/
def SeqInv (waiting fired : List Nat) (bound : Nat) : Prop :=
  (waiting ++ fired).Nodup ∧ ∀ s ∈ waiting ++ fired, s < bound

/-- Whether a method call of a closure publishes the key: by `sendData`, or by queueing a command
    whose handler is that of `newSendDataHandler` for the key. -/
def Act.publishes (k : String) : Act → Bool
  | .sendData key _ => decide (key = k)
  | .command _ _ (some (.newSendDataHandler key)) => decide (key = k)
  | _ => false

/-- Whether a handler slot holds the handler of `newSendDataHandler` for the key. -/
def slotPublishes (k : String) : Option Handler → Bool
  | some (.newSendDataHandler key) => decide (key = k)
  | _ => false

/-- The key `k` is not published and no handler slot of the transaction will publish it. -/
def Quiet (k : String) (t : transaction) : Prop :=
  t.dataReady k = false ∧ ∀ h ∈ t.handlers, slotPublishes k h = false

/-- The closures never publish the key `k`. -/
def NeverPublishes (C : Closures) (k : String) : Prop :=
  (∀ id t, ∀ a ∈ (C.waiter id t).acts, a.publishes k = false) ∧
  (∀ id reply t, ∀ a ∈ (C.handler id reply t).acts, a.publishes k = false)

/-! ## Inputs on which the theorems below evaluate the code -/

/-- A connection on which every call succeeds; EXEC answers nil to every command. -/
def okConn : Conn :=
  { send := fun _ _ _ => none
    exec := fun _ cs => .ok (cs.map fun _ => Reply.nil)
    side := fun _ => none }

/-- A connection on which the EXEC round trip fails. -/
def execFailsConn : Conn :=
  { send := fun _ _ _ => none
    exec := fun _ _ => .error (.other "EXEC failed")
    side := fun _ => none }

/-- Closures: every handler and callback succeeds; callback 0 registers a waiter for the key
    "k" with callback 1; nothing publishes "k". -/
def registersStuckWaiter : Closures :=
  { handler := fun _ _ _ => ⟨[], none⟩
    waiter := fun id _ =>
      if id = 0 then ⟨[.doWhenDataReady ["k"] 1], none⟩ else ⟨[], none⟩ }

/-- Closures: every handler and callback succeeds; callback 0 registers a waiter without keys
    with callback 1. -/
def registersReadyWaiter : Closures :=
  { handler := fun _ _ _ => ⟨[], none⟩
    waiter := fun id _ =>
      if id = 0 then ⟨[.doWhenDataReady [] 1], none⟩ else ⟨[], none⟩ }

/-- Closures: every handler and callback succeeds; callback 1 publishes the key "k". -/
def laterPublishes : Closures :=
  { handler := fun _ _ _ => ⟨[], none⟩
    waiter := fun id _ =>
      if id = 1 then ⟨[.sendData "k" (.str "v")], none⟩ else ⟨[], none⟩ }

/-- A transaction with one waiter, without keys, with callback 0. -/
def oneReadyWaiter : transaction :=
  (newTransaction okConn).doWhenDataReady [] 0

/-- A transaction with a waiter for "k" (callback 0) registered before a waiter without keys
    (callback 1). -/
def earlierDependsOnLater : transaction :=
  ((newTransaction okConn).doWhenDataReady ["k"] 0).doWhenDataReady [] 1

/-- A transaction with one queued command, on a connection whose EXEC fails. -/
def onePingExecFails : transaction :=
  (newTransaction execFailsConn).command "PING" [] none

/-- The spec of a record type with one to-one relationship. -/
def artistSpec : modelSpec :=
  { modelName := "artist", lists := [], sets := [],
    relationships := [⟨"FavoriteColor", "FavoriteColor", .oneToOne⟩],
    primativeIndexes := [], pointerIndexes := [] }

/-- A registry that knows the artists. -/
def artistLib : Lib :=
  { specOf := fun _ => .ok artistSpec
    generateRandomId := "fresh"
    convertNumericToFloat64 := fun _ => .error (.other "not a number")
    mainHashArgs := fun mr => .ok [.str mr.key, .str "Name", .str "Alex"] }

/-- An artist with id "a1" whose favourite colour is a record without id. -/
def artistUnsavedColor : Model :=
  { id := "a1", fields := fun f => if f = "FavoriteColor" then .ptr (.model "") else .nil }

/-- An artist with id "a1" whose favourite colour is the record with id "c1". -/
def artistSavedColor : Model :=
  { id := "a1", fields := fun f => if f = "FavoriteColor" then .ptr (.model "c1") else .nil }

/-- An artist with id "a1" and no favourite colour. -/
def artistNoColor : Model :=
  { id := "a1", fields := fun _ => .nil }

/-- Closures: callback 0 queues a GET whose handler publishes "k", a PING without handler and
    a GET with handler 7; callback 1 does nothing; callback 2 fails; handler 7 succeeds and
    handler 8 fails. -/
def demoClosures : Closures :=
  { handler := fun id _ _ =>
      if id = 8 then ⟨[], some (.other "handler 8 failed")⟩ else ⟨[], none⟩
    waiter := fun id _ =>
      if id = 0 then
        ⟨[.command "GET" [.str "a"] (some (.newSendDataHandler "k")),
          .command "PING" [] none,
          .command "GET" [.str "b"] (some (.closure 7))], none⟩
      else if id = 2 then ⟨[], some (.other "callback 2 failed")⟩
      else ⟨[], none⟩ }

/-- A transaction with a waiter for "k" (callback 1) registered before a waiter without keys
    (callback 0). -/
def twoPasses : transaction :=
  ((newTransaction okConn).doWhenDataReady ["k"] 1).doWhenDataReady [] 0

/-- A transaction with a waiter for "k" and two waiters without keys, the first of which has
    the callback that fails. -/
def secondFails : transaction :=
  (((newTransaction okConn).doWhenDataReady ["k"] 1).doWhenDataReady [] 2).doWhenDataReady [] 1

/-- A transaction with four queued commands: the first with the handler that publishes "k",
    the second without handler, the third with the handler that fails, the fourth with a
    handler that succeeds. -/
def fourCommands : transaction :=
  ((((newTransaction okConn).command "GET" [.str "a"] (some (.newSendDataHandler "k"))).command
    "PING" [] none).command "GET" [.str "b"] (some (.closure 8))).command
    "GET" [.str "c"] (some (.closure 7))

/-- A petOwner type with one to-many relationship. -/
def petOwnerSpec : modelSpec :=
  { modelName := "petOwner", lists := [], sets := [],
    relationships := [⟨"Pets", "Pets", .oneToMany⟩],
    primativeIndexes := [], pointerIndexes := [] }

/-- A pet owner with id "o1" whose pets are the records with the given ids. -/
def petOwner (ids : List String) : Model :=
  { id := "o1"
    fields := fun f => if f = "Pets" then .slice "[]*Pet" (ids.map Scalar.model) else .nil }

/-! ## Deleting a model -/

/-- The schema registry and the functions of the package that the find and delete operations
    of `transaction.go` call and that are declared elsewhere. -/
structure Registry where
  /-- the global map `modelSpecs`, from registered name to spec -/
  modelSpecs : String → Option modelSpec
  /-- `FindById(modelName, id)` -/
  FindById : String → String → Except Err Model
  /-- `getRegisteredNameFromType` of the type of a relationship field, given the name of the
      model and the name of the field: the registered name of the records the field refers
      to, or "" when their type is not registered -/
  targetName : String → String → String
  /-- whether the records a relationship field refers to implement `Model` (the type
      assertion in `findModelOneToOneRelation` and `findModelOneToManyRelation`) -/
  targetIsModel : String → String → Bool
  /-- the error of `scanModel(bulk, mr)` -/
  scanModel : modelRef → List String → Option Err
  /-- the error of `redis.Scan(replies, scannables...)` into the fields named -/
  scan : modelRef → List String → List String → Option Err

/-- `redis.Scan(replies, scannables...)` of the driver, as far as its first check goes: with
    fewer replies than destinations it returns an error.  What it returns otherwise depends
    on the conversions, which are not modelled; nil stands in. -/
def scanArrayShort (names replies : List String) : Option Err :=
  if replies.length < names.length then some (Err.other "redigo: Scan array short") else none

/-- `transaction.delete`. -/
def transaction.delete (t : transaction) (key : String) : transaction :=
  t.command "DEL" [.str key] none

/-- `transaction.unindex`. -/
def transaction.unindex (t : transaction) (key value : String) : transaction :=
  t.command "SREM" [.str key, .str value] none

/-- `transaction.unindexNumeric`. -/
def transaction.unindexNumeric (t : transaction) (indexKey id : String) : transaction :=
  t.command "ZREM" [.str indexKey, .str id] none

/-- `transaction.unindexAlpha`. -/
def transaction.unindexAlpha (t : transaction) (indexKey value id : String) : transaction :=
  let member := value ++ " " ++ id
  t.command "ZREM" [.str indexKey, .str member] none

/-- `transaction.removeModelPrimativeIndexNumeric`. -/
def transaction.removeModelPrimativeIndexNumeric (t : transaction) (mr : modelRef)
    (p : primative) : transaction :=
  t.unindexNumeric (mr.modelSpec.modelName ++ ":" ++ p.redisName) mr.model.GetId

/-- `transaction.removeModelPointerIndexNumeric`. -/
def transaction.removeModelPointerIndexNumeric (t : transaction) (mr : modelRef)
    (p : pointer) : transaction :=
  if (mr.value p.fieldName).IsNil then t
  else t.unindexNumeric (mr.modelSpec.modelName ++ ":" ++ p.redisName) mr.model.GetId

/-- `transaction.removeModelPrimativeIndexAlpha`. -/
def transaction.removeModelPrimativeIndexAlpha (t : transaction) (mr : modelRef)
    (p : primative) : transaction :=
  let indexKey := mr.modelSpec.modelName ++ ":" ++ p.redisName
  let value := (mr.value p.fieldName).StringValue
  t.unindexAlpha indexKey value mr.model.GetId

/-- `transaction.removeModelPointerIndexAlpha`. -/
def transaction.removeModelPointerIndexAlpha (t : transaction) (mr : modelRef)
    (p : pointer) : transaction :=
  if (mr.value p.fieldName).IsNil then t
  else
    let indexKey := mr.modelSpec.modelName ++ ":" ++ p.redisName
    let value := (mr.value p.fieldName).Elem.StringValue
    t.unindexAlpha indexKey value mr.model.GetId

/-- `transaction.removeModelPrimativeIndexBoolean`. -/
def transaction.removeModelPrimativeIndexBoolean (t : transaction) (mr : modelRef)
    (p : primative) : transaction :=
  t.unindexNumeric (mr.modelSpec.modelName ++ ":" ++ p.redisName) mr.model.GetId

/-- `transaction.removeModelPointerIndexBoolean`. -/
def transaction.removeModelPointerIndexBoolean (t : transaction) (mr : modelRef)
    (p : pointer) : transaction :=
  t.unindexNumeric (mr.modelSpec.modelName ++ ":" ++ p.redisName) mr.model.GetId

/-- `transaction.removeModelIndexes`. -/
def transaction.removeModelIndexes (t : transaction) (mr : modelRef) : transaction :=
  let t1 := mr.modelSpec.primativeIndexes.foldl (fun t p =>
    match p.indexType with
    | .indexNumeric => t.removeModelPrimativeIndexNumeric mr p
    | .indexAlpha => t.removeModelPrimativeIndexAlpha mr p
    | .indexBoolean => t.removeModelPrimativeIndexBoolean mr p) t
  mr.modelSpec.pointerIndexes.foldl (fun t p =>
    match p.indexType with
    | .indexNumeric => t.removeModelPointerIndexNumeric mr p
    | .indexAlpha => t.removeModelPointerIndexAlpha mr p
    | .indexBoolean => t.removeModelPointerIndexBoolean mr p) t1

/-- `transaction.deleteModel`. -/
def transaction.deleteModel (t : transaction) (mr : modelRef) : transaction :=
  let modelName := mr.modelSpec.modelName
  let id := mr.model.GetId
  let t1 := t.delete (modelName ++ ":" ++ id)
  let t2 := t1.unindex (modelName ++ ":all") id
  t2.removeModelIndexes mr

/-- `transaction.deleteModelById`. -/
def transaction.deleteModelById (L : Lib) (R : Registry) (t : transaction)
    (modelName id : String) : transaction × Option Err :=
  match R.modelSpecs modelName with
  | none => (t, some (Err.modelNameNotRegistered modelName))
  | some ms =>
    let finish := fun (t : transaction) =>
      ((t.delete (modelName ++ ":" ++ id)).unindex (modelName ++ ":all") id, (none : Option Err))
    if ms.primativeIndexes.length ≠ 0 ∨ ms.pointerIndexes.length ≠ 0 then
      match R.FindById modelName id with
      | .error (Err.keyNotFound _) => (t, none)
      | .error err => (t, some err)
      | .ok m =>
        match newModelRefFromModel L m with
        | .error err => (t, some err)
        | .ok mr => finish (t.removeModelIndexes mr)
    else finish t

/-- A person type with an indexed field `Name` whose store-facing name is `name`, and an indexed
    pointer field `Nick`. -/
def personSpec : modelSpec :=
  { modelName := "person", lists := [], sets := [], relationships := [],
    primativeIndexes := [⟨"Name", "name", .indexAlpha⟩],
    pointerIndexes := [⟨"Nick", "Nick", .indexAlpha⟩] }

/-- The person "p1" with the name "Bob" and the nickname "Bobby". -/
def bob : Model :=
  { id := "p1"
    fields := fun f =>
      if f = "Name" then .prim (.str "Bob")
      else if f = "Nick" then .ptr (.str "Bobby") else .nil }

/-- A registry that knows the persons; no person is found. -/
def personRegistry : Registry :=
  { modelSpecs := fun n => if n = "person" then some personSpec else none
    FindById := fun n id => .error (Err.keyNotFound (n ++ ":" ++ id))
    targetName := fun _ _ => ""
    targetIsModel := fun _ _ => false
    scanModel := fun _ _ => none
    scan := fun _ names replies => scanArrayShort names replies }

/-- A registry that knows the persons and fails to load them. -/
def personRegistryFails : Registry :=
  { personRegistry with FindById := fun _ _ => .error (Err.other "connection refused") }

/-! ## Finding a model -/

/-- A record in memory behind its pointer, as far as the traversal of `findModel` looks: the
    registered name of its type, its id, and its relationship fields by field name, a to-one
    field being nil or the address of a record and a to-many field a slice of addresses. -/
structure Record where
  typeName : String
  id : String
  one : String → Option Nat
  many : String → List Nat

/-- What a traversal does, in order. -/
inductive FindEvent where
  /-- `t.modelCache[key] = mr.model` -/
  | register (key : String) (model : Nat)
  /-- `t.command(...)` -/
  | command (c : command)
  /-- `conn.Do(...)` on a connection got from `GetConn()` -/
  | read (c : command)
  /-- a call `t.findModel(rModelRef, nil)` for the target of a relationship, with the key of
      `rModelRef` -/
  | findModel (key : String)
deriving DecidableEq, Repr

/-- The transaction of a traversal together with the records in memory (the record at an
    address below `next`; `reflect.New` takes the address `next`) and the trace so far. -/
structure Finder where
  t : transaction
  records : Nat → Record
  next : Nat
  trace : List FindEvent

/-- How a function of the traversal returns; `outOfFuel` when the model ran out of fuel. -/
inductive Ret where
  | nil
  | err (e : Err)
  | outOfFuel
deriving DecidableEq, Repr

/-- `redis.Strings(reply, nil)`. -/
def redisStrings : Reply → Except Err (List String)
  | .multi items => .ok items
  | .nil => .error (.other "redigo: nil returned")
  | .int _ => .error (.other "redigo: unexpected type for Strings")
  | .str _ => .error (.other "redigo: unexpected type for Strings")

/-- `stringSliceContains` under `if includes != nil`: whether the filter `includes` leaves a
    field out. -/
def skipped (includes : Option (List String)) (fieldName : String) : Bool :=
  match includes with
  | none => false
  | some names => !names.contains fieldName

/-- `conn.Do(...)` on a connection of its own: the read is traced. -/
def Finder.read (s : Finder) (c : command) : Finder :=
  { s with trace := s.trace ++ [FindEvent.read c] }

/-- `t.command(...)` in a traversal. -/
def Finder.command (s : Finder) (cmd : String) (args : List Arg) (handler : Option Handler) :
    Finder :=
  { s with t := s.t.command cmd args handler
           trace := s.trace ++ [FindEvent.command { name := cmd, args := args }] }

/-- `t.modelCache[key] = model`. -/
def Finder.register (s : Finder) (key : String) (model : Nat) : Finder :=
  { s with t := { s.t with modelCache := fun k => if k = key then some model else s.t.modelCache k }
           trace := s.trace ++ [FindEvent.register key model] }

/-- `reflect.New` of a record type: a record with zero values at the address `next`. -/
def Finder.new (s : Finder) (typeName : String) : Finder :=
  { s with
    records := fun a =>
      if a = s.next then { typeName := typeName, id := "", one := fun _ => none, many := fun _ => [] }
      else s.records a
    next := s.next + 1 }

/-- `SetId` on the record at an address. -/
def Finder.SetId (s : Finder) (model : Nat) (id : String) : Finder :=
  { s with records := fun a => if a = model then { s.records a with id := id } else s.records a }

/-- `field.Set` of a to-one field of the record at an address. -/
def Finder.setOne (s : Finder) (model : Nat) (fieldName : String) (target : Nat) : Finder :=
  { s with records := fun a =>
      if a = model then
        { s.records a with
          one := fun f => if f = fieldName then some target else (s.records a).one f }
      else s.records a }

/-- `field.Set(reflect.Append(field, v))` on a to-many field of the record at an address. -/
def Finder.appendMany (s : Finder) (model : Nat) (fieldName : String) (target : Nat) : Finder :=
  { s with records := fun a =>
      if a = model then
        { s.records a with
          many := fun f =>
            if f = fieldName then (s.records a).many f ++ [target] else (s.records a).many f }
      else s.records a }

/-- Modelled from the spec: `newModelRefFromModel` is not in `transaction.go`; for a record in
    memory it pairs the record with the spec registered for its type, or fails when the type
    is not registered; the counter of possible key hits starts at the number of remote
    structures that could hold data of the record. -/
def Registry.newModelRefFromModel (R : Registry) (rec : Record) : Except Err modelRef :=
  match R.modelSpecs rec.typeName with
  | none => .error (Err.modelNameNotRegistered rec.typeName)
  | some ms =>
    .ok { modelSpec := ms, model := { id := rec.id, fields := fun _ => Value.nil },
          possibleKeyHits := 1 + ms.lists.length + ms.sets.length + ms.relationships.length }

/-- `transaction.findModelLists`. -/
def Finder.findModelLists (s : Finder) (mr : modelRef) (includes : Option (List String)) :
    Finder :=
  mr.modelSpec.lists.foldl (fun s list =>
    if skipped includes list.fieldName then s
    else
      let listKey := mr.key ++ ":" ++ list.redisName
      s.command "LRANGE" [.str listKey, .int 0, .int (-1)]
        (some (.newScanModelSliceHandler mr))) s

/-- `transaction.findModelSets`. -/
def Finder.findModelSets (s : Finder) (mr : modelRef) (includes : Option (List String)) :
    Finder :=
  mr.modelSpec.sets.foldl (fun s set =>
    if skipped includes set.fieldName then s
    else
      let setKey := mr.key ++ ":" ++ set.redisName
      s.command "SMEMBERS" [.str setKey] (some (.newScanModelSliceHandler mr))) s

/-- The end of `findModelOneToOneRelation` and of the body of the loop of
    `findModelOneToManyRelation`, for a target that is not cached: the type assertion to
    `Model` on the new record at the address `rModel`, `SetId`, `newModelRefFromModel` and the
    call of `findModel`, here `self`. -/
def findTarget (R : Registry) (self : Finder → modelRef → Nat → Finder × Ret)
    (s : Finder) (mr : modelRef) (r : relationship) (rModel : Nat) (id : String) :
    Finder × Ret :=
  if !R.targetIsModel mr.modelSpec.modelName r.fieldName then
    (s, Ret.err (Err.cannotConvert (R.targetName mr.modelSpec.modelName r.fieldName)))
  else
    let s1 := s.SetId rModel id
    match R.newModelRefFromModel (s1.records rModel) with
    | .error err => (s1, Ret.err err)
    | .ok rModelRef =>
      self { s1 with trace := s1.trace ++ [FindEvent.findModel rModelRef.key] } rModelRef rModel

/-- `transaction.findModelOneToOneRelation`, the record of `mr` being at the address `model`
    and `self` being `findModel`. -/
def findModelOneToOneRelation (R : Registry) (self : Finder → modelRef → Nat → Finder × Ret)
    (s : Finder) (mr : modelRef) (model : Nat) (r : relationship) : Finder × Ret :=
  let get : command := { name := "GET", args := [.str (mr.key ++ ":" ++ r.redisName)] }
  let s1 := s.read get
  match s.t.conn.read get with
  | .error err => (s1, Ret.err err)
  | .ok reply =>
    match redisString reply with
    | .error err => (s1, Ret.err err)
    | .ok id =>
      let rModelName := R.targetName mr.modelSpec.modelName r.fieldName
      let rModelKey := rModelName ++ ":" ++ id
      match s1.t.modelCache rModelKey with
      | some prior => (s1.setOne model r.fieldName prior, Ret.nil)
      | none =>
        let s2 := (s1.new rModelName).setOne model r.fieldName s1.next
        findTarget R self s2 mr r s1.next id

/-- The loop of `findModelOneToManyRelation` over the ids. -/
def findModelOneToManyRelation.loop (R : Registry)
    (self : Finder → modelRef → Nat → Finder × Ret) (mr : modelRef) (model : Nat)
    (r : relationship) : List String → Finder → Finder × Ret
  | [], s => (s, Ret.nil)
  | id :: ids, s =>
    let rModelName := R.targetName mr.modelSpec.modelName r.fieldName
    let rModelKey := rModelName ++ ":" ++ id
    match s.t.modelCache rModelKey with
    | some prior =>
      findModelOneToManyRelation.loop R self mr model r ids (s.appendMany model r.fieldName prior)
    | none =>
      let res := findTarget R self (s.new rModelName) mr r s.next id
      match res.2 with
      | Ret.nil =>
        findModelOneToManyRelation.loop R self mr model r ids
          (res.1.appendMany model r.fieldName s.next)
      | ret => (res.1, ret)

/-- `transaction.findModelOneToManyRelation`. -/
def findModelOneToManyRelation (R : Registry) (self : Finder → modelRef → Nat → Finder × Ret)
    (s : Finder) (mr : modelRef) (model : Nat) (r : relationship) : Finder × Ret :=
  let smembers : command := { name := "SMEMBERS", args := [.str (mr.key ++ ":" ++ r.redisName)] }
  let s1 := s.read smembers
  match s.t.conn.read smembers with
  | .error err => (s1, Ret.err err)
  | .ok reply =>
    match redisStrings reply with
    | .error err => (s1, Ret.err err)
    | .ok ids => findModelOneToManyRelation.loop R self mr model r ids s1

/-- The loop of `findModelRelationships` over the relationships of the spec. -/
def findModelRelationships.loop (R : Registry) (self : Finder → modelRef → Nat → Finder × Ret)
    (mr : modelRef) (model : Nat) (includes : Option (List String)) :
    List relationship → Finder → Finder × Ret
  | [], s => (s, Ret.nil)
  | r :: rs, s =>
    if skipped includes r.fieldName then findModelRelationships.loop R self mr model includes rs s
    else
      let res :=
        match r.rType with
        | .oneToOne => findModelOneToOneRelation R self s mr model r
        | .oneToMany => findModelOneToManyRelation R self s mr model r
      match res.2 with
      | Ret.nil => findModelRelationships.loop R self mr model includes rs res.1
      | ret => (res.1, ret)

/-- `transaction.findModelRelationships`. -/
def findModelRelationships (R : Registry) (self : Finder → modelRef → Nat → Finder × Ret)
    (s : Finder) (mr : modelRef) (model : Nat) (includes : Option (List String)) :
    Finder × Ret :=
  findModelRelationships.loop R self mr model includes mr.modelSpec.relationships s

/-- The read of the hash of the record that `findModel` queues: HGETALL without a filter,
    HMGET of the fields of a filter that names any. -/
def Finder.findHash (R : Registry) (s : Finder) (mr : modelRef)
    (includes : Option (List String)) : Finder :=
  match includes with
  | none => s.command "HGETALL" [.str mr.key] (some (.newScanModelHandler mr (R.scanModel mr)))
  | some names =>
    if names.length ≠ 0 then
      s.command "HMGET" (.str mr.key :: names.map Arg.str)
        (some (.newScanHandler mr (R.scan mr names)))
    else s

/-- `transaction.findModel` after a miss of the cache: the record is registered, the reads of
    the hash, the lists and the sets are queued, the relationships are traversed. -/
def findModel.miss (R : Registry) (self : Finder → modelRef → Nat → Finder × Ret)
    (s : Finder) (mr : modelRef) (model : Nat) (includes : Option (List String)) :
    Finder × Ret :=
  let s1 := s.register mr.key model
  let s2 := s1.findHash R mr includes
  let s3 := if mr.modelSpec.lists.length ≠ 0 then s2.findModelLists mr includes else s2
  let s4 := if mr.modelSpec.sets.length ≠ 0 then s3.findModelSets mr includes else s3
  if mr.modelSpec.relationships.length ≠ 0 then findModelRelationships R self s4 mr model includes
  else (s4, Ret.nil)

/-- `transaction.findModel`, the record of `mr` being at the address `model`.  On a hit of the
    cache the cached record is copied over the record and nothing else happens.  Every call
    that misses the cache takes one unit of fuel. -/
def findModel (R : Registry) :
    Nat → Finder → modelRef → Nat → Option (List String) → Finder × Ret
  | fuel, s, mr, model, includes =>
    match s.t.modelCache mr.key with
    | some prior =>
      ({ s with records := fun a => if a = model then s.records prior else s.records a },
        Ret.nil)
    | none =>
      match fuel with
      | 0 => (s, Ret.outOfFuel)
      | fuel + 1 =>
        findModel.miss R (fun s mr model => findModel R fuel s mr model none)
          s mr model includes

/-- The spec of the artists (one to-one relationship, to a color) in a registry where a color
    has a to-one relationship back to an artist and a to-many relationship to artists. -/
def colorSpec : modelSpec :=
  { modelName := "color", lists := [], sets := [],
    relationships := [⟨"Owner", "Owner", .oneToOne⟩, ⟨"Fans", "Fans", .oneToMany⟩],
    primativeIndexes := [], pointerIndexes := [] }

/-- A registry with the artists and the colors. -/
def cycleRegistry : Registry :=
  { modelSpecs := fun n =>
      if n = "artist" then some artistSpec else if n = "color" then some colorSpec else none
    FindById := fun n id => .error (Err.keyNotFound (n ++ ":" ++ id))
    targetName := fun n _ => if n = "artist" then "color" else "artist"
    targetIsModel := fun _ _ => true
    scanModel := fun _ _ => none
    scan := fun _ names replies => scanArrayShort names replies }

/-- A store in which the artist "a1" refers to the color "c1", whose owner is the artist "a1"
    and whose fans are the artists "a1" and "a2"; the artist "a2" refers to the color "c1". -/
def cycleConn : Conn :=
  { send := fun _ _ _ => none
    exec := fun _ cs => .ok (cs.map fun _ => Reply.multi [])
    side := fun _ => none
    read := fun c =>
      if c = ⟨"GET", [.str "artist:a1:FavoriteColor"]⟩ then .ok (.str "c1")
      else if c = ⟨"GET", [.str "artist:a2:FavoriteColor"]⟩ then .ok (.str "c1")
      else if c = ⟨"GET", [.str "color:c1:Owner"]⟩ then .ok (.str "a1")
      else if c = ⟨"SMEMBERS", [.str "color:c1:Fans"]⟩ then .ok (.multi ["a1", "a2"])
      else .ok Reply.nil }

/-- A record with zero values of a type, with an id. -/
def Record.zero (typeName id : String) : Record :=
  { typeName := typeName, id := id, one := fun _ => none, many := fun _ => [] }

/-- A traversal that starts on a new transaction with one record in memory, an artist with the
    id "a1" and nothing else set. -/
def cycleStart : Finder :=
  { t := newTransaction cycleConn
    records := fun _ => Record.zero "artist" "a1"
    next := 1
    trace := [] }

/-- The `modelRef` of the artist "a1". -/
def artistRef : modelRef :=
  { modelSpec := artistSpec, model := { id := "a1", fields := fun _ => .nil },
    possibleKeyHits := 2 }

/-- The state `s'` of a traversal comes after `s`: the trace is prolonged, what was cached is
    cached still, the connection and the waiters are the same, no address is given back. -/
def Finder.Extends (s s' : Finder) : Prop :=
  (∃ events, s'.trace = s.trace ++ events) ∧
  (∀ k p, s.t.modelCache k = some p → s'.t.modelCache k = some p) ∧
  s'.t.conn = s.t.conn ∧ s.next ≤ s'.next ∧ s'.t.waiters = s.t.waiters

/-- A playlist type with one list (two remote structures may hold data of a playlist). -/
def playlistSpec : modelSpec :=
  { modelName := "playlist", lists := [⟨"Songs", "Songs"⟩], sets := [], relationships := [],
    primativeIndexes := [], pointerIndexes := [] }

/-- A registry with the playlists. -/
def playlistRegistry : Registry :=
  { modelSpecs := fun n => if n = "playlist" then some playlistSpec else none
    FindById := fun n id => .error (Err.keyNotFound (n ++ ":" ++ id))
    targetName := fun _ _ => ""
    targetIsModel := fun _ _ => false
    scanModel := fun _ _ => none
    scan := fun _ names replies => scanArrayShort names replies }

/-- A store without any data: every read of a batch answers an empty multi-bulk and SISMEMBER
    answers 0. -/
def emptyStore : Conn :=
  { send := fun _ _ _ => none
    exec := fun _ cs => .ok (cs.map fun _ => Reply.multi [])
    side := fun _ => none
    read := fun _ => .ok (Reply.int 0) }

/-- A traversal that starts on a new transaction on the empty store, with one record in memory:
    a playlist with the id "x1". -/
def playlistStart : Finder :=
  { t := newTransaction emptyStore
    records := fun _ => Record.zero "playlist" "x1"
    next := 1
    trace := [] }

/-- The `modelRef` of the playlist "x1", its counter at the number of its remote structures. -/
def playlistRef : modelRef :=
  { modelSpec := playlistSpec, model := { id := "x1", fields := fun _ => .nil },
    possibleKeyHits := 2 }

/-- A type without lists, sets and relationships, and the `modelRef` of its record "x1": one
    remote structure may hold its data. -/
def plainSpec : modelSpec :=
  { modelName := "plain", lists := [], sets := [], relationships := [],
    primativeIndexes := [], pointerIndexes := [] }

/-- The `modelRef` of the plain record "x1". -/
def plainRef : modelRef :=
  { modelSpec := plainSpec, model := { id := "x1", fields := fun _ => .nil },
    possibleKeyHits := 1 }

/-- The number of keys of the list `U` that are not in the cache. -/
def uncached (U : List String) (cache : String → Option Nat) : Nat :=
  (U.filter (fun k => (cache k).isNone)).length

/-- The store is finite: the list `U` holds the key of every record that a relationship read
    of the connection can refer to, for every type a relationship field can have. -/
def Closed (R : Registry) (conn : Conn) (U : List String) : Prop :=
  ∀ c reply, conn.read c = .ok reply →
    (∀ id, redisString reply = .ok id → ∀ n f, R.targetName n f ++ ":" ++ id ∈ U) ∧
    (∀ ids, redisStrings reply = .ok ids → ∀ id ∈ ids, ∀ n f, R.targetName n f ++ ":" ++ id ∈ U)

/-- The registry holds every spec under the name of the spec. -/
def Registry.WellFormed (R : Registry) : Prop :=
  ∀ n ms, R.modelSpecs n = some ms → ms.modelName = n

/-- The keys to which the relationships of the store `cycleConn` can refer. -/
def cycleKeys : List String :=
  ["color:c1", "artist:c1", "color:a1", "artist:a1", "color:a2", "artist:a2"]

/-- The cache agrees with the memory: a cached address is the address of a record, and the key
    it is cached under is the key of that record, the name of its type holding no colon. -/
def Finder.CacheOK (s : Finder) : Prop :=
  ∀ k p, s.t.modelCache k = some p →
    p < s.next ∧ ':' ∉ (s.records p).typeName.data ∧
    k = (s.records p).typeName ++ ":" ++ (s.records p).id

/-- Between the states `s` and `s'` of a traversal for the record at the address `model`: the
    cache agrees with the memory afterwards, the records there were, other than the record at
    `model`, are as they were, and no record there was has changed its id or its type. -/
def Finder.Frame (s s' : Finder) (model : Nat) : Prop :=
  s'.CacheOK ∧
  (∀ a, a < s.next → a ≠ model → s'.records a = s.records a) ∧
  (∀ a, a < s.next →
    (s'.records a).id = (s.records a).id ∧ (s'.records a).typeName = (s.records a).typeName)

/-- What the relationship functions need of the function they call for a target: called for a
    record that is not cached, whose key is the key of the `modelRef`, it keeps the frame. -/
def GoodSelf (self : Finder → modelRef → Nat → Finder × Ret) : Prop :=
  ∀ (s : Finder) (mr : modelRef) (model : Nat), s.CacheOK → model < s.next →
    ':' ∉ (s.records model).typeName.data →
    mr.key = (s.records model).typeName ++ ":" ++ (s.records model).id →
    s.t.modelCache mr.key = none →
    s.Frame (self s mr model).1 model

/-- The ids of the records at a list of addresses. -/
def Finder.ids (s : Finder) (ps : List Nat) : List String :=
  ps.map (fun p => (s.records p).id)

/-- The relationship field `r` of the record at `model` holds what the connection stores under
    the relation key: a to-one field refers to a record with the id that GET returns, a to-many
    field holds the addresses of records whose ids are, in order, the ids that SMEMBERS
    returns. -/
def Finder.Loaded (s : Finder) (conn : Conn) (mr : modelRef) (model : Nat) (r : relationship) :
    Prop :=
  match r.rType with
  | .oneToOne =>
    ∃ reply id p, conn.read ⟨"GET", [.str (mr.key ++ ":" ++ r.redisName)]⟩ = .ok reply ∧
      redisString reply = .ok id ∧ (s.records model).one r.fieldName = some p ∧
      p < s.next ∧ (s.records p).id = id
  | .oneToMany =>
    ∃ reply ids, conn.read ⟨"SMEMBERS", [.str (mr.key ++ ":" ++ r.redisName)]⟩ = .ok reply ∧
      redisStrings reply = .ok ids ∧ s.ids ((s.records model).many r.fieldName) = ids ∧
      ∀ p ∈ (s.records model).many r.fieldName, p < s.next

/-- A traversal that starts on a new transaction on the store `cycleConn` with one record in
    memory, a color with the id "c1" and nothing else set. -/
def colorStart : Finder :=
  { t := newTransaction cycleConn
    records := fun _ => Record.zero "color" "c1"
    next := 1
    trace := [] }

/-- The `modelRef` of the color "c1". -/
def colorRef : modelRef :=
  { modelSpec := colorSpec, model := { id := "c1", fields := fun _ => .nil },
    possibleKeyHits := 3 }

/-- A traversal that starts on a new transaction on the empty store, with one record in memory:
    a plain record with the id "x1". -/
def plainStart : Finder :=
  { t := newTransaction emptyStore
    records := fun _ => Record.zero "plain" "x1"
    next := 1
    trace := [] }

/-- The handlers of a flush as the spec words them: the handler slots of the batch are paired
    with the replies, position by position; from the position `i` on, every handler that is
    not nil is called with the reply of its position, on the transaction as the calls before
    it left it, and the first error ends the calls and is returned. -/
def flushSpec (C : Closures) :
    Nat → List (Option Handler × Reply) → transaction → transaction × List Event × Option Err
  | _, [], t => (t, [], none)
  | i, (none, _) :: rest, t => flushSpec C (i + 1) rest t
  | i, (some h, reply) :: rest, t =>
    let r := runHandler C h reply t
    match r.2.2 with
    | some err => (r.1, r.2.1 ++ [Event.handler i reply (some err)], some err)
    | none =>
      let r2 := flushSpec C (i + 1) rest r.1
      (r2.1, r.2.1 ++ Event.handler i reply none :: r2.2.1, r2.2.2)

/-- A connection on which every call succeeds; EXEC answers to the command at the position
    `i` the integer `i`. -/
def numberedConn : Conn :=
  { send := fun _ _ _ => none
    exec := fun _ cs => .ok ((List.range cs.length).map fun i => Reply.int i)
    side := fun _ => none }

/-- A transaction with three queued commands: the first with the handler that publishes "a",
    the second without handler, the third with the handler that publishes "c". -/
def threeReads : transaction :=
  (((newTransaction numberedConn).command "GET" [.str "a"] (some (.newSendDataHandler "a"))).command
    "PING" [] none).command "GET" [.str "c"] (some (.newSendDataHandler "c"))

/-! ## Theorems -/

/-! ### `waiter.ready` -/

/-- What `waiter.ready` computes: the keys in front of the first empty key are all marked
    ready. -/
theorem waiter.ready.go_eq_true_iff (dataReady : String → Bool) (keys : List String) :
    waiter.ready.go dataReady keys = true ↔
      ∀ key ∈ keys.takeWhile (fun key => key ≠ ""), dataReady key = true := by
  induction keys with
  | nil => simp [waiter.ready.go]
  | cons key rest ih =>
    by_cases hk : key = ""
    · simp [waiter.ready.go, hk]
    · by_cases hr : dataReady key = true
      · simp [waiter.ready.go, hk, hr, ih, List.takeWhile_cons]
      · simp [waiter.ready.go, hk, hr, List.takeWhile_cons]

/-- C1, on the code: a waiter with the keys ["", "k"] is ready on a new transaction, where
    "k" is not marked ready: `ready` returns at the empty key and does not look at "k". -/
theorem ready_returns_at_empty_key :
    (newTransaction okConn).dataReady "k" = false ∧
    waiter.ready { keys := ["", "k"], do_ := 0, done := false, seq := 0 }
      (newTransaction okConn) = true ∧
    waiter.ready { keys := ["k", ""], do_ := 0, done := false, seq := 0 }
      (newTransaction okConn) = false := by
  decide

/-! ### Saving relationships -/

/-- C2, on the code: for an artist whose favourite colour has no id,
    `saveModelRelationships` returns the no-id error and `saveModel` returns nil, having
    queued the HMSET and the SADD of the record and no SET. -/
theorem saveModel_drops_relationship_error :
    ((newTransaction okConn).saveModelRelationships
      { modelSpec := artistSpec, model := artistUnsavedColor, possibleKeyHits := 2 }).2
      = some Err.noId ∧
    ((newTransaction okConn).saveModel artistLib artistUnsavedColor).2.2 = none ∧
    ((newTransaction okConn).saveModel artistLib artistUnsavedColor).1.commands =
      [⟨"HMSET", [.str "artist:a1", .str "Name", .str "Alex"]⟩,
       ⟨"SADD", [.str "artist:all", .str "a1"]⟩] := by
  decide

/-- C10: when the field of a to-one relationship is not nil and holds a model with a non-empty
    id, `saveModelOneToOneRelationship` returns nil and appends one command, with a nil
    handler: SET with the arguments record key ++ ":" ++ store-facing name and the id, and
    changes nothing else; when the field is nil it returns nil and leaves the transaction as
    it is. -/
theorem saveModelOneToOneRelationship_spec (t : transaction) (mr : modelRef) (r : relationship) :
    (∀ I : String, (mr.value r.fieldName).IsNil = false →
        (mr.value r.fieldName).asModel = some I → I ≠ "" →
        (t.saveModelOneToOneRelationship mr r).2 = none ∧
        (t.saveModelOneToOneRelationship mr r).1.commands =
          t.commands ++ [⟨"SET", [.str (mr.key ++ ":" ++ r.redisName), .str I]⟩] ∧
        (t.saveModelOneToOneRelationship mr r).1.handlers = t.handlers ++ [none] ∧
        (t.saveModelOneToOneRelationship mr r).1.waiters = t.waiters ∧
        (t.saveModelOneToOneRelationship mr r).1.dataReady = t.dataReady) ∧
    ((mr.value r.fieldName).IsNil = true →
        t.saveModelOneToOneRelationship mr r = (t, none)) := by
  constructor
  · intro I hnil hmodel hI
    simp [transaction.saveModelOneToOneRelationship, hnil, hmodel, hI, transaction.command]
  · intro hnil
    simp [transaction.saveModelOneToOneRelationship, hnil]

/-- C10 at an input: the artist "a1" with the saved colour "c1" gets the command
    SET artist:a1:FavoriteColor c1, and the artist without colour gets none. -/
theorem saveModelOneToOneRelationship_spec_witness :
    (((newTransaction okConn).saveModelOneToOneRelationship
        { modelSpec := artistSpec, model := artistSavedColor, possibleKeyHits := 2 }
        ⟨"FavoriteColor", "FavoriteColor", .oneToOne⟩).2 = none ∧
      ((newTransaction okConn).saveModelOneToOneRelationship
        { modelSpec := artistSpec, model := artistSavedColor, possibleKeyHits := 2 }
        ⟨"FavoriteColor", "FavoriteColor", .oneToOne⟩).1.commands =
        [⟨"SET", [.str "artist:a1:FavoriteColor", .str "c1"]⟩]) ∧
    ((newTransaction okConn).saveModelOneToOneRelationship
        { modelSpec := artistSpec, model := artistNoColor, possibleKeyHits := 2 }
        ⟨"FavoriteColor", "FavoriteColor", .oneToOne⟩).1.commands = [] := by
  have h1 := (saveModelOneToOneRelationship_spec (newTransaction okConn)
    { modelSpec := artistSpec, model := artistSavedColor, possibleKeyHits := 2 }
    ⟨"FavoriteColor", "FavoriteColor", .oneToOne⟩).1 "c1" (by decide) (by decide) (by decide)
  have h2 := (saveModelOneToOneRelationship_spec (newTransaction okConn)
    { modelSpec := artistSpec, model := artistNoColor, possibleKeyHits := 2 }
    ⟨"FavoriteColor", "FavoriteColor", .oneToOne⟩).2 (by decide)
  refine ⟨⟨h1.1, ?_⟩, ?_⟩
  · rw [h1.2.1]; decide
  · rw [h2]; decide

/-! ### Registration numbers stay distinct -/

theorem SeqInv.mono {W F : List Nat} {b b' : Nat} (h : SeqInv W F b) (hb : b ≤ b') :
    SeqInv W F b' :=
  ⟨h.1, fun s hs => lt_of_lt_of_le (h.2 s hs) hb⟩

theorem SeqInv.perm {W F W' F' : List Nat} {b : Nat} (h : SeqInv W F b)
    (hp : List.Perm (W' ++ F') (W ++ F)) : SeqInv W' F' b :=
  ⟨hp.nodup_iff.mpr h.1, fun s hs => h.2 s (hp.mem_iff.mp hs)⟩

theorem SeqInv.sublist {W F W' F' : List Nat} {b : Nat} (h : SeqInv W F b)
    (hs : List.Sublist (W' ++ F') (W ++ F)) : SeqInv W' F' b :=
  ⟨h.1.sublist hs, fun s hm => h.2 s (hs.subset hm)⟩

theorem SeqInv.fresh {W F : List Nat} {b : Nat} (h : SeqInv W F b) :
    SeqInv (W ++ [b]) F (b + 1) := by
  have hb : b ∉ W ++ F := fun hm => lt_irrefl b (h.2 b hm)
  have hp : List.Perm ((W ++ [b]) ++ F) (b :: (W ++ F)) := by
    rw [List.append_assoc]
    exact List.perm_middle
  refine ⟨hp.nodup_iff.mpr (List.nodup_cons.mpr ⟨hb, h.1⟩), ?_⟩
  intro s hs
  rcases List.mem_cons.mp (hp.mem_iff.mp hs) with rfl | hs
  · exact Nat.lt_succ_self _
  · exact Nat.lt_succ_of_lt (h.2 s hs)

theorem waiterSeqs_append (a b : List Event) :
    waiterSeqs (a ++ b) = waiterSeqs a ++ waiterSeqs b := by
  simp [waiterSeqs, List.filterMap_append]

theorem act_seqInv (t : transaction) (a : Act) (F : List Nat)
    (h : SeqInv (t.waiters.map waiter.seq) F t.registered) :
    SeqInv ((t.act a).waiters.map waiter.seq) F (t.act a).registered := by
  cases a with
  | sendData key data => exact h
  | doWhenDataReady dataKeys do_ =>
    simpa [transaction.act, transaction.doWhenDataReady] using h.fresh
  | command cmd args handler => exact h

theorem acts_seqInv (as : List Act) (t : transaction) (F : List Nat)
    (h : SeqInv (t.waiters.map waiter.seq) F t.registered) :
    SeqInv ((t.acts as).waiters.map waiter.seq) F (t.acts as).registered := by
  induction as generalizing t with
  | nil => exact h
  | cons a as ih => exact ih (t.act a) (act_seqInv t a F h)

theorem act_registered_le (t : transaction) (a : Act) : t.registered ≤ (t.act a).registered := by
  cases a <;> simp [transaction.act, transaction.sendData, transaction.doWhenDataReady,
    transaction.command]

theorem acts_registered_le (as : List Act) (t : transaction) :
    t.registered ≤ (t.acts as).registered := by
  induction as generalizing t with
  | nil => exact le_refl _
  | cons a as ih => exact le_trans (act_registered_le t a) (ih (t.act a))

theorem loop_nil (C : Closures) (t : transaction) (still : List waiter) :
    executeWaitersIfReady.loop C [] t still = (t, still, [], none) := rfl

theorem loop_cons_skip (C : Closures) (w : waiter) (ws : List waiter) (t : transaction)
    (still : List waiter) (h : (w.ready t && !w.done) = false) :
    executeWaitersIfReady.loop C (w :: ws) t still =
      executeWaitersIfReady.loop C ws t (still ++ [w]) := by
  simp [executeWaitersIfReady.loop, h]

theorem loop_cons_err (C : Closures) (w : waiter) (ws : List waiter) (t : transaction)
    (still : List waiter) (h : (w.ready t && !w.done) = true) (err : Err)
    (he : (C.waiter w.do_ t).err = some err) :
    executeWaitersIfReady.loop C (w :: ws) t still =
      (t.acts (C.waiter w.do_ t).acts, still, [Event.waiter w.seq (some err)], some err) := by
  simp [executeWaitersIfReady.loop, h, he]

theorem loop_cons_ok (C : Closures) (w : waiter) (ws : List waiter) (t : transaction)
    (still : List waiter) (h : (w.ready t && !w.done) = true)
    (he : (C.waiter w.do_ t).err = none) :
    executeWaitersIfReady.loop C (w :: ws) t still =
      ((executeWaitersIfReady.loop C ws (t.acts (C.waiter w.do_ t).acts) still).1,
       (executeWaitersIfReady.loop C ws (t.acts (C.waiter w.do_ t).acts) still).2.1,
       Event.waiter w.seq none ::
         (executeWaitersIfReady.loop C ws (t.acts (C.waiter w.do_ t).acts) still).2.2.1,
       (executeWaitersIfReady.loop C ws (t.acts (C.waiter w.do_ t).acts) still).2.2.2) := by
  simp [executeWaitersIfReady.loop, h, he]

theorem perm_fired (x : Nat) (A B F : List Nat) :
    List.Perm (A ++ B ++ (F ++ [x])) (x :: A ++ B ++ F) := by
  rw [List.perm_iff_count]
  intro a
  simp only [List.count_append, List.count_cons, List.count_nil, List.cons_append]
  split_ifs <;> omega

theorem perm_still (x : Nat) (A B F : List Nat) :
    List.Perm (A ++ (B ++ [x]) ++ F) (x :: A ++ B ++ F) := by
  rw [List.perm_iff_count]
  intro a
  simp only [List.count_append, List.count_cons, List.count_nil, List.cons_append]
  split_ifs <;> omega

theorem waiterSeqs_cons_waiter (seq : Nat) (err : Option Err) (events : List Event) :
    waiterSeqs (Event.waiter seq err :: events) = seq :: waiterSeqs events := by
  simp [waiterSeqs]

theorem loop_seqInv (C : Closures) (ws : List waiter) (t : transaction) (still : List waiter)
    (F : List Nat)
    (h : SeqInv (ws.map waiter.seq ++ still.map waiter.seq) F t.registered) :
    SeqInv ((executeWaitersIfReady.loop C ws t still).2.1.map waiter.seq)
      (F ++ waiterSeqs (executeWaitersIfReady.loop C ws t still).2.2.1)
      (executeWaitersIfReady.loop C ws t still).1.registered ∧
    t.registered ≤ (executeWaitersIfReady.loop C ws t still).1.registered := by
  induction ws generalizing t still F with
  | nil => simpa [executeWaitersIfReady.loop, waiterSeqs] using h
  | cons w ws ih =>
    cases hc : (w.ready t && !w.done) with
    | true =>
      have hle := acts_registered_le (C.waiter w.do_ t).acts t
      have h' : SeqInv (ws.map waiter.seq ++ still.map waiter.seq) (F ++ [w.seq])
          (t.acts (C.waiter w.do_ t).acts).registered :=
        (h.mono hle).perm (by simpa using perm_fired w.seq _ _ F)
      cases he : (C.waiter w.do_ t).err with
      | some err =>
        rw [loop_cons_err C w ws t still hc err he]
        refine ⟨?_, hle⟩
        refine h'.sublist ?_
        have hw : waiterSeqs [Event.waiter w.seq (some err)] = [w.seq] := rfl
        rw [hw, List.append_assoc]
        exact List.sublist_append_right _ _
      | none =>
        rw [loop_cons_ok C w ws t still hc he]
        have := ih (t.acts (C.waiter w.do_ t).acts) still (F ++ [w.seq]) h'
        refine ⟨?_, le_trans hle this.2⟩
        simpa [waiterSeqs_cons_waiter] using this.1
    | false =>
      rw [loop_cons_skip C w ws t still hc]
      have h' : SeqInv (ws.map waiter.seq ++ (still ++ [w]).map waiter.seq) F t.registered :=
        h.perm (by simpa using perm_still w.seq _ _ F)
      exact ih t (still ++ [w]) F h'

theorem executeWaitersIfReady_err (C : Closures) (t : transaction) (err : Err)
    (h : (executeWaitersIfReady.loop C t.waiters t []).2.2.2 = some err) :
    t.executeWaitersIfReady C =
      ((executeWaitersIfReady.loop C t.waiters t []).1,
       (executeWaitersIfReady.loop C t.waiters t []).2.2.1, some err) := by
  simp [transaction.executeWaitersIfReady, h]

theorem executeWaitersIfReady_ok (C : Closures) (t : transaction)
    (h : (executeWaitersIfReady.loop C t.waiters t []).2.2.2 = none) :
    t.executeWaitersIfReady C =
      ({ (executeWaitersIfReady.loop C t.waiters t []).1 with
          waiters := (executeWaitersIfReady.loop C t.waiters t []).2.1 },
       (executeWaitersIfReady.loop C t.waiters t []).2.2.1, none) := by
  simp [transaction.executeWaitersIfReady, h]

theorem executeWaitersIfReady_seqInv (C : Closures) (t : transaction) (F : List Nat)
    (h : SeqInv (t.waiters.map waiter.seq) F t.registered) :
    (F ++ waiterSeqs (t.executeWaitersIfReady C).2.1).Nodup ∧
    ((t.executeWaitersIfReady C).2.2 = none →
      SeqInv ((t.executeWaitersIfReady C).1.waiters.map waiter.seq)
        (F ++ waiterSeqs (t.executeWaitersIfReady C).2.1)
        (t.executeWaitersIfReady C).1.registered) := by
  have hl := (loop_seqInv C t.waiters t [] F (by simpa using h)).1
  cases he : (executeWaitersIfReady.loop C t.waiters t []).2.2.2 with
  | some err =>
    rw [executeWaitersIfReady_err C t err he]
    exact ⟨(hl.1.sublist (List.sublist_append_right _ _)), fun h => by simp at h⟩
  | none =>
    rw [executeWaitersIfReady_ok C t he]
    exact ⟨(hl.1.sublist (List.sublist_append_right _ _)), fun _ => hl⟩

/-- The scan handlers call nothing but `conn.Do` on a connection of their own. -/
theorem checkModelExists_events (conn : Conn) (mr : modelRef) :
    ∀ e ∈ (checkModelExists conn mr).1, ∃ c, e = Event.side c := by
  intro e he
  simp only [checkModelExists] at he
  split at he
  · exact ⟨_, by simpa using he⟩
  · split at he
    · exact ⟨_, by simpa using he⟩
    · split at he <;> exact ⟨_, by simpa using he⟩

theorem scanAfterMiss_events (conn : Conn) (mr : modelRef) (bulk : List String)
    (rest : Option Err) :
    ∀ e ∈ (scanAfterMiss conn mr bulk rest).1, ∃ c, e = Event.side c := by
  intro e he
  simp only [scanAfterMiss] at he
  split at he
  · split at he
    · exact checkModelExists_events _ _ e he
    · simp at he
  · simp at he

theorem scanHandlers_events (conn : Conn) (mr : modelRef) (scan : List String → Option Err)
    (reply : Reply) :
    (∀ e ∈ (newScanHandler conn mr scan reply).1, ∃ c, e = Event.side c) ∧
    (∀ e ∈ (newScanModelHandler conn mr scan reply).1, ∃ c, e = Event.side c) ∧
    (∀ e ∈ (newScanModelSliceHandler conn mr reply).1, ∃ c, e = Event.side c) := by
  refine ⟨?_, ?_, ?_⟩
  · unfold newScanHandler
    intro e he
    split at he
    · simp at he
    · exact scanAfterMiss_events _ _ _ _ e he
  · unfold newScanModelHandler
    intro e he
    split at he
    · simp at he
    · exact scanAfterMiss_events _ _ _ _ e he
  · unfold newScanModelSliceHandler
    intro e he
    split at he
    · simp at he
    · exact scanAfterMiss_events _ _ _ _ e he

theorem waiterSeqs_of_side (events : List Event) (h : ∀ e ∈ events, ∃ c, e = Event.side c) :
    waiterSeqs events = [] := by
  unfold waiterSeqs
  rw [List.filterMap_eq_nil_iff]
  intro e he
  obtain ⟨c, rfl⟩ := h e he
  rfl

theorem handlerCalls_of_side (events : List Event) (h : ∀ e ∈ events, ∃ c, e = Event.side c) :
    handlerCalls events = [] := by
  unfold handlerCalls
  rw [List.filterMap_eq_nil_iff]
  intro e he
  obtain ⟨c, rfl⟩ := h e he
  rfl

theorem removeOldAlphaIndexHandler_waiterSeqs (conn : Conn) (mr : modelRef) (fieldName : String)
    (reply : Reply) :
    waiterSeqs (removeOldAlphaIndexHandler conn mr fieldName reply).1 = [] := by
  unfold removeOldAlphaIndexHandler
  split
  · rfl
  · split
    · rfl
    · split
      · rfl
      · split <;> rfl

theorem runHandler_seqInv (C : Closures) (h : Handler) (reply : Reply) (t : transaction)
    (F : List Nat) (hi : SeqInv (t.waiters.map waiter.seq) F t.registered) :
    SeqInv ((runHandler C h reply t).1.waiters.map waiter.seq) F
      (runHandler C h reply t).1.registered ∧
    waiterSeqs (runHandler C h reply t).2.1 = [] := by
  cases h with
  | newSendDataHandler key => exact ⟨hi, rfl⟩
  | removeOldAlphaIndex mr fieldName =>
    exact ⟨hi, removeOldAlphaIndexHandler_waiterSeqs _ _ _ _⟩
  | closure id => exact ⟨acts_seqInv _ t F hi, rfl⟩
  | newScanHandler mr scan =>
    exact ⟨hi, waiterSeqs_of_side _ (scanHandlers_events t.conn mr scan reply).1⟩
  | newScanModelHandler mr scanModel =>
    exact ⟨hi, waiterSeqs_of_side _ (scanHandlers_events t.conn mr scanModel reply).2.1⟩
  | newScanModelSliceHandler mr =>
    exact ⟨hi, waiterSeqs_of_side _ (scanHandlers_events t.conn mr (fun _ => none) reply).2.2⟩

theorem dispatch_nil (C : Closures) (i : Nat) (t : transaction) :
    exec.dispatch C i [] t = (t, [], none) := by
  simp [exec.dispatch]

theorem dispatch_cons_out (C : Closures) (i : Nat) (reply : Reply) (replies : List Reply)
    (t : transaction) (h : t.handlers[i]? = none) :
    exec.dispatch C i (reply :: replies) t = (t, [], some Err.indexOutOfRange) := by
  simp [exec.dispatch, h]

theorem dispatch_cons_nil (C : Closures) (i : Nat) (reply : Reply) (replies : List Reply)
    (t : transaction) (h : t.handlers[i]? = some none) :
    exec.dispatch C i (reply :: replies) t = exec.dispatch C (i + 1) replies t := by
  simp [exec.dispatch, h]

theorem dispatch_cons_err (C : Closures) (i : Nat) (reply : Reply) (replies : List Reply)
    (t : transaction) (hd : Handler) (h : t.handlers[i]? = some (some hd)) (err : Err)
    (he : (runHandler C hd reply t).2.2 = some err) :
    exec.dispatch C i (reply :: replies) t =
      ((runHandler C hd reply t).1,
       (runHandler C hd reply t).2.1 ++ [Event.handler i reply (some err)], some err) := by
  simp [exec.dispatch, h, he]

theorem dispatch_cons_ok (C : Closures) (i : Nat) (reply : Reply) (replies : List Reply)
    (t : transaction) (hd : Handler) (h : t.handlers[i]? = some (some hd))
    (he : (runHandler C hd reply t).2.2 = none) :
    exec.dispatch C i (reply :: replies) t =
      ((exec.dispatch C (i + 1) replies (runHandler C hd reply t).1).1,
       (runHandler C hd reply t).2.1 ++ Event.handler i reply none ::
         (exec.dispatch C (i + 1) replies (runHandler C hd reply t).1).2.1,
       (exec.dispatch C (i + 1) replies (runHandler C hd reply t).1).2.2) := by
  simp [exec.dispatch, h, he]

theorem dispatch_seqInv (C : Closures) (replies : List Reply) (i : Nat) (t : transaction)
    (F : List Nat) (hi : SeqInv (t.waiters.map waiter.seq) F t.registered) :
    SeqInv ((exec.dispatch C i replies t).1.waiters.map waiter.seq) F
      (exec.dispatch C i replies t).1.registered ∧
    waiterSeqs (exec.dispatch C i replies t).2.1 = [] := by
  induction replies generalizing i t with
  | nil => rw [dispatch_nil]; exact ⟨hi, rfl⟩
  | cons reply replies ih =>
    cases hg : t.handlers[i]? with
    | none => rw [dispatch_cons_out C i reply replies t hg]; exact ⟨hi, rfl⟩
    | some o =>
      cases o with
      | none => rw [dispatch_cons_nil C i reply replies t hg]; exact ih (i + 1) t hi
      | some hd =>
        have hr := runHandler_seqInv C hd reply t F hi
        cases he : (runHandler C hd reply t).2.2 with
        | some err =>
          rw [dispatch_cons_err C i reply replies t hd hg err he]
          refine ⟨hr.1, ?_⟩
          rw [waiterSeqs_append, hr.2]
          rfl
        | none =>
          rw [dispatch_cons_ok C i reply replies t hd hg he]
          have h2 := ih (i + 1) (runHandler C hd reply t).1 hr.1
          refine ⟨h2.1, ?_⟩
          have hc : waiterSeqs (Event.handler i reply none ::
              (exec.dispatch C (i + 1) replies (runHandler C hd reply t).1).2.1) =
              waiterSeqs (exec.dispatch C (i + 1) replies (runHandler C hd reply t).1).2.1 := by
            simp [waiterSeqs]
          simp only [waiterSeqs_append, hr.2, hc, h2.2, List.append_nil]

theorem sendAll_waiterSeqs (conn : Conn) (round : Nat) (cs : List command) (i : Nat) :
    waiterSeqs (exec.sendAll conn round i cs).1 = [] := by
  induction cs generalizing i with
  | nil => rfl
  | cons c cs ih =>
    unfold exec.sendAll
    split
    · rfl
    · simpa [waiterSeqs] using ih (i + 1)

theorem round_send_err (C : Closures) (round : Nat) (t : transaction) (err : Err)
    (hs : (exec.sendAll t.conn round 0 t.commands).2 = some err) :
    exec.round C round t =
      (t, Event.send "MULTI" [] :: (exec.sendAll t.conn round 0 t.commands).1,
        .returned err) := by
  simp [exec.round, hs]

theorem round_exec_err (C : Closures) (round : Nat) (t : transaction) (err : Err)
    (hs : (exec.sendAll t.conn round 0 t.commands).2 = none)
    (hx : t.conn.exec round t.commands = .error err) :
    exec.round C round t =
      (t, Event.send "MULTI" [] :: (exec.sendAll t.conn round 0 t.commands).1 ++
        Event.doCmd "EXEC" :: discard, .returned err) := by
  simp [exec.round, hs, hx]

theorem round_dispatch_err (C : Closures) (round : Nat) (t : transaction) (err : Err)
    (replies : List Reply)
    (hs : (exec.sendAll t.conn round 0 t.commands).2 = none)
    (hx : t.conn.exec round t.commands = .ok replies)
    (hd : (exec.dispatch C 0 replies t).2.2 = some err) :
    exec.round C round t =
      ((exec.dispatch C 0 replies t).1,
        Event.send "MULTI" [] :: (exec.sendAll t.conn round 0 t.commands).1 ++
          Event.doCmd "EXEC" :: (exec.dispatch C 0 replies t).2.1, .returned err) := by
  simp [exec.round, hs, hx, hd]

theorem round_waiters_err (C : Closures) (round : Nat) (t : transaction) (err : Err)
    (replies : List Reply)
    (hs : (exec.sendAll t.conn round 0 t.commands).2 = none)
    (hx : t.conn.exec round t.commands = .ok replies)
    (hd : (exec.dispatch C 0 replies t).2.2 = none)
    (hw : (transaction.executeWaitersIfReady C
      { (exec.dispatch C 0 replies t).1 with commands := [], handlers := [] }).2.2 = some err) :
    exec.round C round t =
      ((transaction.executeWaitersIfReady C
          { (exec.dispatch C 0 replies t).1 with commands := [], handlers := [] }).1,
        Event.send "MULTI" [] :: (exec.sendAll t.conn round 0 t.commands).1 ++
          Event.doCmd "EXEC" :: (exec.dispatch C 0 replies t).2.1 ++ Event.reset ::
          (transaction.executeWaitersIfReady C
            { (exec.dispatch C 0 replies t).1 with commands := [], handlers := [] }).2.1,
        .returned err) := by
  simp [exec.round, hs, hx, hd, hw]

theorem round_next (C : Closures) (round : Nat) (t : transaction)
    (replies : List Reply)
    (hs : (exec.sendAll t.conn round 0 t.commands).2 = none)
    (hx : t.conn.exec round t.commands = .ok replies)
    (hd : (exec.dispatch C 0 replies t).2.2 = none)
    (hw : (transaction.executeWaitersIfReady C
      { (exec.dispatch C 0 replies t).1 with commands := [], handlers := [] }).2.2 = none) :
    exec.round C round t =
      ((transaction.executeWaitersIfReady C
          { (exec.dispatch C 0 replies t).1 with commands := [], handlers := [] }).1,
        Event.send "MULTI" [] :: (exec.sendAll t.conn round 0 t.commands).1 ++
          Event.doCmd "EXEC" :: (exec.dispatch C 0 replies t).2.1 ++ Event.reset ::
          (transaction.executeWaitersIfReady C
            { (exec.dispatch C 0 replies t).1 with commands := [], handlers := [] }).2.1,
        .next) := by
  simp [exec.round, hs, hx, hd, hw]

theorem waiterSeqs_cons_send (name : String) (args : List Arg) (events : List Event) :
    waiterSeqs (Event.send name args :: events) = waiterSeqs events := rfl

theorem waiterSeqs_cons_doCmd (name : String) (events : List Event) :
    waiterSeqs (Event.doCmd name :: events) = waiterSeqs events := rfl

theorem waiterSeqs_cons_reset (events : List Event) :
    waiterSeqs (Event.reset :: events) = waiterSeqs events := rfl

theorem waiterSeqs_discard : waiterSeqs discard = [] := rfl

theorem round_seqInv (C : Closures) (round : Nat) (t : transaction) (F : List Nat)
    (hi : SeqInv (t.waiters.map waiter.seq) F t.registered) :
    (F ++ waiterSeqs (exec.round C round t).2.1).Nodup ∧
    ((exec.round C round t).2.2 = Flow.next →
      SeqInv ((exec.round C round t).1.waiters.map waiter.seq)
        (F ++ waiterSeqs (exec.round C round t).2.1)
        (exec.round C round t).1.registered) := by
  have hF : F.Nodup := hi.1.sublist (List.sublist_append_right _ _)
  have hsa := sendAll_waiterSeqs t.conn round t.commands 0
  cases hs : (exec.sendAll t.conn round 0 t.commands).2 with
  | some err =>
    rw [round_send_err C round t err hs]
    simp [waiterSeqs_cons_send, hsa, hF]
  | none =>
    cases hx : t.conn.exec round t.commands with
    | error err =>
      rw [round_exec_err C round t err hs hx]
      simp [waiterSeqs_cons_send, waiterSeqs_append, waiterSeqs_cons_doCmd, hsa,
        waiterSeqs_discard, hF]
    | ok replies =>
      have hd := dispatch_seqInv C replies 0 t F hi
      cases hde : (exec.dispatch C 0 replies t).2.2 with
      | some err =>
        rw [round_dispatch_err C round t err replies hs hx hde]
        simp [waiterSeqs_cons_send, waiterSeqs_append, waiterSeqs_cons_doCmd, hsa, hd.2, hF]
      | none =>
        have hw := executeWaitersIfReady_seqInv C
          { (exec.dispatch C 0 replies t).1 with commands := [], handlers := [] } F hd.1
        cases hwe : (transaction.executeWaitersIfReady C
            { (exec.dispatch C 0 replies t).1 with commands := [], handlers := [] }).2.2 with
        | some err =>
          rw [round_waiters_err C round t err replies hs hx hde hwe]
          simpa [waiterSeqs_cons_send, waiterSeqs_append, waiterSeqs_cons_doCmd, hsa, hd.2,
            waiterSeqs_cons_reset] using hw.1
        | none =>
          rw [round_next C round t replies hs hx hde hwe]
          simpa [waiterSeqs_cons_send, waiterSeqs_append, waiterSeqs_cons_doCmd, hsa, hd.2,
            waiterSeqs_cons_reset] using ⟨hw.1, hw.2 hwe⟩

theorem loop_zero (C : Closures) (round : Nat) (t : transaction) :
    exec.loop C 0 round t = if t.commands.length > 0 then none else some (t, [], none) := by
  simp [exec.loop]

theorem loop_succ (C : Closures) (fuel round : Nat) (t : transaction) :
    exec.loop C (fuel + 1) round t =
      if t.commands.length > 0 then
        match (exec.round C round t).2.2 with
        | .returned err => some ((exec.round C round t).1, (exec.round C round t).2.1, some err)
        | .next =>
          match exec.loop C fuel (round + 1) (exec.round C round t).1 with
          | none => none
          | some r2 => some (r2.1, (exec.round C round t).2.1 ++ r2.2.1, r2.2.2)
      else some (t, [], none) := by
  rw [exec.loop]

theorem execLoop_seqInv (C : Closures) (fuel : Nat) (round : Nat) (t : transaction)
    (F : List Nat) (hi : SeqInv (t.waiters.map waiter.seq) F t.registered)
    (r : transaction × List Event × Option Err) (hr : exec.loop C fuel round t = some r) :
    (F ++ waiterSeqs r.2.1).Nodup := by
  have hF : F.Nodup := hi.1.sublist (List.sublist_append_right _ _)
  induction fuel generalizing round t F r with
  | zero =>
    rw [loop_zero] at hr
    split at hr
    · simp at hr
    · simp at hr; subst hr; simpa [waiterSeqs] using hF
  | succ fuel ih =>
    rw [loop_succ] at hr
    split at hr
    · have hro := round_seqInv C round t F hi
      cases hf : (exec.round C round t).2.2 with
      | returned err =>
        simp only [hf] at hr
        simp at hr; subst hr; exact hro.1
      | next =>
        simp only [hf] at hr
        cases hl : exec.loop C fuel (round + 1) (exec.round C round t).1 with
        | none => simp [hl] at hr
        | some r2 =>
          simp [hl] at hr
          subst hr
          have := ih (round + 1) (exec.round C round t).1 _ (hro.2 hf) r2 hl hro.1
          simpa [waiterSeqs_append] using this
    · simp at hr; subst hr; simpa [waiterSeqs] using hF

/-! ### One pass of `executeWaitersIfReady` -/

theorem loop_still (C : Closures) (ws : List waiter) (t : transaction) (still : List waiter) :
    executeWaitersIfReady.loop C ws t still =
      ((executeWaitersIfReady.loop C ws t []).1,
       still ++ (executeWaitersIfReady.loop C ws t []).2.1,
       (executeWaitersIfReady.loop C ws t []).2.2.1,
       (executeWaitersIfReady.loop C ws t []).2.2.2) := by
  induction ws generalizing t still with
  | nil => simp [loop_nil]
  | cons w ws ih =>
    cases hc : (w.ready t && !w.done) with
    | true =>
      cases he : (C.waiter w.do_ t).err with
      | some err =>
        rw [loop_cons_err C w ws t still hc err he, loop_cons_err C w ws t [] hc err he]
        simp
      | none =>
        rw [loop_cons_ok C w ws t still hc he, loop_cons_ok C w ws t [] hc he]
        rw [ih (t.acts (C.waiter w.do_ t).acts) still]
    | false =>
      rw [loop_cons_skip C w ws t still hc, loop_cons_skip C w ws t [] hc]
      rw [ih t (still ++ [w]), ih t ([] ++ [w])]
      simp

theorem loop_append_err (C : Closures) (pre rest : List waiter) (t : transaction)
    (still : List waiter) (err : Err)
    (h : (executeWaitersIfReady.loop C pre t still).2.2.2 = some err) :
    executeWaitersIfReady.loop C (pre ++ rest) t still =
      executeWaitersIfReady.loop C pre t still := by
  induction pre generalizing t still with
  | nil => simp [loop_nil] at h
  | cons w ws ih =>
    cases hc : (w.ready t && !w.done) with
    | true =>
      cases he : (C.waiter w.do_ t).err with
      | some err' =>
        rw [List.cons_append, loop_cons_err C w _ t still hc err' he,
          loop_cons_err C w _ t still hc err' he]
      | none =>
        rw [loop_cons_ok C w ws t still hc he] at h
        rw [List.cons_append, loop_cons_ok C w _ t still hc he, loop_cons_ok C w ws t still hc he,
          ih _ _ h]
    | false =>
      rw [loop_cons_skip C w ws t still hc] at h
      rw [List.cons_append, loop_cons_skip C w _ t still hc, loop_cons_skip C w ws t still hc,
        ih _ _ h]

theorem loop_append_ok (C : Closures) (pre rest : List waiter) (t : transaction)
    (still : List waiter)
    (h : (executeWaitersIfReady.loop C pre t still).2.2.2 = none) :
    executeWaitersIfReady.loop C (pre ++ rest) t still =
      ((executeWaitersIfReady.loop C rest (executeWaitersIfReady.loop C pre t still).1
          (executeWaitersIfReady.loop C pre t still).2.1).1,
       (executeWaitersIfReady.loop C rest (executeWaitersIfReady.loop C pre t still).1
          (executeWaitersIfReady.loop C pre t still).2.1).2.1,
       (executeWaitersIfReady.loop C pre t still).2.2.1 ++
         (executeWaitersIfReady.loop C rest (executeWaitersIfReady.loop C pre t still).1
          (executeWaitersIfReady.loop C pre t still).2.1).2.2.1,
       (executeWaitersIfReady.loop C rest (executeWaitersIfReady.loop C pre t still).1
          (executeWaitersIfReady.loop C pre t still).2.1).2.2.2) := by
  induction pre generalizing t still with
  | nil => simp [loop_nil]
  | cons w ws ih =>
    cases hc : (w.ready t && !w.done) with
    | true =>
      cases he : (C.waiter w.do_ t).err with
      | some err' =>
        rw [loop_cons_err C w _ t still hc err' he] at h
        simp at h
      | none =>
        rw [loop_cons_ok C w ws t still hc he] at h
        rw [List.cons_append, loop_cons_ok C w _ t still hc he, loop_cons_ok C w ws t still hc he,
          ih _ _ h]
        simp
    | false =>
      rw [loop_cons_skip C w ws t still hc] at h
      rw [List.cons_append, loop_cons_skip C w _ t still hc, loop_cons_skip C w ws t still hc,
        ih _ _ h]

/-- A pass calls waiter callbacks and nothing else, and calls them in the order of the list. -/
theorem loop_events (C : Closures) (ws : List waiter) (t : transaction) (still : List waiter) :
    List.Sublist (waiterSeqs (executeWaitersIfReady.loop C ws t still).2.2.1)
      (ws.map waiter.seq) ∧
    ∀ e ∈ (executeWaitersIfReady.loop C ws t still).2.2.1, ∃ seq err, e = Event.waiter seq err := by
  induction ws generalizing t still with
  | nil => simp [loop_nil, waiterSeqs]
  | cons w ws ih =>
    cases hc : (w.ready t && !w.done) with
    | true =>
      cases he : (C.waiter w.do_ t).err with
      | some err =>
        rw [loop_cons_err C w ws t still hc err he]
        refine ⟨?_, ?_⟩
        · have hw : waiterSeqs [Event.waiter w.seq (some err)] = [w.seq] := rfl
          simp [hw]
        · intro e hm
          simp at hm
          exact ⟨_, _, hm⟩
      | none =>
        rw [loop_cons_ok C w ws t still hc he]
        have := ih (t.acts (C.waiter w.do_ t).acts) still
        refine ⟨?_, ?_⟩
        · simpa [waiterSeqs_cons_waiter] using this.1
        · intro e hm
          rcases List.mem_cons.mp hm with rfl | hm
          · exact ⟨_, _, rfl⟩
          · exact this.2 e hm
    | false =>
      rw [loop_cons_skip C w ws t still hc]
      have := ih t (still ++ [w])
      exact ⟨by simpa using this.1.cons w.seq, this.2⟩

theorem loop_stillWaiting (C : Closures) (ws : List waiter) (t : transaction)
    (hseq : (ws.map waiter.seq).Nodup)
    (h : (executeWaitersIfReady.loop C ws t []).2.2.2 = none) :
    (executeWaitersIfReady.loop C ws t []).2.1 =
      ws.filter (fun w =>
        decide (w.seq ∉ waiterSeqs (executeWaitersIfReady.loop C ws t []).2.2.1)) := by
  induction ws generalizing t with
  | nil => simp [loop_nil]
  | cons w ws ih =>
    have hw : w.seq ∉ ws.map waiter.seq := (List.nodup_cons.mp hseq).1
    have hws : (ws.map waiter.seq).Nodup := (List.nodup_cons.mp hseq).2
    cases hc : (w.ready t && !w.done) with
    | true =>
      cases he : (C.waiter w.do_ t).err with
      | some err =>
        rw [loop_cons_err C w ws t [] hc err he] at h
        simp at h
      | none =>
        rw [loop_cons_ok C w ws t [] hc he] at h ⊢
        simp only [waiterSeqs_cons_waiter]
        rw [ih _ hws h]
        rw [List.filter_cons_of_neg (by simp)]
        apply List.filter_congr
        intro x hx
        have hne : x.seq ≠ w.seq := fun hxw => hw (hxw ▸ List.mem_map_of_mem _ hx)
        simp [hne]
    | false =>
      rw [loop_cons_skip C w ws t [] hc] at h ⊢
      rw [loop_still] at h ⊢
      simp only at h ⊢
      have hnot : w.seq ∉ waiterSeqs (executeWaitersIfReady.loop C ws t []).2.2.1 :=
        fun hm => hw ((loop_events C ws t []).1.subset hm)
      rw [List.filter_cons_of_pos (by simpa using hnot), ← ih _ hws h]
      simp

theorem loop_calls (C : Closures) (ws : List waiter) (t : transaction)
    (hseq : (ws.map waiter.seq).Nodup)
    (h : (executeWaitersIfReady.loop C ws t []).2.2.2 = none) :
    (executeWaitersIfReady.loop C ws t []).2.2.1 =
      (ws.filter (fun w =>
        decide (w.seq ∈ waiterSeqs (executeWaitersIfReady.loop C ws t []).2.2.1))).map
        (fun w => Event.waiter w.seq none) := by
  induction ws generalizing t with
  | nil => simp [loop_nil]
  | cons w ws ih =>
    have hw : w.seq ∉ ws.map waiter.seq := (List.nodup_cons.mp hseq).1
    have hws : (ws.map waiter.seq).Nodup := (List.nodup_cons.mp hseq).2
    cases hc : (w.ready t && !w.done) with
    | true =>
      cases he : (C.waiter w.do_ t).err with
      | some err =>
        rw [loop_cons_err C w ws t [] hc err he] at h
        simp at h
      | none =>
        rw [loop_cons_ok C w ws t [] hc he] at h ⊢
        simp only [waiterSeqs_cons_waiter]
        rw [List.filter_cons_of_pos (by simp), List.map_cons]
        congr 1
        conv_lhs => rw [ih _ hws h]
        congr 1
        apply List.filter_congr
        intro x hx
        have hne : x.seq ≠ w.seq := fun hxw => hw (hxw ▸ List.mem_map_of_mem _ hx)
        simp [hne]
    | false =>
      rw [loop_cons_skip C w ws t [] hc] at h ⊢
      rw [loop_still] at h ⊢
      simp only at h ⊢
      have hnot : w.seq ∉ waiterSeqs (executeWaitersIfReady.loop C ws t []).2.2.1 :=
        fun hm => hw ((loop_events C ws t []).1.subset hm)
      rw [List.filter_cons_of_neg (by simpa using hnot)]
      exact ih _ hws h

theorem loop_visit (C : Closures) (pre : List waiter) (w : waiter) (post : List waiter)
    (t : transaction) (hseq : ((pre ++ w :: post).map waiter.seq).Nodup)
    (hdone : w.done = false)
    (h : (executeWaitersIfReady.loop C (pre ++ w :: post) t []).2.2.2 = none) :
    (w.seq ∈ waiterSeqs (executeWaitersIfReady.loop C (pre ++ w :: post) t []).2.2.1 ↔
      w.ready (visitState C pre t) = true) := by
  have hpre : (executeWaitersIfReady.loop C pre t []).2.2.2 = none := by
    cases hp : (executeWaitersIfReady.loop C pre t []).2.2.2 with
    | none => rfl
    | some err =>
      rw [loop_append_err C pre (w :: post) t [] err hp, hp] at h
      simp at h
  rw [List.map_append, List.map_cons, List.nodup_append] at hseq
  obtain ⟨_, hwpost, hdisj⟩ := hseq
  have hwpre : w.seq ∉ waiterSeqs (executeWaitersIfReady.loop C pre t []).2.2.1 := by
    intro hm
    exact hdisj ((loop_events C pre t []).1.subset hm) (List.mem_cons_self _ _)
  rw [loop_append_ok C pre (w :: post) t [] hpre] at h ⊢
  simp only at h ⊢
  rw [waiterSeqs_append, List.mem_append]
  unfold visitState
  generalize (executeWaitersIfReady.loop C pre t []).1 = s at h ⊢
  generalize (executeWaitersIfReady.loop C pre t []).2.1 = still at h ⊢
  cases hr : w.ready s with
  | true =>
    have hc : (w.ready s && !w.done) = true := by simp [hr, hdone]
    cases he : (C.waiter w.do_ s).err with
    | some err =>
      rw [loop_cons_err C w post s still hc err he] at h
      simp at h
    | none =>
      rw [loop_cons_ok C w post s still hc he]
      simp [waiterSeqs_cons_waiter]
  | false =>
    have hc : (w.ready s && !w.done) = false := by simp [hr]
    rw [loop_cons_skip C w post s still hc]
    have hwp : w.seq ∉ waiterSeqs (executeWaitersIfReady.loop C post s (still ++ [w])).2.2.1 :=
      fun hm => (List.nodup_cons.mp hwpost).1 ((loop_events C post s _).1.subset hm)
    simp [hwpre, hwp]

theorem loop_stops (C : Closures) (pre : List waiter) (w : waiter) (post : List waiter)
    (t : transaction) (err : Err)
    (hpre : (executeWaitersIfReady.loop C pre t []).2.2.2 = none)
    (hready : (w.ready (visitState C pre t) && !w.done) = true)
    (herr : (C.waiter w.do_ (visitState C pre t)).err = some err) :
    (executeWaitersIfReady.loop C (pre ++ w :: post) t []).2.2.2 = some err ∧
    (executeWaitersIfReady.loop C (pre ++ w :: post) t []).2.2.1 =
      (executeWaitersIfReady.loop C pre t []).2.2.1 ++ [Event.waiter w.seq (some err)] := by
  rw [loop_append_ok C pre (w :: post) t [] hpre]
  unfold visitState at hready herr
  rw [loop_cons_err C w post _ _ hready err herr]
  exact ⟨rfl, rfl⟩

/-- C9: a pass of `executeWaitersIfReady` over pending waiters with distinct registration
    numbers and `done` false, as `doWhenDataReady` registers them.
    When the pass returns nil: a waiter is called if and only if it is ready when it is
    visited; the calls made are the calls of these waiters and nothing else, in the order of
    the pending list; and the pending list afterwards is the waiters not called, in their
    order.  When the callback of a waiter that is ready when visited returns an error and the
    callbacks before it did not: the pass returns this error, the call is the last one made,
    and no waiter after it in the list is called. -/
theorem executeWaitersIfReady_spec (C : Closures) (t : transaction)
    (hseq : (t.waiters.map waiter.seq).Nodup) (hdone : ∀ w ∈ t.waiters, w.done = false) :
    ((t.executeWaitersIfReady C).2.2 = none →
      (∀ pre w post, t.waiters = pre ++ w :: post →
        (w.seq ∈ waiterSeqs (t.executeWaitersIfReady C).2.1 ↔
          w.ready (visitState C pre t) = true)) ∧
      (t.executeWaitersIfReady C).2.1 =
        (t.waiters.filter (fun w =>
          decide (w.seq ∈ waiterSeqs (t.executeWaitersIfReady C).2.1))).map
          (fun w => Event.waiter w.seq none) ∧
      (t.executeWaitersIfReady C).1.waiters =
        t.waiters.filter (fun w =>
          decide (w.seq ∉ waiterSeqs (t.executeWaitersIfReady C).2.1))) ∧
    (∀ pre w post err, t.waiters = pre ++ w :: post →
      (executeWaitersIfReady.loop C pre t []).2.2.2 = none →
      w.ready (visitState C pre t) = true →
      (C.waiter w.do_ (visitState C pre t)).err = some err →
      (t.executeWaitersIfReady C).2.2 = some err ∧
      (t.executeWaitersIfReady C).2.1 =
        (executeWaitersIfReady.loop C pre t []).2.2.1 ++ [Event.waiter w.seq (some err)] ∧
      ∀ w' ∈ post, w'.seq ∉ waiterSeqs (t.executeWaitersIfReady C).2.1) := by
  constructor
  · intro hnil
    have hl : (executeWaitersIfReady.loop C t.waiters t []).2.2.2 = none := by
      cases hp : (executeWaitersIfReady.loop C t.waiters t []).2.2.2 with
      | none => rfl
      | some err => rw [executeWaitersIfReady_err C t err hp] at hnil; simp at hnil
    rw [executeWaitersIfReady_ok C t hl]
    refine ⟨?_, loop_calls C t.waiters t hseq hl, loop_stillWaiting C t.waiters t hseq hl⟩
    intro pre w post hsplit
    have hd : w.done = false := hdone w (by rw [hsplit]; simp)
    rw [hsplit] at hseq hl
    simp only
    have := loop_visit C pre w post t hseq hd hl
    rw [← hsplit] at this
    exact this
  · intro pre w post err hsplit hpre hready herr
    have hd : w.done = false := hdone w (by rw [hsplit]; simp)
    have hs := loop_stops C pre w post t err hpre (by simp [hready, hd]) herr
    rw [← hsplit] at hs
    rw [executeWaitersIfReady_err C t err hs.1]
    refine ⟨rfl, hs.2, ?_⟩
    intro w' hw' hm
    simp only at hm
    rw [hs.2, waiterSeqs_append] at hm
    rw [hsplit, List.map_append, List.map_cons, List.nodup_append] at hseq
    obtain ⟨_, hwpost, hdisj⟩ := hseq
    rcases List.mem_append.mp hm with hm | hm
    · exact hdisj ((loop_events C pre t []).1.subset hm)
        (List.mem_cons_of_mem _ (List.mem_map_of_mem _ hw'))
    · have hw : waiterSeqs [Event.waiter w.seq (some err)] = [w.seq] := rfl
      rw [hw, List.mem_singleton] at hm
      exact (List.nodup_cons.mp hwpost).1 (hm ▸ List.mem_map_of_mem _ hw')

/-! ### The handlers of a round -/

theorem handlerCalls_append (a b : List Event) :
    handlerCalls (a ++ b) = handlerCalls a ++ handlerCalls b := by
  simp [handlerCalls, List.filterMap_append]

theorem handlerCalls_cons_handler (pos : Nat) (reply : Reply) (err : Option Err)
    (events : List Event) :
    handlerCalls (Event.handler pos reply err :: events) =
      (pos, reply, err) :: handlerCalls events := by
  simp [handlerCalls]

theorem act_handlers (t : transaction) (a : Act) :
    ∃ x, (t.act a).handlers = t.handlers ++ x := by
  cases a with
  | sendData key data => exact ⟨[], by simp [transaction.act, transaction.sendData]⟩
  | doWhenDataReady dataKeys do_ =>
    exact ⟨[], by simp [transaction.act, transaction.doWhenDataReady]⟩
  | command cmd args handler => exact ⟨[handler], by simp [transaction.act, transaction.command]⟩

theorem acts_handlers (as : List Act) (t : transaction) :
    ∃ x, (t.acts as).handlers = t.handlers ++ x := by
  induction as generalizing t with
  | nil => exact ⟨[], by simp [transaction.acts]⟩
  | cons a as ih =>
    obtain ⟨x, hx⟩ := act_handlers t a
    obtain ⟨y, hy⟩ := ih (t.act a)
    refine ⟨x ++ y, ?_⟩
    have : t.acts (a :: as) = (t.act a).acts as := rfl
    rw [this, hy, hx, List.append_assoc]

theorem removeOldAlphaIndexHandler_handlerCalls (conn : Conn) (mr : modelRef)
    (fieldName : String) (reply : Reply) :
    handlerCalls (removeOldAlphaIndexHandler conn mr fieldName reply).1 = [] := by
  unfold removeOldAlphaIndexHandler
  split
  · rfl
  · split
    · rfl
    · split
      · rfl
      · split <;> rfl

theorem runHandler_handlers (C : Closures) (h : Handler) (reply : Reply) (t : transaction) :
    (∃ x, (runHandler C h reply t).1.handlers = t.handlers ++ x) ∧
    handlerCalls (runHandler C h reply t).2.1 = [] := by
  cases h with
  | newSendDataHandler key => exact ⟨⟨[], by simp [runHandler, transaction.sendData]⟩, rfl⟩
  | removeOldAlphaIndex mr fieldName =>
    exact ⟨⟨[], by simp [runHandler]⟩, removeOldAlphaIndexHandler_handlerCalls _ _ _ _⟩
  | closure id => exact ⟨acts_handlers _ t, rfl⟩
  | newScanHandler mr scan =>
    exact ⟨⟨[], by simp [runHandler]⟩,
      handlerCalls_of_side _ (scanHandlers_events t.conn mr scan reply).1⟩
  | newScanModelHandler mr scanModel =>
    exact ⟨⟨[], by simp [runHandler]⟩,
      handlerCalls_of_side _ (scanHandlers_events t.conn mr scanModel reply).2.1⟩
  | newScanModelSliceHandler mr =>
    exact ⟨⟨[], by simp [runHandler]⟩,
      handlerCalls_of_side _ (scanHandlers_events t.conn mr (fun _ => none) reply).2.2⟩

theorem hasHandler_append (hs x : List (Option Handler)) (j : Nat) (hj : j < hs.length) :
    hasHandler (hs ++ x) j = hasHandler hs j := by
  simp [hasHandler, List.getElem?_append_left hj]

theorem dispatch_calls (C : Closures) (replies : List Reply) (i : Nat) (t : transaction)
    (hlen : i + replies.length ≤ t.handlers.length) :
    (∃ x, (exec.dispatch C i replies t).1.handlers = t.handlers ++ x) ∧
    ∃ n, n ≤ replies.length ∧
      (handlerCalls (exec.dispatch C i replies t).2.1).map (fun c => c.1) =
        (List.range' i n).filter (hasHandler t.handlers) ∧
      (∀ c ∈ handlerCalls (exec.dispatch C i replies t).2.1,
        i ≤ c.1 ∧ replies[c.1 - i]? = some c.2.1) ∧
      ((exec.dispatch C i replies t).2.2 = none →
        n = replies.length ∧
        ∀ c ∈ handlerCalls (exec.dispatch C i replies t).2.1, c.2.2 = none) ∧
      (∀ err, (exec.dispatch C i replies t).2.2 = some err →
        1 ≤ n ∧
        (∃ reply, (handlerCalls (exec.dispatch C i replies t).2.1).getLast? =
          some (i + n - 1, reply, some err)) ∧
        ∀ c ∈ (handlerCalls (exec.dispatch C i replies t).2.1).dropLast, c.2.2 = none) := by
  induction replies generalizing i t with
  | nil =>
    rw [dispatch_nil]
    exact ⟨⟨[], by simp⟩, 0, le_refl _, by simp [handlerCalls], by simp [handlerCalls],
      by simp [handlerCalls], by simp⟩
  | cons reply replies ih =>
    have hi : i < t.handlers.length := by simp at hlen; omega
    cases hg : t.handlers[i]? with
    | none =>
      rw [List.getElem?_eq_none_iff] at hg
      omega
    | some o =>
      cases o with
      | none =>
        rw [dispatch_cons_nil C i reply replies t hg]
        obtain ⟨hx, n, hn, hpos, hrep, hok, herr⟩ := ih (i + 1) t (by simp at hlen ⊢; omega)
        refine ⟨hx, n + 1, by simp; omega, ?_, ?_, ?_, ?_⟩
        · rw [List.range'_succ, List.filter_cons_of_neg (by simp [hasHandler, hg])]
          exact hpos
        · intro c hc
          obtain ⟨h1, h2⟩ := hrep c hc
          refine ⟨by omega, ?_⟩
          have : c.1 - i = (c.1 - (i + 1)) + 1 := by omega
          rw [this, List.getElem?_cons_succ]
          exact h2
        · intro h
          obtain ⟨h1, h2⟩ := hok h
          exact ⟨by simp [h1], h2⟩
        · intro err h
          obtain ⟨h1, ⟨rp, h2⟩, h3⟩ := herr err h
          refine ⟨by omega, ⟨rp, ?_⟩, h3⟩
          rw [h2]
          congr 2
          omega
      | some hd =>
        obtain ⟨⟨x, hx⟩, hside⟩ := runHandler_handlers C hd reply t
        cases he : (runHandler C hd reply t).2.2 with
        | some err =>
          rw [dispatch_cons_err C i reply replies t hd hg err he]
          have hcalls : handlerCalls ((runHandler C hd reply t).2.1 ++
              [Event.handler i reply (some err)]) = [(i, reply, some err)] := by
            rw [handlerCalls_append, hside, handlerCalls_cons_handler]
            rfl
          refine ⟨⟨x, hx⟩, 1, by simp, ?_, ?_, ?_, ?_⟩
          · simp [hcalls, hasHandler, hg]
          · intro c hc
            simp only [hcalls, List.mem_singleton] at hc
            subst hc
            simp
          · intro h
            simp at h
          · intro err' h
            simp at h
            subst h
            simp [hcalls]
        | none =>
          rw [dispatch_cons_ok C i reply replies t hd hg he]
          have hlen' : i + 1 + replies.length ≤ (runHandler C hd reply t).1.handlers.length := by
            rw [hx]
            simp at hlen ⊢
            omega
          obtain ⟨⟨y, hy⟩, n, hn, hpos, hrep, hok, herr⟩ :=
            ih (i + 1) (runHandler C hd reply t).1 hlen'
          have hcalls : handlerCalls ((runHandler C hd reply t).2.1 ++ Event.handler i reply none ::
              (exec.dispatch C (i + 1) replies (runHandler C hd reply t).1).2.1) =
              (i, reply, none) ::
                handlerCalls (exec.dispatch C (i + 1) replies (runHandler C hd reply t).1).2.1 := by
            rw [handlerCalls_append, hside, handlerCalls_cons_handler]
            rfl
          refine ⟨⟨x ++ y, by rw [hy, hx, List.append_assoc]⟩, n + 1, by simp; omega, ?_, ?_,
            ?_, ?_⟩
          · simp only [hcalls]
            rw [List.range'_succ, List.filter_cons_of_pos (by simp [hasHandler, hg]),
              List.map_cons, hpos]
            congr 1
            apply List.filter_congr
            intro j hj
            rw [List.mem_range'_1] at hj
            rw [hx]
            exact hasHandler_append _ _ _ (by simp at hlen; omega)
          · intro c hc
            simp only [hcalls] at hc
            rcases List.mem_cons.mp hc with rfl | hc
            · simp
            · obtain ⟨h1, h2⟩ := hrep c hc
              refine ⟨by omega, ?_⟩
              have : c.1 - i = (c.1 - (i + 1)) + 1 := by omega
              rw [this, List.getElem?_cons_succ]
              exact h2
          · intro h
            simp only [hcalls]
            obtain ⟨h1, h2⟩ := hok h
            refine ⟨by simp [h1], ?_⟩
            intro c hc
            rcases List.mem_cons.mp hc with rfl | hc
            · rfl
            · exact h2 c hc
          · intro err h
            simp only [hcalls]
            obtain ⟨h1, ⟨rp, h2⟩, h3⟩ := herr err h
            have hne : handlerCalls
                (exec.dispatch C (i + 1) replies (runHandler C hd reply t).1).2.1 ≠ [] := by
              intro hnil
              rw [hnil] at h2
              simp at h2
            refine ⟨by omega, ⟨rp, ?_⟩, ?_⟩
            · rw [List.getLast?_cons, h2]
              simp only [Option.getD_some]
              congr 2
              omega
            · intro c hc
              rw [List.dropLast_cons_of_ne_nil hne] at hc
              rcases List.mem_cons.mp hc with rfl | hc
              · rfl
              · exact h3 c hc

theorem mem_handlerCalls (events : List Event) (c : Nat × Reply × Option Err) :
    c ∈ handlerCalls events ↔ Event.handler c.1 c.2.1 c.2.2 ∈ events := by
  unfold handlerCalls
  rw [List.mem_filterMap]
  constructor
  · rintro ⟨e, he, hc⟩
    cases e <;> simp at hc
    subst hc
    exact he
  · intro h
    exact ⟨_, h, rfl⟩

theorem handlerCalls_eq_nil (events : List Event)
    (h : ∀ e ∈ events, ∀ pos reply err, e ≠ Event.handler pos reply err) :
    handlerCalls events = [] := by
  rw [List.eq_nil_iff_forall_not_mem]
  intro c hc
  exact h _ ((mem_handlerCalls events c).mp hc) _ _ _ rfl

theorem sendAll_events (conn : Conn) (round : Nat) (cs : List command) (i : Nat) :
    ∀ e ∈ (exec.sendAll conn round i cs).1, ∃ name args, e = Event.send name args := by
  induction cs generalizing i with
  | nil => simp [exec.sendAll]
  | cons c cs ih =>
    unfold exec.sendAll
    split
    · intro e he
      simp at he
      exact ⟨_, _, he⟩
    · intro e he
      rcases List.mem_cons.mp he with rfl | he
      · exact ⟨_, _, rfl⟩
      · exact ih (i + 1) e he

theorem removeOldAlphaIndexHandler_events (conn : Conn) (mr : modelRef) (fieldName : String)
    (reply : Reply) :
    ∀ e ∈ (removeOldAlphaIndexHandler conn mr fieldName reply).1, ∃ c, e = Event.side c := by
  unfold removeOldAlphaIndexHandler
  split
  · simp
  · split
    · simp
    · split
      · simp
      · split
        · intro e he
          simp at he
          exact ⟨_, he⟩
        · simp

theorem runHandler_events (C : Closures) (h : Handler) (reply : Reply) (t : transaction) :
    ∀ e ∈ (runHandler C h reply t).2.1, ∃ c, e = Event.side c := by
  cases h with
  | newSendDataHandler key => simp [runHandler]
  | removeOldAlphaIndex mr fieldName => exact removeOldAlphaIndexHandler_events _ _ _ _
  | closure id => simp [runHandler]
  | newScanHandler mr scan => exact (scanHandlers_events t.conn mr scan reply).1
  | newScanModelHandler mr scanModel => exact (scanHandlers_events t.conn mr scanModel reply).2.1
  | newScanModelSliceHandler mr =>
    exact (scanHandlers_events t.conn mr (fun _ => none) reply).2.2

theorem dispatch_events (C : Closures) (replies : List Reply) (i : Nat) (t : transaction) :
    ∀ e ∈ (exec.dispatch C i replies t).2.1,
      (∃ c, e = Event.side c) ∨ ∃ pos reply err, e = Event.handler pos reply err := by
  induction replies generalizing i t with
  | nil => simp [dispatch_nil]
  | cons reply replies ih =>
    cases hg : t.handlers[i]? with
    | none => rw [dispatch_cons_out C i reply replies t hg]; simp
    | some o =>
      cases o with
      | none => rw [dispatch_cons_nil C i reply replies t hg]; exact ih (i + 1) t
      | some hd =>
        cases he : (runHandler C hd reply t).2.2 with
        | some err =>
          rw [dispatch_cons_err C i reply replies t hd hg err he]
          intro e hm
          rcases List.mem_append.mp hm with hm | hm
          · exact Or.inl (runHandler_events C hd reply t e hm)
          · simp at hm
            exact Or.inr ⟨_, _, _, hm⟩
        | none =>
          rw [dispatch_cons_ok C i reply replies t hd hg he]
          intro e hm
          rcases List.mem_append.mp hm with hm | hm
          · exact Or.inl (runHandler_events C hd reply t e hm)
          · rcases List.mem_cons.mp hm with rfl | hm
            · exact Or.inr ⟨_, _, _, rfl⟩
            · exact ih (i + 1) _ e hm

theorem dispatch_failed_call (C : Closures) (replies : List Reply) (i : Nat) (t : transaction) :
    ∀ c ∈ handlerCalls (exec.dispatch C i replies t).2.1, ∀ err, c.2.2 = some err →
      (exec.dispatch C i replies t).2.2 = some err := by
  induction replies generalizing i t with
  | nil => simp [dispatch_nil, handlerCalls]
  | cons reply replies ih =>
    cases hg : t.handlers[i]? with
    | none => rw [dispatch_cons_out C i reply replies t hg]; simp [handlerCalls]
    | some o =>
      cases o with
      | none => rw [dispatch_cons_nil C i reply replies t hg]; exact ih (i + 1) t
      | some hd =>
        have hside := (runHandler_handlers C hd reply t).2
        cases he : (runHandler C hd reply t).2.2 with
        | some err =>
          rw [dispatch_cons_err C i reply replies t hd hg err he]
          intro c hc err' hce
          rw [handlerCalls_append, hside, handlerCalls_cons_handler] at hc
          simp [handlerCalls] at hc
          subst hc
          simpa using hce
        | none =>
          rw [dispatch_cons_ok C i reply replies t hd hg he]
          intro c hc err' hce
          rw [handlerCalls_append, hside, handlerCalls_cons_handler] at hc
          rcases List.mem_cons.mp hc with rfl | hc
          · simp at hce
          · exact ih (i + 1) _ c hc err' hce

theorem executeWaitersIfReady_events (C : Closures) (t : transaction) :
    ∀ e ∈ (t.executeWaitersIfReady C).2.1, ∃ seq err, e = Event.waiter seq err := by
  cases he : (executeWaitersIfReady.loop C t.waiters t []).2.2.2 with
  | some err => rw [executeWaitersIfReady_err C t err he]; exact (loop_events C _ t []).2
  | none => rw [executeWaitersIfReady_ok C t he]; exact (loop_events C _ t []).2

theorem executeWaitersIfReady_handlerCalls (C : Closures) (t : transaction) :
    handlerCalls (t.executeWaitersIfReady C).2.1 = [] := by
  apply handlerCalls_eq_nil
  intro e he pos reply err heq
  obtain ⟨s, er, h⟩ := executeWaitersIfReady_events C t e he
  rw [h] at heq
  cases heq

theorem sendAll_handlerCalls (conn : Conn) (round : Nat) (cs : List command) (i : Nat) :
    handlerCalls (exec.sendAll conn round i cs).1 = [] := by
  apply handlerCalls_eq_nil
  intro e he pos reply err heq
  obtain ⟨s, er, h⟩ := sendAll_events conn round cs i e he
  rw [h] at heq
  cases heq

theorem handlerCalls_cons_send (name : String) (args : List Arg) (events : List Event) :
    handlerCalls (Event.send name args :: events) = handlerCalls events := rfl

theorem handlerCalls_cons_doCmd (name : String) (events : List Event) :
    handlerCalls (Event.doCmd name :: events) = handlerCalls events := rfl

theorem handlerCalls_cons_reset (events : List Event) :
    handlerCalls (Event.reset :: events) = handlerCalls events := rfl

theorem handlerCalls_discard : handlerCalls discard = [] := rfl

/-- The part of a round in front of the handlers holds no reset. -/
theorem reset_not_mem_front (conn : Conn) (round : Nat) (cs : List command) (C : Closures)
    (replies : List Reply) (t : transaction) :
    Event.reset ∉ Event.send "MULTI" [] :: (exec.sendAll conn round 0 cs).1 ++
      Event.doCmd "EXEC" :: (exec.dispatch C 0 replies t).2.1 := by
  intro hm
  rw [List.cons_append] at hm
  rcases List.mem_cons.mp hm with h | hm
  · cases h
  rcases List.mem_append.mp hm with hm | hm
  · obtain ⟨_, _, h⟩ := sendAll_events conn round cs 0 _ hm
    cases h
  rcases List.mem_cons.mp hm with h | hm
  · cases h
  rcases dispatch_events C replies 0 t _ hm with ⟨_, h⟩ | ⟨_, _, _, h⟩ <;> cases h

theorem round_handlerCalls (C : Closures) (round : Nat) (t : transaction)
    (replies : List Reply)
    (hs : (exec.sendAll t.conn round 0 t.commands).2 = none)
    (hx : t.conn.exec round t.commands = .ok replies) :
    handlerCalls (exec.round C round t).2.1 = handlerCalls (exec.dispatch C 0 replies t).2.1 := by
  have hsa := sendAll_handlerCalls t.conn round t.commands 0
  cases hde : (exec.dispatch C 0 replies t).2.2 with
  | some err =>
    rw [round_dispatch_err C round t err replies hs hx hde]
    simp [handlerCalls_cons_send, handlerCalls_append, handlerCalls_cons_doCmd, hsa]
  | none =>
    cases hwe : (transaction.executeWaitersIfReady C
        { (exec.dispatch C 0 replies t).1 with commands := [], handlers := [] }).2.2 with
    | some err =>
      rw [round_waiters_err C round t err replies hs hx hde hwe]
      simp [handlerCalls_cons_send, handlerCalls_append, handlerCalls_cons_doCmd, hsa,
        handlerCalls_cons_reset, executeWaitersIfReady_handlerCalls]
    | none =>
      rw [round_next C round t replies hs hx hde hwe]
      simp [handlerCalls_cons_send, handlerCalls_append, handlerCalls_cons_doCmd, hsa,
        handlerCalls_cons_reset, executeWaitersIfReady_handlerCalls]

theorem round_failed_call (C : Closures) (round : Nat) (t : transaction) :
    ∀ c ∈ handlerCalls (exec.round C round t).2.1, ∀ err, c.2.2 = some err →
      (exec.round C round t).2.2 = Flow.returned err := by
  have hsa := sendAll_handlerCalls t.conn round t.commands 0
  cases hs : (exec.sendAll t.conn round 0 t.commands).2 with
  | some err =>
    rw [round_send_err C round t err hs]
    simp [handlerCalls_cons_send, hsa]
  | none =>
    cases hx : t.conn.exec round t.commands with
    | error err =>
      rw [round_exec_err C round t err hs hx]
      simp [handlerCalls_cons_send, handlerCalls_append, handlerCalls_cons_doCmd, hsa,
        handlerCalls_discard]
    | ok replies =>
      intro c hc err hce
      rw [round_handlerCalls C round t replies hs hx] at hc
      have hd := dispatch_failed_call C replies 0 t c hc err hce
      rw [round_dispatch_err C round t err replies hs hx hd]

theorem execLoop_failed_call (C : Closures) (fuel : Nat) (round : Nat) (t : transaction)
    (r : transaction × List Event × Option Err) (hr : exec.loop C fuel round t = some r) :
    ∀ c ∈ handlerCalls r.2.1, ∀ err, c.2.2 = some err → r.2.2 = some err := by
  induction fuel generalizing round t r with
  | zero =>
    rw [loop_zero] at hr
    split at hr
    · simp at hr
    · simp at hr; subst hr; simp [handlerCalls]
  | succ fuel ih =>
    rw [loop_succ] at hr
    split at hr
    · have hro := round_failed_call C round t
      cases hf : (exec.round C round t).2.2 with
      | returned err =>
        simp only [hf] at hr
        simp at hr; subst hr
        intro c hc err' hce
        have := hro c hc err' hce
        rw [hf] at this
        cases this
        rfl
      | next =>
        simp only [hf] at hr
        cases hl : exec.loop C fuel (round + 1) (exec.round C round t).1 with
        | none => simp [hl] at hr
        | some r2 =>
          simp [hl] at hr
          subst hr
          intro c hc err' hce
          simp only [handlerCalls_append] at hc
          rcases List.mem_append.mp hc with hc | hc
          · have := hro c hc err' hce
            rw [hf] at this
            cases this
          · exact ih (round + 1) _ r2 hl c hc err' hce
    · simp at hr; subst hr; simp [handlerCalls]

/-! ### `exec` -/

theorem body_cases (C : Closures) (fuel : Nat) (t : transaction)
    (r : transaction × List Event × Option Err) (h : exec.body C fuel t = some r) :
    (∃ err, (t.executeWaitersIfReady C).2.2 = some err ∧
      r = ((t.executeWaitersIfReady C).1, (t.executeWaitersIfReady C).2.1, some err)) ∨
    ((t.executeWaitersIfReady C).2.2 = none ∧
      ∃ r2, exec.loop C fuel 0 (t.executeWaitersIfReady C).1 = some r2 ∧
        r = (r2.1, (t.executeWaitersIfReady C).2.1 ++ r2.2.1,
          match r2.2.2 with
          | some err => some err
          | none => exec.finish r2.1)) := by
  unfold exec.body at h
  cases hw : (t.executeWaitersIfReady C).2.2 with
  | some err =>
    simp only [hw] at h
    exact Or.inl ⟨err, rfl, by simpa using h.symm⟩
  | none =>
    simp only [hw] at h
    cases hl : exec.loop C fuel 0 (t.executeWaitersIfReady C).1 with
    | none => simp [hl] at h
    | some r2 =>
      simp only [hl] at h
      refine Or.inr ⟨rfl, r2, rfl, ?_⟩
      cases h2 : r2.2.2 with
      | some err => simp only [h2] at h; simpa using h.symm
      | none => simp only [h2] at h; simpa using h.symm

theorem exec_cases (C : Closures) (fuel : Nat) (t : transaction)
    (r : transaction × List Event × Option Err) (h : t.exec C fuel = some r) :
    ∃ b, exec.body C fuel t = some b ∧ r = (b.1, b.2.1 ++ discard, b.2.2) := by
  unfold transaction.exec at h
  cases hb : exec.body C fuel t with
  | none => simp [hb] at h
  | some b =>
    simp only [hb] at h
    exact ⟨b, rfl, by simpa using h.symm⟩

/-- C8: during one call of `exec` that returns, on a transaction whose pending waiters have
    distinct registration numbers below the number of registrations (as `doWhenDataReady`
    numbers them), no waiter is called more than once: the registration numbers of the waiter
    calls in the trace, over the first pass and the pass after every round, are pairwise
    distinct. -/
theorem exec_calls_waiter_at_most_once (C : Closures) (fuel : Nat) (t : transaction)
    (r : transaction × List Event × Option Err)
    (hseq : (t.waiters.map waiter.seq).Nodup)
    (hreg : ∀ w ∈ t.waiters, w.seq < t.registered)
    (hr : t.exec C fuel = some r) :
    (waiterSeqs r.2.1).Nodup := by
  have hi : SeqInv (t.waiters.map waiter.seq) [] t.registered := by
    refine ⟨by simpa using hseq, ?_⟩
    intro s hs
    simp only [List.append_nil, List.mem_map] at hs
    obtain ⟨w, hw, rfl⟩ := hs
    exact hreg w hw
  obtain ⟨b, hb, rfl⟩ := exec_cases C fuel t r hr
  have hw := executeWaitersIfReady_seqInv C t [] hi
  simp only [waiterSeqs_append, waiterSeqs_discard, List.append_nil]
  rcases body_cases C fuel t b hb with ⟨err, _, rfl⟩ | ⟨hnil, r2, hl, rfl⟩
  · simpa using hw.1
  · have := execLoop_seqInv C fuel 0 _ _ (hw.2 hnil) r2 hl
    simpa [waiterSeqs_append] using this

theorem zip_append_of_le {α β : Type} (l x : List α) (rs : List β)
    (h : rs.length ≤ l.length) : (l ++ x).zip rs = l.zip rs := by
  induction l generalizing rs with
  | nil =>
    cases rs with
    | nil => simp
    | cons r rs => simp at h
  | cons a l ih =>
    cases rs with
    | nil => simp
    | cons r rs =>
      simp only [List.cons_append, List.zip_cons_cons, List.cons.injEq, true_and]
      exact ih rs (by simpa using h)

theorem act_commands (t : transaction) (a : Act) :
    ∃ x, (t.act a).commands = t.commands ++ x := by
  cases a with
  | sendData key data => exact ⟨[], by simp [transaction.act, transaction.sendData]⟩
  | doWhenDataReady dataKeys do_ =>
    exact ⟨[], by simp [transaction.act, transaction.doWhenDataReady]⟩
  | command cmd args handler =>
    exact ⟨[{ name := cmd, args := args }], by simp [transaction.act, transaction.command]⟩

theorem acts_commands (as : List Act) (t : transaction) :
    ∃ x, (t.acts as).commands = t.commands ++ x := by
  induction as generalizing t with
  | nil => exact ⟨[], by simp [transaction.acts]⟩
  | cons a as ih =>
    obtain ⟨x, hx⟩ := act_commands t a
    obtain ⟨y, hy⟩ := ih (t.act a)
    refine ⟨x ++ y, ?_⟩
    have : t.acts (a :: as) = (t.act a).acts as := rfl
    rw [this, hy, hx, List.append_assoc]

theorem runHandler_commands (C : Closures) (h : Handler) (reply : Reply) (t : transaction) :
    ∃ x, (runHandler C h reply t).1.commands = t.commands ++ x := by
  cases h with
  | newSendDataHandler key => exact ⟨[], by simp [runHandler, transaction.sendData]⟩
  | removeOldAlphaIndex mr fieldName => exact ⟨[], by simp [runHandler]⟩
  | closure id => exact acts_commands _ t
  | newScanHandler mr scan => exact ⟨[], by simp [runHandler]⟩
  | newScanModelHandler mr scanModel => exact ⟨[], by simp [runHandler]⟩
  | newScanModelSliceHandler mr => exact ⟨[], by simp [runHandler]⟩

/-- The calls of the handlers keep the batch: the commands and the handler slots that were
    queued are there still, in front of what the handlers queued. -/
theorem flushSpec_keeps (C : Closures) (pairs : List (Option Handler × Reply)) (i : Nat)
    (t : transaction) :
    (∃ x, (flushSpec C i pairs t).1.commands = t.commands ++ x) ∧
    (∃ y, (flushSpec C i pairs t).1.handlers = t.handlers ++ y) := by
  induction pairs generalizing i t with
  | nil => exact ⟨⟨[], by simp [flushSpec]⟩, ⟨[], by simp [flushSpec]⟩⟩
  | cons p pairs ih =>
    obtain ⟨slot, reply⟩ := p
    cases slot with
    | none => simpa [flushSpec] using ih (i + 1) t
    | some h =>
      obtain ⟨x, hx⟩ := runHandler_commands C h reply t
      obtain ⟨y, hy⟩ := (runHandler_handlers C h reply t).1
      cases he : (runHandler C h reply t).2.2 with
      | some err =>
        simp only [flushSpec, he]
        exact ⟨⟨x, hx⟩, ⟨y, hy⟩⟩
      | none =>
        simp only [flushSpec, he]
        obtain ⟨⟨x2, hx2⟩, ⟨y2, hy2⟩⟩ := ih (i + 1) (runHandler C h reply t).1
        exact ⟨⟨x ++ x2, by rw [hx2, hx, List.append_assoc]⟩,
          ⟨y ++ y2, by rw [hy2, hy, List.append_assoc]⟩⟩

/-- C7: a round of `exec` whose commands are all sent and whose EXEC answers one reply per
    queued command, every command having its handler slot.  The handlers called are those of
    the non-nil slots below some position `n`, in increasing order of position, each with the
    reply at its position; every call but the last returned nil.  When every call returned
    nil, `n` is the number of replies and the reset of the commands and handlers comes after
    every handler call of the round.  When a call returned an error, it is the call at
    position `n - 1`, the round returns this error and resets nothing: the handler list
    still starts with the handlers of the round.
    What the round does to the transaction is what the spec says of a flush (`flushSpec`:
    the handler of every slot called with the reply of its position, in order, up to the
    first error).  When a handler fails, the round ends in the state that handler left, with
    its error, the commands and handlers of the batch still queued; when none fails, the
    commands and the handlers are emptied after the last handler and before the waiters are
    visited, so that the round ends in the state the waiters leave from the emptied batch.
    And when a handler call in the trace of `exec` returned an error, `exec` returns this
    error. -/
theorem exec_round_dispatch (C : Closures) :
    (∀ (round : Nat) (t : transaction) (replies : List Reply),
      (exec.sendAll t.conn round 0 t.commands).2 = none →
      t.conn.exec round t.commands = .ok replies →
      replies.length = t.commands.length →
      t.handlers.length = t.commands.length →
      ∃ n, n ≤ replies.length ∧
        (handlerCalls (exec.round C round t).2.1).map (fun c => c.1) =
          (List.range n).filter (hasHandler t.handlers) ∧
        (∀ c ∈ handlerCalls (exec.round C round t).2.1, replies[c.1]? = some c.2.1) ∧
        (∀ c ∈ (handlerCalls (exec.round C round t).2.1).dropLast, c.2.2 = none) ∧
        ((∀ c ∈ handlerCalls (exec.round C round t).2.1, c.2.2 = none) →
          n = replies.length ∧
          ∃ pre post, (exec.round C round t).2.1 = pre ++ Event.reset :: post ∧
            Event.reset ∉ pre ∧ handlerCalls post = []) ∧
        (∀ c ∈ handlerCalls (exec.round C round t).2.1, ∀ err, c.2.2 = some err →
          c.1 + 1 = n ∧ (exec.round C round t).2.2 = Flow.returned err ∧
          Event.reset ∉ (exec.round C round t).2.1 ∧
          ∃ x, (exec.round C round t).1.handlers = t.handlers ++ x)) ∧
    (∀ (round : Nat) (t : transaction) (replies : List Reply),
      (exec.sendAll t.conn round 0 t.commands).2 = none →
      t.conn.exec round t.commands = .ok replies →
      replies.length = t.commands.length →
      t.handlers.length = t.commands.length →
      (∀ err, (flushSpec C 0 (t.handlers.zip replies) t).2.2 = some err →
        exec.round C round t =
          ((flushSpec C 0 (t.handlers.zip replies) t).1,
            Event.send "MULTI" [] :: (exec.sendAll t.conn round 0 t.commands).1 ++
              Event.doCmd "EXEC" :: (flushSpec C 0 (t.handlers.zip replies) t).2.1,
            Flow.returned err) ∧
        (∃ x, (exec.round C round t).1.commands = t.commands ++ x) ∧
        (∃ y, (exec.round C round t).1.handlers = t.handlers ++ y)) ∧
      ((flushSpec C 0 (t.handlers.zip replies) t).2.2 = none →
        (exec.round C round t).1 =
          (transaction.executeWaitersIfReady C
            { (flushSpec C 0 (t.handlers.zip replies) t).1 with
              commands := [], handlers := [] }).1 ∧
        (exec.round C round t).2.1 =
          Event.send "MULTI" [] :: (exec.sendAll t.conn round 0 t.commands).1 ++
            Event.doCmd "EXEC" :: (flushSpec C 0 (t.handlers.zip replies) t).2.1 ++
            Event.reset ::
            (transaction.executeWaitersIfReady C
              { (flushSpec C 0 (t.handlers.zip replies) t).1 with
                commands := [], handlers := [] }).2.1 ∧
        ((exec.round C round t).2.2 = Flow.next ↔
          (transaction.executeWaitersIfReady C
            { (flushSpec C 0 (t.handlers.zip replies) t).1 with
              commands := [], handlers := [] }).2.2 = none))) ∧
    (∀ (fuel : Nat) (t : transaction) (r : transaction × List Event × Option Err),
      t.exec C fuel = some r →
      ∀ c ∈ handlerCalls r.2.1, ∀ err, c.2.2 = some err → r.2.2 = some err) := by
  refine ⟨?_, ?_, ?_⟩
  · intro round t replies hs hx hrep hslots
    obtain ⟨hpre, n, hn, hpos, hreply, hok, herr⟩ :=
      dispatch_calls C replies 0 t (by omega)
    rw [round_handlerCalls C round t replies hs hx]
    rw [← List.range_eq_range'] at hpos
    refine ⟨n, hn, hpos, fun c hc => by simpa using (hreply c hc).2, ?_, ?_, ?_⟩
    · cases hde : (exec.dispatch C 0 replies t).2.2 with
      | some err => exact (herr err hde).2.2
      | none =>
        intro c hc
        exact (hok hde).2 c (List.dropLast_subset _ hc)
    · intro hall
      cases hde : (exec.dispatch C 0 replies t).2.2 with
      | some err =>
        obtain ⟨_, ⟨rp, hlast⟩, _⟩ := herr err hde
        obtain ⟨ys, hys⟩ := List.getLast?_eq_some_iff.mp hlast
        have := hall (0 + n - 1, rp, some err) (by rw [hys]; simp)
        simp at this
      | none =>
        refine ⟨(hok hde).1, ?_⟩
        cases hwe : (transaction.executeWaitersIfReady C
            { (exec.dispatch C 0 replies t).1 with commands := [], handlers := [] }).2.2 with
        | some err =>
          rw [round_waiters_err C round t err replies hs hx hde hwe]
          exact ⟨Event.send "MULTI" [] :: (exec.sendAll t.conn round 0 t.commands).1 ++
              Event.doCmd "EXEC" :: (exec.dispatch C 0 replies t).2.1, _,
            rfl, reset_not_mem_front _ _ _ _ _ _,
            executeWaitersIfReady_handlerCalls _ _⟩
        | none =>
          rw [round_next C round t replies hs hx hde hwe]
          exact ⟨Event.send "MULTI" [] :: (exec.sendAll t.conn round 0 t.commands).1 ++
              Event.doCmd "EXEC" :: (exec.dispatch C 0 replies t).2.1, _,
            rfl, reset_not_mem_front _ _ _ _ _ _,
            executeWaitersIfReady_handlerCalls _ _⟩
    · intro c hc err hce
      have hde := dispatch_failed_call C replies 0 t c hc err hce
      obtain ⟨h1, ⟨rp, hlast⟩, hdrop⟩ := herr err hde
      obtain ⟨ys, hys⟩ := List.getLast?_eq_some_iff.mp hlast
      have hcl : c = (0 + n - 1, rp, some err) := by
        rw [hys] at hc hdrop
        rcases List.mem_append.mp hc with hc | hc
        · have := hdrop c (by simpa using hc)
          rw [this] at hce
          cases hce
        · simpa using hc
      refine ⟨by rw [hcl]; simp; omega, ?_, ?_, ?_⟩
      · rw [round_dispatch_err C round t err replies hs hx hde]
      · rw [round_dispatch_err C round t err replies hs hx hde]
        exact reset_not_mem_front _ _ _ _ _ _
      · rw [round_dispatch_err C round t err replies hs hx hde]
        exact hpre
  · intro round t replies hs hx hrep hslots
    have key : ∀ (replies : List Reply) (i : Nat) (t : transaction),
        i + replies.length ≤ t.handlers.length →
        exec.dispatch C i replies t = flushSpec C i ((t.handlers.drop i).zip replies) t := by
      intro replies
      induction replies with
      | nil => intro i t _; simp [exec.dispatch, flushSpec]
      | cons reply replies ih =>
        intro i t hlen
        have hi : i < t.handlers.length := by simp at hlen; omega
        have hdrop : t.handlers.drop i = t.handlers[i] :: t.handlers.drop (i + 1) :=
          List.drop_eq_getElem_cons hi
        have hget : t.handlers[i]? = some t.handlers[i] := List.getElem?_eq_getElem hi
        rw [hdrop, List.zip_cons_cons]
        cases hslot : t.handlers[i] with
        | none =>
          rw [hslot] at hget
          simp only [exec.dispatch, hget, flushSpec]
          exact ih (i + 1) t (by simp at hlen; omega)
        | some h =>
          rw [hslot] at hget
          obtain ⟨y, hy⟩ := (runHandler_handlers C h reply t).1
          have hz : ((runHandler C h reply t).1.handlers.drop (i + 1)).zip replies =
              (t.handlers.drop (i + 1)).zip replies := by
            rw [hy, List.drop_append_of_le_length (by omega)]
            exact zip_append_of_le _ _ _ (by simp at hlen ⊢; omega)
          have h2 := ih (i + 1) (runHandler C h reply t).1
            (by rw [hy]; simp at hlen ⊢; omega)
          rw [hz] at h2
          cases he : (runHandler C h reply t).2.2 with
          | some err => simp only [exec.dispatch, hget, flushSpec, he]
          | none => simp only [exec.dispatch, hget, flushSpec, he, h2]
    have hd := key replies 0 t (by omega)
    rw [List.drop_zero] at hd
    rw [← hd]
    constructor
    · intro err he
      have hr := round_dispatch_err C round t err replies hs hx he
      refine ⟨hr, ?_, ?_⟩
      · rw [hr, hd]; exact (flushSpec_keeps C _ 0 t).1
      · rw [hr, hd]; exact (flushSpec_keeps C _ 0 t).2
    · intro he
      cases hwe : (transaction.executeWaitersIfReady C
          { (exec.dispatch C 0 replies t).1 with commands := [], handlers := [] }).2.2 with
      | some err =>
        rw [round_waiters_err C round t err replies hs hx he hwe]
        exact ⟨rfl, rfl, by simp⟩
      | none =>
        rw [round_next C round t replies hs hx he hwe]
        exact ⟨rfl, rfl, by simp⟩
  · intro fuel t r hr c hc err hce
    obtain ⟨b, hb, rfl⟩ := exec_cases C fuel t r hr
    simp only [handlerCalls_append, handlerCalls_discard, List.append_nil] at hc
    rcases body_cases C fuel t b hb with ⟨err', _, rfl⟩ | ⟨hnil, r2, hl, rfl⟩
    · simp [executeWaitersIfReady_handlerCalls] at hc
    · simp only [handlerCalls_append, executeWaitersIfReady_handlerCalls, List.nil_append] at hc
      have := execLoop_failed_call C fuel 0 _ r2 hl c hc err hce
      simp [this]

/-! ### Every queued command has its handler slot -/

theorem newTransaction_slots (conn : Conn) :
    (newTransaction conn).handlers.length = (newTransaction conn).commands.length := rfl

theorem act_slots (t : transaction) (a : Act)
    (h : t.handlers.length = t.commands.length) :
    (t.act a).handlers.length = (t.act a).commands.length := by
  cases a <;> simp [transaction.act, transaction.sendData, transaction.doWhenDataReady,
    transaction.command, h]

theorem acts_slots (as : List Act) (t : transaction)
    (h : t.handlers.length = t.commands.length) :
    (t.acts as).handlers.length = (t.acts as).commands.length := by
  induction as generalizing t with
  | nil => exact h
  | cons a as ih => exact ih (t.act a) (act_slots t a h)

/-! ### Relationships to records without id -/

theorem saveModelOneToOneRelationship_noId (t : transaction) (mr : modelRef) (r : relationship)
    (hnil : (mr.value r.fieldName).IsNil = false)
    (hid : (mr.value r.fieldName).asModel = some "") :
    t.saveModelOneToOneRelationship mr r = (t, some Err.noId) := by
  simp [transaction.saveModelOneToOneRelationship, hnil, hid]

theorem saveModelOneToManyRelationship.ids_noId (typeName : String) (elems : List Scalar)
    (ids : List String) (h : Scalar.model "" ∈ elems) :
    ∃ err, saveModelOneToManyRelationship.ids typeName elems ids = .error err := by
  induction elems generalizing ids with
  | nil => simp at h
  | cons e es ih =>
    unfold saveModelOneToManyRelationship.ids
    cases he : e.asModel with
    | none => exact ⟨_, rfl⟩
    | some id =>
      by_cases hid : id = ""
      · simp [hid]
      · simp only [hid, if_false]
        rcases List.mem_cons.mp h with h | h
        · subst h
          simp [Scalar.asModel] at he
          exact absurd he.symm hid
        · exact ih _ h

theorem saveModelOneToManyRelationship_noId (t : transaction) (mr : modelRef) (r : relationship)
    (typeName : String) (elems : List Scalar)
    (hv : mr.value r.fieldName = .slice typeName elems) (h : Scalar.model "" ∈ elems) :
    ∃ err, t.saveModelOneToManyRelationship mr r = (t, some err) := by
  obtain ⟨err, he⟩ := saveModelOneToManyRelationship.ids_noId typeName elems [] h
  refine ⟨err, ?_⟩
  simp [transaction.saveModelOneToManyRelationship, hv, Value.IsNil, Value.elems, Value.typeName,
    he]

/-! ### A waiter pending at the start of `exec` whose key is never published -/

theorem act_quiet (k : String) (t : transaction) (a : Act) (ha : a.publishes k = false)
    (h : Quiet k t) : Quiet k (t.act a) := by
  cases a with
  | sendData key data =>
    have hk : key ≠ k := by simpa [Act.publishes] using ha
    refine ⟨?_, h.2⟩
    simp [transaction.act, transaction.sendData, Ne.symm hk, h.1]
  | doWhenDataReady dataKeys do_ => exact h
  | command cmd args handler =>
    refine ⟨h.1, ?_⟩
    intro s hs
    simp only [transaction.act, transaction.command, List.mem_append, List.mem_singleton] at hs
    rcases hs with hs | rfl
    · exact h.2 s hs
    · cases s with
      | none => rfl
      | some hd => cases hd <;> first | rfl | simpa [Act.publishes, slotPublishes] using ha

theorem acts_quiet (k : String) (as : List Act) (t : transaction)
    (ha : ∀ a ∈ as, a.publishes k = false) (h : Quiet k t) : Quiet k (t.acts as) := by
  induction as generalizing t with
  | nil => exact h
  | cons a as ih =>
    exact ih (t.act a) (fun b hb => ha b (List.mem_cons_of_mem _ hb))
      (act_quiet k t a (ha a (List.mem_cons_self _ _)) h)

theorem act_waiters (t : transaction) (a : Act) : ∃ x, (t.act a).waiters = t.waiters ++ x := by
  cases a with
  | sendData key data => exact ⟨[], by simp [transaction.act, transaction.sendData]⟩
  | doWhenDataReady dataKeys do_ =>
    exact ⟨[{ keys := dataKeys, do_ := do_, done := false, seq := t.registered }], rfl⟩
  | command cmd args handler => exact ⟨[], by simp [transaction.act, transaction.command]⟩

theorem acts_waiters (as : List Act) (t : transaction) :
    ∃ x, (t.acts as).waiters = t.waiters ++ x := by
  induction as generalizing t with
  | nil => exact ⟨[], by simp [transaction.acts]⟩
  | cons a as ih =>
    obtain ⟨x, hx⟩ := act_waiters t a
    obtain ⟨y, hy⟩ := ih (t.act a)
    refine ⟨x ++ y, ?_⟩
    have : t.acts (a :: as) = (t.act a).acts as := rfl
    rw [this, hy, hx, List.append_assoc]

theorem runHandler_quiet (C : Closures) (k : String) (hC : NeverPublishes C k) (h : Handler)
    (reply : Reply) (t : transaction) (hq : Quiet k t) (hh : slotPublishes k (some h) = false) :
    Quiet k (runHandler C h reply t).1 ∧
    ∃ x, (runHandler C h reply t).1.waiters = t.waiters ++ x := by
  cases h with
  | newSendDataHandler key =>
    have hk : key ≠ k := by simpa [slotPublishes] using hh
    refine ⟨⟨?_, hq.2⟩, [], by simp [runHandler, transaction.sendData]⟩
    simp [runHandler, transaction.sendData, Ne.symm hk, hq.1]
  | removeOldAlphaIndex mr fieldName => exact ⟨hq, [], by simp [runHandler]⟩
  | closure id => exact ⟨acts_quiet k _ t (hC.2 id reply t) hq, acts_waiters _ t⟩
  | newScanHandler mr scan => exact ⟨hq, [], by simp [runHandler]⟩
  | newScanModelHandler mr scanModel => exact ⟨hq, [], by simp [runHandler]⟩
  | newScanModelSliceHandler mr => exact ⟨hq, [], by simp [runHandler]⟩

theorem dispatch_quiet (C : Closures) (k : String) (hC : NeverPublishes C k)
    (replies : List Reply) (i : Nat) (t : transaction) (hq : Quiet k t) :
    Quiet k (exec.dispatch C i replies t).1 ∧
    ∃ x, (exec.dispatch C i replies t).1.waiters = t.waiters ++ x := by
  induction replies generalizing i t with
  | nil => rw [dispatch_nil]; exact ⟨hq, [], by simp⟩
  | cons reply replies ih =>
    cases hg : t.handlers[i]? with
    | none => rw [dispatch_cons_out C i reply replies t hg]; exact ⟨hq, [], by simp⟩
    | some o =>
      cases o with
      | none => rw [dispatch_cons_nil C i reply replies t hg]; exact ih (i + 1) t hq
      | some hd =>
        have hh : slotPublishes k (some hd) = false := hq.2 _ (List.getElem?_mem hg)
        obtain ⟨hq1, x, hx⟩ := runHandler_quiet C k hC hd reply t hq hh
        cases he : (runHandler C hd reply t).2.2 with
        | some err =>
          rw [dispatch_cons_err C i reply replies t hd hg err he]
          exact ⟨hq1, x, hx⟩
        | none =>
          rw [dispatch_cons_ok C i reply replies t hd hg he]
          obtain ⟨hq2, y, hy⟩ := ih (i + 1) _ hq1
          exact ⟨hq2, x ++ y, by simp only [hy, hx, List.append_assoc]⟩

theorem ready_false_of_quiet (k : String) (w : waiter) (t : transaction)
    (hk : k ∈ w.keys.takeWhile (fun key => key ≠ "")) (hq : t.dataReady k = false) :
    w.ready t = false := by
  cases hr : w.ready t with
  | false => rfl
  | true =>
    have := (waiter.ready.go_eq_true_iff t.dataReady w.keys).mp hr k hk
    rw [hq] at this
    cases this

theorem loop_quiet (C : Closures) (k : String) (hC : NeverPublishes C k) (w : waiter)
    (hk : k ∈ w.keys.takeWhile (fun key => key ≠ ""))
    (ws : List waiter) (t : transaction) (still : List waiter) (hq : Quiet k t) :
    Quiet k (executeWaitersIfReady.loop C ws t still).1 ∧
    (∃ x, (executeWaitersIfReady.loop C ws t still).1.waiters = t.waiters ++ x) ∧
    (w ∈ ws ++ still → (executeWaitersIfReady.loop C ws t still).2.2.2 = none →
      w ∈ (executeWaitersIfReady.loop C ws t still).2.1) := by
  induction ws generalizing t still with
  | nil => rw [loop_nil]; exact ⟨hq, ⟨[], by simp⟩, fun h _ => by simpa using h⟩
  | cons v ws ih =>
    cases hc : (v.ready t && !v.done) with
    | true =>
      have hq1 := acts_quiet k _ t (hC.1 v.do_ t) hq
      obtain ⟨x, hx⟩ := acts_waiters (C.waiter v.do_ t).acts t
      have hvw : v ≠ w := by
        intro hvw
        rw [hvw, ready_false_of_quiet k w t hk hq.1] at hc
        simp at hc
      cases he : (C.waiter v.do_ t).err with
      | some err =>
        rw [loop_cons_err C v ws t still hc err he]
        exact ⟨hq1, ⟨x, hx⟩, fun _ h => by simp at h⟩
      | none =>
        rw [loop_cons_ok C v ws t still hc he]
        obtain ⟨hq2, ⟨y, hy⟩, hkeep⟩ := ih (t.acts (C.waiter v.do_ t).acts) still hq1
        refine ⟨hq2, ⟨x ++ y, by simp only [hy, hx, List.append_assoc]⟩, ?_⟩
        intro hm hnone
        refine hkeep ?_ hnone
        rcases List.mem_append.mp hm with hm | hm
        · rcases List.mem_cons.mp hm with rfl | hm
          · exact absurd rfl hvw
          · exact List.mem_append_left _ hm
        · exact List.mem_append_right _ hm
    | false =>
      rw [loop_cons_skip C v ws t still hc]
      obtain ⟨hq2, hw2, hkeep⟩ := ih t (still ++ [v]) hq
      refine ⟨hq2, hw2, ?_⟩
      intro hm hnone
      refine hkeep ?_ hnone
      rcases List.mem_append.mp hm with hm | hm
      · rcases List.mem_cons.mp hm with rfl | hm
        · simp
        · exact List.mem_append_left _ hm
      · simp [hm]

theorem executeWaitersIfReady_quiet (C : Closures) (k : String) (hC : NeverPublishes C k)
    (w : waiter) (hk : k ∈ w.keys.takeWhile (fun key => key ≠ ""))
    (t : transaction) (hq : Quiet k t) (hw : w ∈ t.waiters) :
    Quiet k (t.executeWaitersIfReady C).1 ∧ w ∈ (t.executeWaitersIfReady C).1.waiters := by
  obtain ⟨hq1, ⟨x, hx⟩, hkeep⟩ := loop_quiet C k hC w hk t.waiters t [] hq
  cases he : (executeWaitersIfReady.loop C t.waiters t []).2.2.2 with
  | some err =>
    rw [executeWaitersIfReady_err C t err he]
    exact ⟨hq1, by simp only [hx]; exact List.mem_append_left _ hw⟩
  | none =>
    rw [executeWaitersIfReady_ok C t he]
    exact ⟨hq1, hkeep (by simpa using hw) he⟩

theorem round_quiet (C : Closures) (k : String) (hC : NeverPublishes C k)
    (w : waiter) (hk : k ∈ w.keys.takeWhile (fun key => key ≠ ""))
    (round : Nat) (t : transaction) (hq : Quiet k t) (hw : w ∈ t.waiters) :
    Quiet k (exec.round C round t).1 ∧ w ∈ (exec.round C round t).1.waiters := by
  cases hs : (exec.sendAll t.conn round 0 t.commands).2 with
  | some err => rw [round_send_err C round t err hs]; exact ⟨hq, hw⟩
  | none =>
    cases hx : t.conn.exec round t.commands with
    | error err => rw [round_exec_err C round t err hs hx]; exact ⟨hq, hw⟩
    | ok replies =>
      obtain ⟨hq1, x, hx1⟩ := dispatch_quiet C k hC replies 0 t hq
      have hw1 : w ∈ (exec.dispatch C 0 replies t).1.waiters := by
        rw [hx1]; exact List.mem_append_left _ hw
      cases hde : (exec.dispatch C 0 replies t).2.2 with
      | some err =>
        rw [round_dispatch_err C round t err replies hs hx hde]
        exact ⟨hq1, hw1⟩
      | none =>
        have hq2 : Quiet k { (exec.dispatch C 0 replies t).1 with
            commands := [], handlers := [] } := ⟨hq1.1, by simp⟩
        have hfin := executeWaitersIfReady_quiet C k hC w hk _ hq2 hw1
        cases hwe : (transaction.executeWaitersIfReady C
            { (exec.dispatch C 0 replies t).1 with commands := [], handlers := [] }).2.2 with
        | some err =>
          rw [round_waiters_err C round t err replies hs hx hde hwe]
          exact hfin
        | none =>
          rw [round_next C round t replies hs hx hde hwe]
          exact hfin

theorem execLoop_quiet (C : Closures) (k : String) (hC : NeverPublishes C k)
    (w : waiter) (hk : k ∈ w.keys.takeWhile (fun key => key ≠ ""))
    (fuel : Nat) (round : Nat) (t : transaction) (hq : Quiet k t) (hw : w ∈ t.waiters)
    (r : transaction × List Event × Option Err) (hr : exec.loop C fuel round t = some r) :
    Quiet k r.1 ∧ w ∈ r.1.waiters := by
  induction fuel generalizing round t r with
  | zero =>
    rw [loop_zero] at hr
    split at hr
    · simp at hr
    · simp at hr; subst hr; exact ⟨hq, hw⟩
  | succ fuel ih =>
    rw [loop_succ] at hr
    split at hr
    · have hro := round_quiet C k hC w hk round t hq hw
      cases hf : (exec.round C round t).2.2 with
      | returned err =>
        simp only [hf] at hr
        simp at hr; subst hr; exact hro
      | next =>
        simp only [hf] at hr
        cases hl : exec.loop C fuel (round + 1) (exec.round C round t).1 with
        | none => simp [hl] at hr
        | some r2 =>
          simp [hl] at hr
          subst hr
          exact ih (round + 1) _ hro.1 hro.2 r2 hl
    · simp at hr; subst hr; exact ⟨hq, hw⟩

theorem mem_pendingData (k : String) (w : waiter) (t : transaction) (hw : w ∈ t.waiters)
    (hk : k ∈ w.keys) (hq : t.dataReady k = false) : k ∈ exec.pendingData t := by
  unfold exec.pendingData
  rw [List.mem_flatten]
  exact ⟨_, List.mem_map_of_mem _ hw, by simp [List.mem_filter, hk, hq]⟩

/-- A waiter that is pending when `exec` starts, with a key `k` in front of any empty key,
    where `k` is not published, no queued handler publishes it and no closure ever publishes
    it.  When `exec` returns, it does not return nil; the waiter is still
    pending, `k` is among the pending data, and the final check of `exec` yields the
    pending-data error with the number of waiters left. -/
theorem exec_error_of_pending_waiter (C : Closures) (k : String) (hC : NeverPublishes C k)
    (w : waiter) (hk : k ∈ w.keys.takeWhile (fun key => key ≠ ""))
    (fuel : Nat) (t : transaction) (hq : Quiet k t) (hw : w ∈ t.waiters)
    (r : transaction × List Event × Option Err) (hr : t.exec C fuel = some r) :
    r.2.2 ≠ none ∧ w ∈ r.1.waiters ∧ k ∈ exec.pendingData r.1 ∧
    exec.finish r.1 = some (Err.pendingData r.1.waiters.length (exec.pendingData r.1)) := by
  have hkeys : k ∈ w.keys := (List.takeWhile_sublist _).subset hk
  have key : ∀ s : transaction, Quiet k s → w ∈ s.waiters →
      w ∈ s.waiters ∧ k ∈ exec.pendingData s ∧
      exec.finish s = some (Err.pendingData s.waiters.length (exec.pendingData s)) := by
    intro s hs hws
    refine ⟨hws, mem_pendingData k w s hws hkeys hs.1, ?_⟩
    have : 0 < s.waiters.length := List.length_pos_of_mem hws
    simp [exec.finish, this]
  obtain ⟨b, hb, rfl⟩ := exec_cases C fuel t r hr
  have h0 := executeWaitersIfReady_quiet C k hC w hk t hq hw
  rcases body_cases C fuel t b hb with ⟨err, _, rfl⟩ | ⟨hnil, r2, hl, rfl⟩
  · exact ⟨by simp, key _ h0.1 h0.2⟩
  · have h1 := execLoop_quiet C k hC w hk fuel 0 _ h0.1 h0.2 r2 hl
    have h2 := key _ h1.1 h1.2
    refine ⟨?_, h2⟩
    cases h3 : r2.2.2 with
    | some err => simp
    | none => simp only [h2.2.2]; simp

/-! ### Closing the connection -/

theorem act_conn (t : transaction) (a : Act) : (t.act a).conn = t.conn := by
  cases a <;> rfl

theorem acts_conn (as : List Act) (t : transaction) : (t.acts as).conn = t.conn := by
  induction as generalizing t with
  | nil => rfl
  | cons a as ih => exact (ih (t.act a)).trans (act_conn t a)

theorem runHandler_conn (C : Closures) (h : Handler) (reply : Reply) (t : transaction) :
    (runHandler C h reply t).1.conn = t.conn := by
  cases h with
  | newSendDataHandler key => rfl
  | removeOldAlphaIndex mr fieldName => rfl
  | closure id => exact acts_conn _ t
  | newScanHandler mr scan => rfl
  | newScanModelHandler mr scanModel => rfl
  | newScanModelSliceHandler mr => rfl

theorem dispatch_conn (C : Closures) (replies : List Reply) (i : Nat) (t : transaction) :
    (exec.dispatch C i replies t).1.conn = t.conn := by
  induction replies generalizing i t with
  | nil => rw [dispatch_nil]
  | cons reply replies ih =>
    cases hg : t.handlers[i]? with
    | none => rw [dispatch_cons_out C i reply replies t hg]
    | some o =>
      cases o with
      | none => rw [dispatch_cons_nil C i reply replies t hg]; exact ih (i + 1) t
      | some hd =>
        cases he : (runHandler C hd reply t).2.2 with
        | some err =>
          rw [dispatch_cons_err C i reply replies t hd hg err he]
          exact runHandler_conn C hd reply t
        | none =>
          rw [dispatch_cons_ok C i reply replies t hd hg he]
          exact (ih (i + 1) _).trans (runHandler_conn C hd reply t)

theorem loop_conn (C : Closures) (ws : List waiter) (t : transaction) (still : List waiter) :
    (executeWaitersIfReady.loop C ws t still).1.conn = t.conn := by
  induction ws generalizing t still with
  | nil => rfl
  | cons w ws ih =>
    cases hc : (w.ready t && !w.done) with
    | true =>
      cases he : (C.waiter w.do_ t).err with
      | some err => rw [loop_cons_err C w ws t still hc err he]; exact acts_conn _ t
      | none =>
        rw [loop_cons_ok C w ws t still hc he]
        exact (ih _ still).trans (acts_conn _ t)
    | false => rw [loop_cons_skip C w ws t still hc]; exact ih t _

theorem executeWaitersIfReady_conn (C : Closures) (t : transaction) :
    (t.executeWaitersIfReady C).1.conn = t.conn := by
  cases he : (executeWaitersIfReady.loop C t.waiters t []).2.2.2 with
  | some err => rw [executeWaitersIfReady_err C t err he]; exact loop_conn C _ t []
  | none => rw [executeWaitersIfReady_ok C t he]; exact loop_conn C _ t []

theorem close_not_mem_sendAll (conn : Conn) (round : Nat) (cs : List command) (i : Nat) :
    Event.close ∉ (exec.sendAll conn round i cs).1 := by
  intro hm
  obtain ⟨_, _, h⟩ := sendAll_events conn round cs i _ hm
  cases h

theorem close_not_mem_dispatch (C : Closures) (replies : List Reply) (i : Nat)
    (t : transaction) : Event.close ∉ (exec.dispatch C i replies t).2.1 := by
  intro hm
  rcases dispatch_events C replies i t _ hm with ⟨_, h⟩ | ⟨_, _, _, h⟩ <;> cases h

theorem close_not_mem_waiters (C : Closures) (t : transaction) :
    Event.close ∉ (t.executeWaitersIfReady C).2.1 := by
  intro hm
  obtain ⟨_, _, h⟩ := executeWaitersIfReady_events C t _ hm
  cases h

theorem round_no_close (C : Closures) (round : Nat) (t : transaction)
    (hconn : ∀ round cs, ∃ replies, t.conn.exec round cs = .ok replies) :
    Event.close ∉ (exec.round C round t).2.1 ∧ (exec.round C round t).1.conn = t.conn := by
  have hsa := close_not_mem_sendAll t.conn round t.commands 0
  cases hs : (exec.sendAll t.conn round 0 t.commands).2 with
  | some err =>
    rw [round_send_err C round t err hs]
    exact ⟨by simp [hsa], rfl⟩
  | none =>
    obtain ⟨replies, hx⟩ := hconn round t.commands
    have hd := close_not_mem_dispatch C replies 0 t
    have hdc := dispatch_conn C replies 0 t
    cases hde : (exec.dispatch C 0 replies t).2.2 with
    | some err =>
      rw [round_dispatch_err C round t err replies hs hx hde]
      exact ⟨by simp [hsa, hd], hdc⟩
    | none =>
      have hw := close_not_mem_waiters C
        { (exec.dispatch C 0 replies t).1 with commands := [], handlers := [] }
      have hwc := executeWaitersIfReady_conn C
        { (exec.dispatch C 0 replies t).1 with commands := [], handlers := [] }
      cases hwe : (transaction.executeWaitersIfReady C
          { (exec.dispatch C 0 replies t).1 with commands := [], handlers := [] }).2.2 with
      | some err =>
        rw [round_waiters_err C round t err replies hs hx hde hwe]
        exact ⟨by simp [hsa, hd, hw], hwc.trans hdc⟩
      | none =>
        rw [round_next C round t replies hs hx hde hwe]
        exact ⟨by simp [hsa, hd, hw], hwc.trans hdc⟩

theorem execLoop_no_close (C : Closures) (fuel : Nat) (round : Nat) (t : transaction)
    (hconn : ∀ round cs, ∃ replies, t.conn.exec round cs = .ok replies)
    (r : transaction × List Event × Option Err) (hr : exec.loop C fuel round t = some r) :
    Event.close ∉ r.2.1 := by
  induction fuel generalizing round t r with
  | zero =>
    rw [loop_zero] at hr
    split at hr
    · simp at hr
    · simp at hr; subst hr; simp
  | succ fuel ih =>
    rw [loop_succ] at hr
    split at hr
    · have hro := round_no_close C round t hconn
      cases hf : (exec.round C round t).2.2 with
      | returned err =>
        simp only [hf] at hr
        simp at hr; subst hr; exact hro.1
      | next =>
        simp only [hf] at hr
        cases hl : exec.loop C fuel (round + 1) (exec.round C round t).1 with
        | none => simp [hl] at hr
        | some r2 =>
          simp [hl] at hr
          subst hr
          have := ih (round + 1) (exec.round C round t).1 (by rw [hro.2]; exact hconn) r2 hl
          simp [hro.1, this]
    · simp at hr; subst hr; simp

/-- When the EXEC round trip never fails, `exec` closes the connection exactly once, however
    it returns: with nil, with the error of a `Send`, of a handler, of
    a waiter callback, or with the pending-data error. -/
theorem exec_closes_once (C : Closures) (fuel : Nat) (t : transaction)
    (hconn : ∀ round cs, ∃ replies, t.conn.exec round cs = .ok replies)
    (r : transaction × List Event × Option Err) (hr : t.exec C fuel = some r) :
    r.2.1.count Event.close = 1 := by
  obtain ⟨b, hb, rfl⟩ := exec_cases C fuel t r hr
  have hw := close_not_mem_waiters C t
  have hbody : Event.close ∉ b.2.1 := by
    rcases body_cases C fuel t b hb with ⟨err, _, rfl⟩ | ⟨hnil, r2, hl, rfl⟩
    · exact hw
    · have := execLoop_no_close C fuel 0 _
        (by rw [executeWaitersIfReady_conn]; exact hconn) r2 hl
      simp [hw, this]
  simp only [List.count_append, List.count_eq_zero_of_not_mem hbody]
  decide

/-! ### `exec` on particular transactions -/

/-- C3, on the code: a callback that runs in a pass of `executeWaitersIfReady` registers a
    waiter for the key "k", which nothing publishes; every callback succeeds and no command
    is queued.  `exec` returns nil, with whatever fuel: the pass assigns `stillWaiting` to
    `t.waiters` and so forgets the second of the two waiters registered, which is not called. -/
theorem exec_nil_with_unpublished_key (fuel : Nat) :
    (oneReadyWaiter.exec registersStuckWaiter fuel).map
        (fun r => (r.2.1, r.2.2, r.1.waiters.length, r.1.registered, r.1.dataReady "k")) =
      some ([Event.waiter 0 none, Event.doCmd "DISCARD", Event.close], none, 0, 2, false) := by
  cases fuel <;> rfl

/-- C4, on the code: callback 0 registers a waiter without keys, with callback 1, while the
    pending waiters are resolved.  `exec` returns nil and has called callback 0 only: the
    waiter registered by the callback is gone from `t.waiters` and was never called. -/
theorem exec_nil_with_waiter_never_called (fuel : Nat) :
    (oneReadyWaiter.exec registersReadyWaiter fuel).map
        (fun r => (r.2.1, r.2.2, r.1.waiters.length, r.1.registered)) =
      some ([Event.waiter 0 none, Event.doCmd "DISCARD", Event.close], none, 0, 2) := by
  cases fuel <;> rfl

/-- C5, on the code: the waiter registered first waits for "k", the waiter registered second
    is ready and publishes "k".  The one pass visits the first waiter before "k" is published,
    and no command is queued, so `exec` returns the pending-data error for one waiter, with an
    empty list of pending keys: "k" is marked ready by then. -/
theorem exec_pending_error_with_all_keys_published (fuel : Nat) :
    (earlierDependsOnLater.exec laterPublishes fuel).map
        (fun r => (r.2.1, r.2.2, r.1.waiters.map (fun w => w.keys), r.1.dataReady "k")) =
      some ([Event.waiter 1 none, Event.doCmd "DISCARD", Event.close],
        some (Err.pendingData 1 []), [["k"]], true) := by
  cases fuel <;> rfl

/-- C6, on the code: when the EXEC round trip fails, `exec` calls `discard` itself and the
    deferred `discard` runs as well: DISCARD and Close are called twice. -/
theorem exec_closes_twice_when_EXEC_fails :
    (onePingExecFails.exec registersReadyWaiter 1).map (fun r => (r.2.1, r.2.2)) =
      some ([Event.send "MULTI" [], Event.send "PING" [], Event.doCmd "EXEC",
          Event.doCmd "DISCARD", Event.close, Event.doCmd "DISCARD", Event.close],
        some (Err.other "EXEC failed")) ∧
    (onePingExecFails.exec registersReadyWaiter 1).map (fun r => r.2.1.count Event.close) =
      some 2 := by
  decide

/-! ### The theorems at particular inputs -/

/-- C8 at an input: the first pass calls the waiter registered second, whose callback queues
    a GET; the handler of the GET publishes "k"; the pass after the round calls the waiter
    registered first.  Each is called once. -/
theorem exec_calls_waiter_at_most_once_witness :
    ∃ r, twoPasses.exec demoClosures 1 = some r ∧ r.2.2 = none ∧
      waiterSeqs r.2.1 = [1, 0] ∧ (waiterSeqs r.2.1).Nodup :=
  ⟨_, rfl, rfl, rfl,
    exec_calls_waiter_at_most_once demoClosures 1 twoPasses _ (by decide) (by decide) rfl⟩

/-- C9 at two inputs.  With the waiter for "k" in front of a ready waiter that publishes "k",
    the pass calls the second waiter only and leaves the first pending.  With a waiter for
    "k", a ready waiter whose callback fails and a ready waiter behind it, the pass returns
    the error of the callback and does not call the third waiter. -/
theorem executeWaitersIfReady_spec_witness :
    ((earlierDependsOnLater.executeWaitersIfReady laterPublishes).2.1 = [Event.waiter 1 none] ∧
      (earlierDependsOnLater.executeWaitersIfReady laterPublishes).1.waiters =
        [{ keys := ["k"], do_ := 0, done := false, seq := 0 }]) ∧
    ((secondFails.executeWaitersIfReady demoClosures).2.2 =
        some (Err.other "callback 2 failed") ∧
      (secondFails.executeWaitersIfReady demoClosures).2.1 =
        [Event.waiter 1 (some (Err.other "callback 2 failed"))] ∧
      2 ∉ waiterSeqs (secondFails.executeWaitersIfReady demoClosures).2.1) := by
  have h1 := (executeWaitersIfReady_spec laterPublishes earlierDependsOnLater
    (by decide) (by decide)).1 (by decide)
  have h2 := (executeWaitersIfReady_spec demoClosures secondFails (by decide) (by decide)).2
    [{ keys := ["k"], do_ := 1, done := false, seq := 0 }]
    { keys := [], do_ := 2, done := false, seq := 1 }
    [{ keys := [], do_ := 1, done := false, seq := 2 }]
    (Err.other "callback 2 failed") rfl rfl rfl rfl
  refine ⟨⟨?_, ?_⟩, h2.1, ?_, ?_⟩
  · rw [h1.2.1]; decide
  · rw [h1.2.2]; decide
  · rw [h2.2.1]; decide
  · exact h2.2.2 { keys := [], do_ := 1, done := false, seq := 2 } (by simp)

/-- C7 at inputs.  On four commands whose third handler fails, with nil replies: the first
    and the third handler are called, the fourth is not, the round returns the error and
    leaves the four commands queued; `exec` returns the error.  On three commands answered
    by the integers 0, 1, 2, the first and the third with a handler that publishes its
    reply: "a" holds the reply 0 and "c" the reply 2 afterwards, and the commands and the
    handlers are emptied. -/
theorem exec_round_dispatch_witness :
    handlerCalls (exec.round demoClosures 0 fourCommands).2.1 =
      [(0, Reply.nil, none), (2, Reply.nil, some (Err.other "handler 8 failed"))] ∧
    (exec.round demoClosures 0 fourCommands).2.2 =
      Flow.returned (Err.other "handler 8 failed") ∧
    Event.reset ∉ (exec.round demoClosures 0 fourCommands).2.1 ∧
    (exec.round demoClosures 0 fourCommands).1.commands = fourCommands.commands ∧
    (exec.round demoClosures 0 fourCommands).1 =
      (flushSpec demoClosures 0
        (fourCommands.handlers.zip [Reply.nil, Reply.nil, Reply.nil, Reply.nil])
        fourCommands).1 ∧
    (exec.round demoClosures 0 threeReads).1 =
      (transaction.executeWaitersIfReady demoClosures
        { (flushSpec demoClosures 0
            (threeReads.handlers.zip [Reply.int 0, Reply.int 1, Reply.int 2]) threeReads).1 with
          commands := [], handlers := [] }).1 ∧
    (exec.round demoClosures 0 threeReads).1.data "a" = some (Reply.int 0) ∧
    (exec.round demoClosures 0 threeReads).1.data "c" = some (Reply.int 2) ∧
    (exec.round demoClosures 0 threeReads).1.commands = [] ∧
    (exec.round demoClosures 0 threeReads).1.handlers = [] ∧
    handlerCalls (exec.round demoClosures 0 threeReads).2.1 =
      [(0, Reply.int 0, none), (2, Reply.int 2, none)] ∧
    (exec.round demoClosures 0 threeReads).2.2 = Flow.next ∧
    ∃ r, fourCommands.exec demoClosures 1 = some r ∧
      r.2.2 = some (Err.other "handler 8 failed") := by
  obtain ⟨n, _, _, _, _, _, hfail⟩ := (exec_round_dispatch demoClosures).1 0 fourCommands
    [Reply.nil, Reply.nil, Reply.nil, Reply.nil] rfl rfl rfl rfl
  have h := hfail (2, Reply.nil, some (Err.other "handler 8 failed")) (by decide)
    (Err.other "handler 8 failed") rfl
  have hf := ((exec_round_dispatch demoClosures).2.1 0 fourCommands
    [Reply.nil, Reply.nil, Reply.nil, Reply.nil] rfl rfl rfl rfl).1
    (Err.other "handler 8 failed") rfl
  have hr := ((exec_round_dispatch demoClosures).2.1 0 threeReads
    [Reply.int 0, Reply.int 1, Reply.int 2] rfl rfl rfl rfl).2 rfl
  refine ⟨by decide, h.2.1, h.2.2.1, rfl, ?_, hr.1, rfl, rfl, rfl, rfl, by decide,
    hr.2.2.2 rfl, _, rfl, ?_⟩
  · rw [hf.1]
  · exact (exec_round_dispatch demoClosures).2.2 1 fourCommands _ rfl
      (2, Reply.nil, some (Err.other "handler 8 failed")) (by decide) _ rfl


theorem laterPublishes_neverPublishes : NeverPublishes laterPublishes "j" := by
  constructor
  · intro id t a ha
    simp only [laterPublishes] at ha
    split at ha
    · simp at ha
      subst ha
      decide
    · simp at ha
  · intro id reply t a ha
    simp [laterPublishes] at ha

/-- The theorem `exec_error_of_pending_waiter` at an input: a waiter for "j", which nothing
    publishes, pending in front of a ready waiter that publishes "k". -/
theorem exec_error_of_pending_waiter_example :
    ∃ r, (((newTransaction okConn).doWhenDataReady ["j"] 0).doWhenDataReady [] 1).exec
        laterPublishes 0 = some r ∧
      r.2.2 = some (Err.pendingData 1 ["j"]) ∧ "j" ∈ exec.pendingData r.1 :=
  ⟨_, rfl, rfl,
    (exec_error_of_pending_waiter laterPublishes "j" laterPublishes_neverPublishes
      { keys := ["j"], do_ := 0, done := false, seq := 0 } (by decide) 0
      (((newTransaction okConn).doWhenDataReady ["j"] 0).doWhenDataReady [] 1)
      ⟨rfl, by decide⟩ (by decide) _ rfl).2.2.1⟩

/-- The theorem `exec_closes_once` at an input: a handler fails in the first round, and the
    connection is closed once. -/
theorem exec_closes_once_example :
    ∃ r, fourCommands.exec demoClosures 1 = some r ∧
      r.2.2 = some (Err.other "handler 8 failed") ∧ r.2.1.count Event.close = 1 :=
  ⟨_, rfl, rfl, exec_closes_once demoClosures 1 fourCommands
    (fun _ cs => ⟨cs.map fun _ => Reply.nil, rfl⟩) _ rfl⟩

/-! ### Saving a to-many relationship -/

theorem saveModelOneToManyRelationship.ids_models (typeName : String) (ids acc : List String)
    (h : ∀ id ∈ ids, id ≠ "") :
    saveModelOneToManyRelationship.ids typeName (ids.map Scalar.model) acc = .ok (acc ++ ids) := by
  induction ids generalizing acc with
  | nil => simp [saveModelOneToManyRelationship.ids]
  | cons id ids ih =>
    have hid : id ≠ "" := h id (List.mem_cons_self _ _)
    simp only [List.map_cons, saveModelOneToManyRelationship.ids, Scalar.asModel, hid, if_false]
    rw [ih (acc ++ [id]) (fun x hx => h x (List.mem_cons_of_mem _ hx))]
    simp

/-- C11: when the field of a to-many relationship is a non-empty collection of records with
    the ids `ids`, all non-empty, `saveModelOneToManyRelationship` returns nil and appends one
    command, with a nil handler: SADD with the arguments record key ++ ":" ++ store-facing
    name and then the ids in the order of the collection, and changes nothing else; when the
    field is nil or an empty collection it returns nil and leaves the transaction as it is. -/
theorem saveModelOneToManyRelationship_spec (t : transaction) (mr : modelRef)
    (r : relationship) :
    (∀ (typeName : String) (ids : List String),
        mr.value r.fieldName = .slice typeName (ids.map Scalar.model) →
        ids ≠ [] → (∀ id ∈ ids, id ≠ "") →
        (t.saveModelOneToManyRelationship mr r).2 = none ∧
        (t.saveModelOneToManyRelationship mr r).1.commands =
          t.commands ++
            [⟨"SADD", .str (mr.key ++ ":" ++ r.redisName) :: ids.map Arg.str⟩] ∧
        (t.saveModelOneToManyRelationship mr r).1.handlers = t.handlers ++ [none] ∧
        (t.saveModelOneToManyRelationship mr r).1.waiters = t.waiters ∧
        (t.saveModelOneToManyRelationship mr r).1.dataReady = t.dataReady) ∧
    ((mr.value r.fieldName).IsNil = true →
        t.saveModelOneToManyRelationship mr r = (t, none)) ∧
    (∀ typeName : String, mr.value r.fieldName = .slice typeName [] →
        t.saveModelOneToManyRelationship mr r = (t, none)) := by
  refine ⟨?_, ?_, ?_⟩
  · intro typeName ids hv hne hids
    have hlen : 0 < ids.length := List.length_pos.mpr hne
    simp [transaction.saveModelOneToManyRelationship, hv, Value.IsNil, Value.elems,
      Value.typeName, saveModelOneToManyRelationship.ids_models _ ids [] hids, hlen,
      transaction.command]
  · intro hnil
    simp [transaction.saveModelOneToManyRelationship, hnil]
  · intro typeName hv
    simp [transaction.saveModelOneToManyRelationship, hv, Value.IsNil, Value.elems,
      saveModelOneToManyRelationship.ids]

/-- C11 at inputs: the owner "o1" with the pets "p1", "p2", "p3" gets the command
    SADD petOwner:o1:Pets p1 p2 p3; the owner with an empty collection of pets gets none. -/
theorem saveModelOneToManyRelationship_spec_witness :
    ((newTransaction okConn).saveModelOneToManyRelationship
        { modelSpec := petOwnerSpec, model := petOwner ["p1", "p2", "p3"], possibleKeyHits := 2 }
        ⟨"Pets", "Pets", .oneToMany⟩).1.commands =
      [⟨"SADD", [.str "petOwner:o1:Pets", .str "p1", .str "p2", .str "p3"]⟩] ∧
    ((newTransaction okConn).saveModelOneToManyRelationship
        { modelSpec := petOwnerSpec, model := petOwner [], possibleKeyHits := 2 }
        ⟨"Pets", "Pets", .oneToMany⟩).1.commands = [] ∧
    ((newTransaction okConn).saveModelOneToManyRelationship
        { modelSpec := petOwnerSpec, model := artistNoColor, possibleKeyHits := 2 }
        ⟨"Pets", "Pets", .oneToMany⟩).1.commands = [] := by
  have h1 := (saveModelOneToManyRelationship_spec (newTransaction okConn)
    { modelSpec := petOwnerSpec, model := petOwner ["p1", "p2", "p3"], possibleKeyHits := 2 }
    ⟨"Pets", "Pets", .oneToMany⟩).1 "[]*Pet" ["p1", "p2", "p3"] rfl (by decide) (by decide)
  have h2 := (saveModelOneToManyRelationship_spec (newTransaction okConn)
    { modelSpec := petOwnerSpec, model := petOwner [], possibleKeyHits := 2 }
    ⟨"Pets", "Pets", .oneToMany⟩).2.2 "[]*Pet" rfl
  have h3 := (saveModelOneToManyRelationship_spec (newTransaction okConn)
    { modelSpec := petOwnerSpec, model := artistNoColor, possibleKeyHits := 2 }
    ⟨"Pets", "Pets", .oneToMany⟩).2.1 rfl
  refine ⟨?_, ?_, ?_⟩
  · rw [h1.2.1]; decide
  · rw [h2]; decide
  · rw [h3]; decide

/-! ### The lexical index of a field -/

/-- C17, on the code: the field `Name` has the store-facing name `name`.  Saving queues the
    HGET of the stored value and the ZADD of the new member into `person:name`; the handler of
    the HGET, given the stored value "Alice", removes the old member from `person:Name`, which
    is another key.  For the pointer field `Nick`, whose stored value "Bobby" is the current
    value, the handler compares it with the `String()` of the pointer and removes the member
    "Bobby p1" that the ZADD inserts. -/
theorem removeOldAlphaIndex_uses_field_name :
    ((newTransaction okConn).saveModelPrimativeIndexAlpha
        { modelSpec := personSpec, model := bob, possibleKeyHits := 1 }
        ⟨"Name", "name", .indexAlpha⟩).commands =
      [⟨"HGET", [.str "person:p1", .str "name"]⟩,
       ⟨"ZADD", [.str "person:name", .int 0, .str "Bob p1"]⟩] ∧
    removeOldAlphaIndexHandler okConn
        { modelSpec := personSpec, model := bob, possibleKeyHits := 1 } "Name" (.str "Alice") =
      ([Event.side ⟨"ZREM", [.str "person:Name", .str "Alice p1"]⟩], none) ∧
    ((newTransaction okConn).saveModelPointerIndexAlpha
        { modelSpec := personSpec, model := bob, possibleKeyHits := 1 }
        ⟨"Nick", "Nick", .indexAlpha⟩).commands =
      [⟨"HGET", [.str "person:p1", .str "Nick"]⟩,
       ⟨"ZADD", [.str "person:Nick", .int 0, .str "Bobby p1"]⟩] ∧
    removeOldAlphaIndexHandler okConn
        { modelSpec := personSpec, model := bob, possibleKeyHits := 1 } "Nick" (.str "Bobby") =
      ([Event.side ⟨"ZREM", [.str "person:Nick", .str "Bobby p1"]⟩], none) := by
  decide

/-- The key from which the handler of `removeOldAlphaIndex` removes is the model name and the
    field name, whatever the store-facing name; it removes when the stored value is a
    non-empty string other than the `String()` of the field. -/
theorem removeOldAlphaIndexHandler_str (conn : Conn) (mr : modelRef) (fieldName old : String)
    (h1 : old ≠ "") (h2 : old ≠ (mr.value fieldName).StringValue) :
    (removeOldAlphaIndexHandler conn mr fieldName (.str old)).1 =
      [Event.side ⟨"ZREM", [.str (mr.modelSpec.modelName ++ ":" ++ fieldName),
        .str (old ++ " " ++ mr.model.GetId)]⟩] := by
  simp [removeOldAlphaIndexHandler, redisString, h1, h2]

/-! ### `deleteModelById` -/

/-- C16: for a registered type with an indexed field, `deleteModelById` returns nil and leaves
    the transaction as it is when `FindById` fails with the key-not-found error, and returns
    the error of `FindById`, the transaction left as it is, when it fails with another error;
    for a name that is not registered it returns the error for this name and leaves the
    transaction as it is. -/
theorem deleteModelById_spec (L : Lib) (R : Registry) (t : transaction) (modelName id : String) :
    (∀ ms, R.modelSpecs modelName = some ms →
      (ms.primativeIndexes ≠ [] ∨ ms.pointerIndexes ≠ []) →
      (∀ key, R.FindById modelName id = .error (Err.keyNotFound key) →
        t.deleteModelById L R modelName id = (t, none)) ∧
      (∀ err, R.FindById modelName id = .error err → (∀ key, err ≠ Err.keyNotFound key) →
        t.deleteModelById L R modelName id = (t, some err))) ∧
    (R.modelSpecs modelName = none →
      t.deleteModelById L R modelName id = (t, some (Err.modelNameNotRegistered modelName))) := by
  refine ⟨?_, ?_⟩
  · intro ms hms hidx
    have hc : ms.primativeIndexes.length ≠ 0 ∨ ms.pointerIndexes.length ≠ 0 := by
      rcases hidx with h | h
      · exact Or.inl (by simpa using h)
      · exact Or.inr (by simpa using h)
    refine ⟨?_, ?_⟩
    · intro key hf
      simp only [transaction.deleteModelById, hms, hc, if_true, hf]
    · intro err hf hne
      simp only [transaction.deleteModelById, hms, hc, if_true, hf]
  · intro hms
    simp only [transaction.deleteModelById, hms]

/-- C16 at inputs: for the registered type "person", which has indexed fields, a load that
    fails with key-not-found gives nil and no command, a load that fails otherwise gives its
    error; the name "robot" is not registered. -/
theorem deleteModelById_spec_witness :
    ((newTransaction okConn).deleteModelById artistLib personRegistry "person" "p9").2 = none ∧
    ((newTransaction okConn).deleteModelById artistLib personRegistry "person" "p9").1.commands
      = [] ∧
    ((newTransaction okConn).deleteModelById artistLib personRegistryFails "person" "p9").2 =
      some (Err.other "connection refused") ∧
    ((newTransaction okConn).deleteModelById artistLib personRegistry "robot" "r1").2 =
      some (Err.modelNameNotRegistered "robot") := by
  have h := deleteModelById_spec artistLib personRegistry (newTransaction okConn) "person" "p9"
  have h1 := (h.1 personSpec rfl (Or.inl (by decide))).1 "person:p9" rfl
  have h2 := ((deleteModelById_spec artistLib personRegistryFails (newTransaction okConn)
    "person" "p9").1 personSpec rfl (Or.inl (by decide))).2 (Err.other "connection refused") rfl
    (by intro key; simp)
  have h3 := (deleteModelById_spec artistLib personRegistry (newTransaction okConn)
    "robot" "r1").2 rfl
  refine ⟨?_, ?_, ?_, ?_⟩
  · rw [h1]
  · rw [h1]; rfl
  · rw [h2]
  · rw [h3]

/-! ### The traversal only adds -/

theorem Finder.Extends.refl (s : Finder) : s.Extends s :=
  ⟨⟨[], by simp⟩, fun _ _ h => h, rfl, le_refl _, rfl⟩

theorem Finder.Extends.trans {s1 s2 s3 : Finder} (h12 : s1.Extends s2) (h23 : s2.Extends s3) :
    s1.Extends s3 := by
  obtain ⟨⟨e1, h1⟩, c1, n1, x1, w1⟩ := h12
  obtain ⟨⟨e2, h2⟩, c2, n2, x2, w2⟩ := h23
  exact ⟨⟨e1 ++ e2, by rw [h2, h1, List.append_assoc]⟩, fun k p h => c2 k p (c1 k p h),
    n2.trans n1, le_trans x1 x2, w2.trans w1⟩

theorem Finder.extends_read (s : Finder) (c : Zoom.command) : s.Extends (s.read c) :=
  ⟨⟨_, rfl⟩, fun _ _ h => h, rfl, le_refl _, rfl⟩

theorem Finder.extends_trace (s : Finder) (e : FindEvent) :
    s.Extends { s with trace := s.trace ++ [e] } :=
  ⟨⟨_, rfl⟩, fun _ _ h => h, rfl, le_refl _, rfl⟩

theorem Finder.extends_command (s : Finder) (cmd : String) (args : List Arg)
    (handler : Option Handler) : s.Extends (s.command cmd args handler) :=
  ⟨⟨_, rfl⟩, fun _ _ h => h, rfl, le_refl _, rfl⟩

theorem Finder.extends_new (s : Finder) (typeName : String) : s.Extends (s.new typeName) :=
  ⟨⟨[], by simp [Finder.new]⟩, fun _ _ h => h, rfl, Nat.le_succ _, rfl⟩

theorem Finder.extends_SetId (s : Finder) (model : Nat) (id : String) :
    s.Extends (s.SetId model id) :=
  ⟨⟨[], by simp [Finder.SetId]⟩, fun _ _ h => h, rfl, le_refl _, rfl⟩

theorem Finder.extends_setOne (s : Finder) (model : Nat) (f : String) (target : Nat) :
    s.Extends (s.setOne model f target) :=
  ⟨⟨[], by simp [Finder.setOne]⟩, fun _ _ h => h, rfl, le_refl _, rfl⟩

theorem Finder.extends_appendMany (s : Finder) (model : Nat) (f : String) (target : Nat) :
    s.Extends (s.appendMany model f target) :=
  ⟨⟨[], by simp [Finder.appendMany]⟩, fun _ _ h => h, rfl, le_refl _, rfl⟩

theorem Finder.extends_register (s : Finder) (key : String) (model : Nat)
    (h : s.t.modelCache key = none) : s.Extends (s.register key model) := by
  refine ⟨⟨_, rfl⟩, ?_, rfl, le_refl _, rfl⟩
  intro k p hk
  have hne : k ≠ key := by
    intro he
    rw [he, h] at hk
    cases hk
  simp [Finder.register, hne, hk]

theorem Finder.extends_findModelLists (s : Finder) (mr : modelRef)
    (includes : Option (List String)) : s.Extends (s.findModelLists mr includes) := by
  unfold Finder.findModelLists
  generalize mr.modelSpec.lists = lists
  induction lists generalizing s with
  | nil => exact Finder.Extends.refl s
  | cons l ls ih =>
    rw [List.foldl_cons]
    split
    · exact ih s
    · exact (s.extends_command _ _ _).trans (ih _)

theorem Finder.extends_findModelSets (s : Finder) (mr : modelRef)
    (includes : Option (List String)) : s.Extends (s.findModelSets mr includes) := by
  unfold Finder.findModelSets
  generalize mr.modelSpec.sets = sets
  induction sets generalizing s with
  | nil => exact Finder.Extends.refl s
  | cons l ls ih =>
    rw [List.foldl_cons]
    split
    · exact ih s
    · exact (s.extends_command _ _ _).trans (ih _)

theorem Finder.extends_findHash (R : Registry) (s : Finder) (mr : modelRef)
    (includes : Option (List String)) : s.Extends (s.findHash R mr includes) := by
  unfold Finder.findHash
  split
  · exact s.extends_command _ _ _
  · split
    · exact s.extends_command _ _ _
    · exact Finder.Extends.refl s

theorem extends_findTarget (R : Registry) (self : Finder → modelRef → Nat → Finder × Ret)
    (hself : ∀ (s : Finder) (mr : modelRef) (model : Nat), s.Extends (self s mr model).1)
    (s : Finder) (mr : modelRef) (r : relationship) (rModel : Nat) (id : String) :
    s.Extends (findTarget R self s mr r rModel id).1 := by
  unfold findTarget
  split
  · exact Finder.Extends.refl s
  · simp only
    split
    · exact s.extends_SetId rModel id
    · exact (s.extends_SetId rModel id).trans
        (((s.SetId rModel id).extends_trace _).trans (hself _ _ _))

theorem extends_findModelOneToOneRelation (R : Registry)
    (self : Finder → modelRef → Nat → Finder × Ret)
    (hself : ∀ (s : Finder) (mr : modelRef) (model : Nat), s.Extends (self s mr model).1)
    (s : Finder) (mr : modelRef) (model : Nat) (r : relationship) :
    s.Extends (findModelOneToOneRelation R self s mr model r).1 := by
  unfold findModelOneToOneRelation
  simp only
  split
  · exact s.extends_read _
  · split
    · exact s.extends_read _
    · split
      · exact (s.extends_read _).trans (Finder.extends_setOne _ _ _ _)
      · exact (s.extends_read _).trans ((Finder.extends_new _ _).trans
          ((Finder.extends_setOne _ _ _ _).trans (extends_findTarget R self hself _ _ _ _ _)))

theorem extends_findModelOneToManyRelation_loop (R : Registry)
    (self : Finder → modelRef → Nat → Finder × Ret)
    (hself : ∀ (s : Finder) (mr : modelRef) (model : Nat), s.Extends (self s mr model).1)
    (mr : modelRef) (model : Nat) (r : relationship) (ids : List String) (s : Finder) :
    s.Extends (findModelOneToManyRelation.loop R self mr model r ids s).1 := by
  induction ids generalizing s with
  | nil => exact Finder.Extends.refl s
  | cons id ids ih =>
    unfold findModelOneToManyRelation.loop
    simp only
    split
    · exact (Finder.extends_appendMany _ _ _ _).trans (ih _)
    · have h1 := (s.extends_new (R.targetName mr.modelSpec.modelName r.fieldName)).trans
        (extends_findTarget R self hself (s.new _) mr r s.next id)
      split
      · exact h1.trans ((Finder.extends_appendMany _ _ _ _).trans (ih _))
      · exact h1

theorem extends_findModelOneToManyRelation (R : Registry)
    (self : Finder → modelRef → Nat → Finder × Ret)
    (hself : ∀ (s : Finder) (mr : modelRef) (model : Nat), s.Extends (self s mr model).1)
    (s : Finder) (mr : modelRef) (model : Nat) (r : relationship) :
    s.Extends (findModelOneToManyRelation R self s mr model r).1 := by
  unfold findModelOneToManyRelation
  simp only
  split
  · exact s.extends_read _
  · split
    · exact s.extends_read _
    · exact (s.extends_read _).trans
        (extends_findModelOneToManyRelation_loop R self hself _ _ _ _ _)

theorem extends_findModelRelationships_loop (R : Registry)
    (self : Finder → modelRef → Nat → Finder × Ret)
    (hself : ∀ (s : Finder) (mr : modelRef) (model : Nat), s.Extends (self s mr model).1)
    (mr : modelRef) (model : Nat) (includes : Option (List String))
    (rs : List relationship) (s : Finder) :
    s.Extends (findModelRelationships.loop R self mr model includes rs s).1 := by
  induction rs generalizing s with
  | nil => exact Finder.Extends.refl s
  | cons r rs ih =>
    unfold findModelRelationships.loop
    split
    · exact ih s
    · have h1 : s.Extends (match r.rType with
          | .oneToOne => findModelOneToOneRelation R self s mr model r
          | .oneToMany => findModelOneToManyRelation R self s mr model r).1 := by
        split
        · exact extends_findModelOneToOneRelation R self hself s mr model r
        · exact extends_findModelOneToManyRelation R self hself s mr model r
      simp only
      split
      · exact h1.trans (ih _)
      · exact h1

theorem extends_findModel_miss (R : Registry) (self : Finder → modelRef → Nat → Finder × Ret)
    (hself : ∀ (s : Finder) (mr : modelRef) (model : Nat), s.Extends (self s mr model).1)
    (s : Finder) (mr : modelRef) (model : Nat) (includes : Option (List String))
    (hmiss : s.t.modelCache mr.key = none) :
    (s.register mr.key model).Extends (findModel.miss R self s mr model includes).1 ∧
    s.Extends (findModel.miss R self s mr model includes).1 := by
  have h1 := s.extends_register mr.key model hmiss
  have h2 := (s.register mr.key model).extends_findHash R mr includes
  have key : (s.register mr.key model).Extends
      (findModel.miss R self s mr model includes).1 := by
    unfold findModel.miss
    simp only
    have h3 : ((s.register mr.key model).findHash R mr includes).Extends
        (if mr.modelSpec.lists.length ≠ 0 then
          ((s.register mr.key model).findHash R mr includes).findModelLists mr includes
         else (s.register mr.key model).findHash R mr includes) := by
      split
      · exact Finder.extends_findModelLists _ _ _
      · exact Finder.Extends.refl _
    generalize (if mr.modelSpec.lists.length ≠ 0 then
          ((s.register mr.key model).findHash R mr includes).findModelLists mr includes
         else (s.register mr.key model).findHash R mr includes) = s3 at h3 ⊢
    have h4 : s3.Extends
        (if mr.modelSpec.sets.length ≠ 0 then s3.findModelSets mr includes else s3) := by
      split
      · exact Finder.extends_findModelSets _ _ _
      · exact Finder.Extends.refl _
    generalize (if mr.modelSpec.sets.length ≠ 0 then s3.findModelSets mr includes else s3) = s4
      at h4 ⊢
    split
    · exact h2.trans (h3.trans (h4.trans
        (extends_findModelRelationships_loop R self hself _ _ _ _ _)))
    · exact h2.trans (h3.trans h4)
  exact ⟨key, h1.trans key⟩

theorem findModel_hit (R : Registry) (fuel : Nat) (s : Finder) (mr : modelRef) (model : Nat)
    (includes : Option (List String)) (prior : Nat) (h : s.t.modelCache mr.key = some prior) :
    findModel R fuel s mr model includes =
      ({ s with records := fun a => if a = model then s.records prior else s.records a },
        Ret.nil) := by
  cases fuel <;> simp [findModel, h]

theorem findModel_zero (R : Registry) (s : Finder) (mr : modelRef) (model : Nat)
    (includes : Option (List String)) (h : s.t.modelCache mr.key = none) :
    findModel R 0 s mr model includes = (s, Ret.outOfFuel) := by
  simp [findModel, h]

theorem findModel_succ (R : Registry) (fuel : Nat) (s : Finder) (mr : modelRef) (model : Nat)
    (includes : Option (List String)) (h : s.t.modelCache mr.key = none) :
    findModel R (fuel + 1) s mr model includes =
      findModel.miss R (fun s mr model => findModel R fuel s mr model none)
        s mr model includes := by
  simp [findModel, h]

theorem extends_findModel (R : Registry) (fuel : Nat) (s : Finder) (mr : modelRef)
    (model : Nat) (includes : Option (List String)) :
    s.Extends (findModel R fuel s mr model includes).1 := by
  induction fuel generalizing s mr model includes with
  | zero =>
    cases h : s.t.modelCache mr.key with
    | some prior =>
      rw [findModel_hit R 0 s mr model includes prior h]
      exact ⟨⟨[], by simp⟩, fun _ _ h => h, rfl, le_refl _, rfl⟩
    | none => rw [findModel_zero R s mr model includes h]; exact Finder.Extends.refl s
  | succ fuel ih =>
    cases h : s.t.modelCache mr.key with
    | some prior =>
      rw [findModel_hit R _ s mr model includes prior h]
      exact ⟨⟨[], by simp⟩, fun _ _ h => h, rfl, le_refl _, rfl⟩
    | none =>
      rw [findModel_succ R fuel s mr model includes h]
      exact (extends_findModel_miss R _ (fun s mr model => ih s mr model none)
        s mr model includes h).2

/-! ### `findModel` and the cache -/

/-- C14: a call of `findModel` for a record whose key is in the cache returns nil and leaves
    the transaction as it is (no command is queued, no waiter registered, the cache is the
    same) and makes no read; it copies the cached record over the record.  A call for a
    record whose key is not in the cache registers the record under its key before it does
    anything else, and the key stays registered. -/
theorem findModel_cache_spec (R : Registry) (fuel : Nat) (s : Finder) (mr : modelRef)
    (model : Nat) (includes : Option (List String)) :
    (∀ prior, s.t.modelCache mr.key = some prior →
      (findModel R fuel s mr model includes).2 = Ret.nil ∧
      (findModel R fuel s mr model includes).1.t = s.t ∧
      (findModel R fuel s mr model includes).1.trace = s.trace ∧
      (findModel R fuel s mr model includes).1.records model = s.records prior) ∧
    (s.t.modelCache mr.key = none →
      (∃ rest, (findModel R (fuel + 1) s mr model includes).1.trace =
        s.trace ++ FindEvent.register mr.key model :: rest) ∧
      (findModel R (fuel + 1) s mr model includes).1.t.modelCache mr.key = some model) := by
  constructor
  · intro prior h
    rw [findModel_hit R fuel s mr model includes prior h]
    exact ⟨rfl, rfl, rfl, by simp⟩
  · intro h
    rw [findModel_succ R fuel s mr model includes h]
    obtain ⟨⟨events, he⟩, hc, _, _, _⟩ := (extends_findModel_miss R _
      (fun s mr model => extends_findModel R fuel s mr model none) s mr model includes h).1
    refine ⟨⟨events, ?_⟩, hc _ _ (by simp [Finder.register])⟩
    rw [he]
    simp [Finder.register]

/-- C14 at inputs: the find of the artist "a1" on a new transaction registers "artist:a1"
    first; a second find of the same artist, for a record at another address, hits the cache,
    returns nil and leaves the three queued commands as they are. -/
theorem findModel_cache_spec_witness :
    (findModel cycleRegistry 3 cycleStart artistRef 0 none).1.trace.head? =
      some (FindEvent.register "artist:a1" 0) ∧
    (findModel cycleRegistry 3 cycleStart artistRef 0 none).1.t.modelCache "artist:a1" =
      some 0 ∧
    (findModel cycleRegistry 0 (findModel cycleRegistry 3 cycleStart artistRef 0 none).1
      artistRef 7 none).2 = Ret.nil ∧
    (findModel cycleRegistry 0 (findModel cycleRegistry 3 cycleStart artistRef 0 none).1
      artistRef 7 none).1.t.commands.length = 3 := by
  have h1 := (findModel_cache_spec cycleRegistry 2 cycleStart artistRef 0 none).2 rfl
  have h2 := (findModel_cache_spec cycleRegistry 0
    (findModel cycleRegistry 3 cycleStart artistRef 0 none).1 artistRef 7 none).1 0 h1.2
  obtain ⟨rest, hrest⟩ := h1.1
  refine ⟨?_, h1.2, h2.1, ?_⟩
  · rw [hrest]; rfl
  · rw [h2.2.1]; decide

/-! ### `findModel` terminates -/

theorem uncached_le_length (U : List String) (cache : String → Option Nat) :
    uncached U cache ≤ U.length :=
  List.length_filter_le _ _

theorem uncached_mono (U : List String) (c c' : String → Option Nat)
    (h : ∀ k p, c k = some p → c' k = some p) : uncached U c' ≤ uncached U c := by
  unfold uncached
  apply List.Sublist.length_le
  apply List.monotone_filter_right
  intro k hk
  cases hc : c k with
  | none => rfl
  | some p => rw [h k p hc] at hk; cases hk

theorem uncached_register_lt (U : List String) (c : String → Option Nat) (key : String)
    (model : Nat) (hU : key ∈ U) (hc : c key = none) :
    uncached U (fun k => if k = key then some model else c k) < uncached U c := by
  unfold uncached
  have hsub : List.Sublist
      (U.filter (fun k => ((fun k => if k = key then some model else c k) k).isNone))
      (U.filter (fun k => (c k).isNone)) := by
    apply List.monotone_filter_right
    intro k hk
    by_cases hkk : k = key
    · simp [hkk] at hk
    · simpa [hkk] using hk
  rcases Nat.lt_or_ge
      (U.filter (fun k => ((fun k => if k = key then some model else c k) k).isNone)).length
      (U.filter (fun k => (c k).isNone)).length with h | h
  · exact h
  · exfalso
    have heq := hsub.eq_of_length_le h
    have hin : key ∈ U.filter (fun k => (c k).isNone) := by
      simp [List.mem_filter, hU, hc]
    rw [← heq] at hin
    simp [List.mem_filter] at hin

theorem uncached_extends (U : List String) {s s' : Finder} (h : s.Extends s') :
    uncached U s'.t.modelCache ≤ uncached U s.t.modelCache :=
  uncached_mono U _ _ h.2.1

theorem newModelRefFromModel_key (R : Registry) (hR : R.WellFormed) (rec : Record)
    (mr : modelRef) (h : R.newModelRefFromModel rec = .ok mr) :
    mr.key = rec.typeName ++ ":" ++ rec.id ∧ mr.modelSpec.modelName = rec.typeName ∧
    mr.model.id = rec.id := by
  unfold Registry.newModelRefFromModel at h
  cases hs : R.modelSpecs rec.typeName with
  | none => simp [hs] at h
  | some ms =>
    simp only [hs] at h
    cases h
    simp [modelRef.key, Model.GetId, hR _ _ hs]

theorem term_findTarget (R : Registry) (hR : R.WellFormed) (conn : Conn) (U : List String)
    (n : Nat) (self : Finder → modelRef → Nat → Finder × Ret)
    (hterm : ∀ (s : Finder) (mr : modelRef) (model : Nat), s.t.conn = conn →
      uncached U (fun k => if k = mr.key then some model else s.t.modelCache k) < n →
      (self s mr model).2 ≠ Ret.outOfFuel)
    (s : Finder) (mr : modelRef) (r : relationship) (rModel : Nat) (id : String)
    (htn : (s.records rModel).typeName = R.targetName mr.modelSpec.modelName r.fieldName)
    (hkey : R.targetName mr.modelSpec.modelName r.fieldName ++ ":" ++ id ∈ U)
    (hmiss : s.t.modelCache (R.targetName mr.modelSpec.modelName r.fieldName ++ ":" ++ id) = none)
    (hconn : s.t.conn = conn) (hu : uncached U s.t.modelCache ≤ n) :
    (findTarget R self s mr r rModel id).2 ≠ Ret.outOfFuel := by
  unfold findTarget
  split
  · simp
  · simp only
    split
    · simp
    · rename_i rModelRef href
      have hk := (newModelRefFromModel_key R hR _ rModelRef href).1
      have hk' : rModelRef.key =
          R.targetName mr.modelSpec.modelName r.fieldName ++ ":" ++ id := by
        rw [hk]
        simp [Finder.SetId, htn]
      apply hterm
      · exact hconn
      · rw [hk']
        exact lt_of_lt_of_le (uncached_register_lt U _ _ rModel hkey hmiss) hu

theorem term_findModelOneToOneRelation (R : Registry) (hR : R.WellFormed) (conn : Conn)
    (U : List String) (hU : Closed R conn U) (n : Nat)
    (self : Finder → modelRef → Nat → Finder × Ret)
    (hterm : ∀ (s : Finder) (mr : modelRef) (model : Nat), s.t.conn = conn →
      uncached U (fun k => if k = mr.key then some model else s.t.modelCache k) < n →
      (self s mr model).2 ≠ Ret.outOfFuel)
    (s : Finder) (mr : modelRef) (model : Nat) (r : relationship)
    (hconn : s.t.conn = conn) (hu : uncached U s.t.modelCache ≤ n) :
    (findModelOneToOneRelation R self s mr model r).2 ≠ Ret.outOfFuel := by
  unfold findModelOneToOneRelation
  simp only
  split
  · simp
  · rename_i reply hread
    split
    · simp
    · rename_i id hid
      split
      · simp
      · rename_i hmiss
        rw [hconn] at hread
        have hkey := (hU _ reply hread).1 id hid mr.modelSpec.modelName r.fieldName
        apply term_findTarget R hR conn U n self hterm
        · simp [Finder.setOne, Finder.new, Finder.read]
          split <;> rfl
        · exact hkey
        · exact hmiss
        · exact hconn
        · exact hu

theorem term_findModelOneToManyRelation_loop (R : Registry) (hR : R.WellFormed) (conn : Conn)
    (U : List String) (n : Nat)
    (self : Finder → modelRef → Nat → Finder × Ret)
    (hext : ∀ (s : Finder) (mr : modelRef) (model : Nat), s.Extends (self s mr model).1)
    (hterm : ∀ (s : Finder) (mr : modelRef) (model : Nat), s.t.conn = conn →
      uncached U (fun k => if k = mr.key then some model else s.t.modelCache k) < n →
      (self s mr model).2 ≠ Ret.outOfFuel)
    (mr : modelRef) (model : Nat) (r : relationship) (ids : List String)
    (hids : ∀ id ∈ ids, R.targetName mr.modelSpec.modelName r.fieldName ++ ":" ++ id ∈ U)
    (s : Finder) (hconn : s.t.conn = conn) (hu : uncached U s.t.modelCache ≤ n) :
    (findModelOneToManyRelation.loop R self mr model r ids s).2 ≠ Ret.outOfFuel := by
  induction ids generalizing s with
  | nil => simp [findModelOneToManyRelation.loop]
  | cons id ids ih =>
    have hids' : ∀ id ∈ ids,
        R.targetName mr.modelSpec.modelName r.fieldName ++ ":" ++ id ∈ U :=
      fun x hx => hids x (List.mem_cons_of_mem _ hx)
    unfold findModelOneToManyRelation.loop
    simp only
    split
    · exact ih hids' _ hconn hu
    · rename_i hmiss
      have hT := term_findTarget R hR conn U n self hterm
        (s.new (R.targetName mr.modelSpec.modelName r.fieldName)) mr r s.next id
        (by simp [Finder.new]) (hids id (List.mem_cons_self _ _)) hmiss hconn hu
      have hE := (s.extends_new (R.targetName mr.modelSpec.modelName r.fieldName)).trans
        (extends_findTarget R self hext (s.new _) mr r s.next id)
      split
      · apply ih hids'
        · exact hE.2.2.1.trans hconn
        · exact le_trans (uncached_extends U hE) hu
      · rename_i ret hret
        intro hout
        exact hT hout

theorem term_findModelOneToManyRelation (R : Registry) (hR : R.WellFormed) (conn : Conn)
    (U : List String) (hU : Closed R conn U) (n : Nat)
    (self : Finder → modelRef → Nat → Finder × Ret)
    (hext : ∀ (s : Finder) (mr : modelRef) (model : Nat), s.Extends (self s mr model).1)
    (hterm : ∀ (s : Finder) (mr : modelRef) (model : Nat), s.t.conn = conn →
      uncached U (fun k => if k = mr.key then some model else s.t.modelCache k) < n →
      (self s mr model).2 ≠ Ret.outOfFuel)
    (s : Finder) (mr : modelRef) (model : Nat) (r : relationship)
    (hconn : s.t.conn = conn) (hu : uncached U s.t.modelCache ≤ n) :
    (findModelOneToManyRelation R self s mr model r).2 ≠ Ret.outOfFuel := by
  unfold findModelOneToManyRelation
  simp only
  split
  · simp
  · rename_i reply hread
    split
    · simp
    · rename_i ids hids
      rw [hconn] at hread
      exact term_findModelOneToManyRelation_loop R hR conn U n self hext hterm mr model r ids
        (fun id hid => (hU _ reply hread).2 ids hids id hid _ _) _ hconn hu

theorem term_findModelRelationships_loop (R : Registry) (hR : R.WellFormed) (conn : Conn)
    (U : List String) (hU : Closed R conn U) (n : Nat)
    (self : Finder → modelRef → Nat → Finder × Ret)
    (hext : ∀ (s : Finder) (mr : modelRef) (model : Nat), s.Extends (self s mr model).1)
    (hterm : ∀ (s : Finder) (mr : modelRef) (model : Nat), s.t.conn = conn →
      uncached U (fun k => if k = mr.key then some model else s.t.modelCache k) < n →
      (self s mr model).2 ≠ Ret.outOfFuel)
    (mr : modelRef) (model : Nat) (includes : Option (List String))
    (rs : List relationship) (s : Finder)
    (hconn : s.t.conn = conn) (hu : uncached U s.t.modelCache ≤ n) :
    (findModelRelationships.loop R self mr model includes rs s).2 ≠ Ret.outOfFuel := by
  induction rs generalizing s with
  | nil => simp [findModelRelationships.loop]
  | cons r rs ih =>
    unfold findModelRelationships.loop
    split
    · exact ih s hconn hu
    · have hT : (match r.rType with
          | .oneToOne => findModelOneToOneRelation R self s mr model r
          | .oneToMany => findModelOneToManyRelation R self s mr model r).2 ≠ Ret.outOfFuel := by
        split
        · exact term_findModelOneToOneRelation R hR conn U hU n self hterm s mr model r hconn hu
        · exact term_findModelOneToManyRelation R hR conn U hU n self hext hterm s mr model r
            hconn hu
      have hE : s.Extends (match r.rType with
          | .oneToOne => findModelOneToOneRelation R self s mr model r
          | .oneToMany => findModelOneToManyRelation R self s mr model r).1 := by
        split
        · exact extends_findModelOneToOneRelation R self hext s mr model r
        · exact extends_findModelOneToManyRelation R self hext s mr model r
      simp only
      split
      · exact ih _ (hE.2.2.1.trans hconn) (le_trans (uncached_extends U hE) hu)
      · intro hout
        exact hT hout

theorem term_findModel_miss (R : Registry) (hR : R.WellFormed) (conn : Conn)
    (U : List String) (hU : Closed R conn U) (n : Nat)
    (self : Finder → modelRef → Nat → Finder × Ret)
    (hext : ∀ (s : Finder) (mr : modelRef) (model : Nat), s.Extends (self s mr model).1)
    (hterm : ∀ (s : Finder) (mr : modelRef) (model : Nat), s.t.conn = conn →
      uncached U (fun k => if k = mr.key then some model else s.t.modelCache k) < n →
      (self s mr model).2 ≠ Ret.outOfFuel)
    (s : Finder) (mr : modelRef) (model : Nat) (includes : Option (List String))
    (hconn : s.t.conn = conn)
    (hu : uncached U (fun k => if k = mr.key then some model else s.t.modelCache k) ≤ n) :
    (findModel.miss R self s mr model includes).2 ≠ Ret.outOfFuel := by
  have h2 := (s.register mr.key model).extends_findHash R mr includes
  unfold findModel.miss
  simp only
  have h3 : ((s.register mr.key model).findHash R mr includes).Extends
      (if mr.modelSpec.lists.length ≠ 0 then
        ((s.register mr.key model).findHash R mr includes).findModelLists mr includes
       else (s.register mr.key model).findHash R mr includes) := by
    split
    · exact Finder.extends_findModelLists _ _ _
    · exact Finder.Extends.refl _
  generalize (if mr.modelSpec.lists.length ≠ 0 then
        ((s.register mr.key model).findHash R mr includes).findModelLists mr includes
       else (s.register mr.key model).findHash R mr includes) = s3 at h3 ⊢
  have h4 : s3.Extends
      (if mr.modelSpec.sets.length ≠ 0 then s3.findModelSets mr includes else s3) := by
    split
    · exact Finder.extends_findModelSets _ _ _
    · exact Finder.Extends.refl _
  generalize (if mr.modelSpec.sets.length ≠ 0 then s3.findModelSets mr includes else s3) = s4
    at h4 ⊢
  have hE := h2.trans (h3.trans h4)
  split
  · apply term_findModelRelationships_loop R hR conn U hU n self hext hterm
    · exact hE.2.2.1.trans hconn
    · exact le_trans (uncached_extends U hE) hu
  · simp

theorem term_findModel (R : Registry) (hR : R.WellFormed) (conn : Conn)
    (U : List String) (hU : Closed R conn U) (fuel : Nat)
    (s : Finder) (mr : modelRef) (model : Nat) (includes : Option (List String))
    (hconn : s.t.conn = conn)
    (hu : uncached U (fun k => if k = mr.key then some model else s.t.modelCache k) < fuel) :
    (findModel R fuel s mr model includes).2 ≠ Ret.outOfFuel := by
  induction fuel generalizing s mr model includes with
  | zero => omega
  | succ fuel ih =>
    cases h : s.t.modelCache mr.key with
    | some prior => rw [findModel_hit R _ s mr model includes prior h]; simp
    | none =>
      rw [findModel_succ R fuel s mr model includes h]
      exact term_findModel_miss R hR conn U hU fuel _
        (fun s mr model => extends_findModel R fuel s mr model none)
        (fun s mr model hc hlt => ih s mr model none hc hlt)
        s mr model includes hconn (Nat.lt_succ_iff.mp hu)

/-! ### The relationship fields after `findModelRelationships` -/

theorem list_append_cons_inj {α : Type} (c : α) (l1 l2 r1 r2 : List α) (h1 : c ∉ l1)
    (h2 : c ∉ l2) (h : l1 ++ c :: r1 = l2 ++ c :: r2) : l1 = l2 ∧ r1 = r2 := by
  induction l1 generalizing l2 with
  | nil =>
    cases l2 with
    | nil => simpa using h
    | cons b l2 =>
      simp only [List.nil_append, List.cons_append, List.cons.injEq] at h
      exact absurd (List.mem_cons.mpr (Or.inl h.1)) h2
  | cons a l1 ih =>
    cases l2 with
    | nil =>
      simp only [List.nil_append, List.cons_append, List.cons.injEq] at h
      exact absurd (List.mem_cons.mpr (Or.inl h.1.symm)) h1
    | cons b l2 =>
      simp only [List.cons_append, List.cons.injEq] at h
      obtain ⟨hab, ht⟩ := h
      obtain ⟨hl, hr⟩ := ih l2 (fun hm => h1 (List.mem_cons_of_mem _ hm))
        (fun hm => h2 (List.mem_cons_of_mem _ hm)) ht
      exact ⟨by rw [hab, hl], hr⟩

/-- A key determines the name and the id when the names hold no colon. -/
theorem key_inj (n1 n2 i1 i2 : String) (h1 : ':' ∉ n1.data) (h2 : ':' ∉ n2.data)
    (h : n1 ++ ":" ++ i1 = n2 ++ ":" ++ i2) : n1 = n2 ∧ i1 = i2 := by
  have hd := congrArg String.data h
  simp only [String.data_append] at hd
  rw [List.append_assoc, List.append_assoc] at hd
  obtain ⟨hl, hr⟩ := list_append_cons_inj ':' _ _ _ _ h1 h2 hd
  exact ⟨String.ext hl, String.ext hr⟩

theorem Finder.cacheOK_of_le {s s' : Finder} (h : s.CacheOK)
    (hc : ∀ k p, s'.t.modelCache k = some p → s.t.modelCache k = some p)
    (hn : s.next ≤ s'.next)
    (hr : ∀ k p, s.t.modelCache k = some p →
      (s'.records p).typeName = (s.records p).typeName ∧ (s'.records p).id = (s.records p).id) :
    s'.CacheOK := by
  intro k p hk
  have h0 := hc k p hk
  obtain ⟨h1, h2, h3⟩ := h k p h0
  obtain ⟨h4, h5⟩ := hr k p h0
  exact ⟨lt_of_lt_of_le h1 hn, by rw [h4]; exact h2, by rw [h4, h5]; exact h3⟩

theorem frame_findTarget (R : Registry) (hR : R.WellFormed)
    (hcolon : ∀ n f, ':' ∉ (R.targetName n f).data)
    (self : Finder → modelRef → Nat → Finder × Ret) (hgood : GoodSelf self)
    (s : Finder) (mr : modelRef) (r : relationship) (rModel : Nat) (id : String)
    (hs : s.CacheOK) (hr : rModel < s.next)
    (hfresh : ∀ k, s.t.modelCache k ≠ some rModel)
    (htn : (s.records rModel).typeName = R.targetName mr.modelSpec.modelName r.fieldName)
    (hmiss : s.t.modelCache (R.targetName mr.modelSpec.modelName r.fieldName ++ ":" ++ id)
      = none) :
    (findTarget R self s mr r rModel id).1.CacheOK ∧
    (∀ a, a < s.next → a ≠ rModel →
      (findTarget R self s mr r rModel id).1.records a = s.records a) ∧
    ((findTarget R self s mr r rModel id).2 = Ret.nil →
      ((findTarget R self s mr r rModel id).1.records rModel).id = id) := by
  unfold findTarget
  split
  · exact ⟨hs, fun _ _ _ => rfl, fun h => by cases h⟩
  · simp only
    have hs1 : (s.SetId rModel id).CacheOK := Finder.cacheOK_of_le hs (fun _ _ h => h) (le_refl _) (by
      intro k p hk
      have hne : p ≠ rModel := fun he => hfresh k (he ▸ hk)
      simp [Finder.SetId, hne])
    have hrec : ∀ a, a ≠ rModel → (s.SetId rModel id).records a = s.records a := by
      intro a ha; simp [Finder.SetId, ha]
    have hid : ((s.SetId rModel id).records rModel).id = id := by simp [Finder.SetId]
    have hty : ((s.SetId rModel id).records rModel).typeName = (s.records rModel).typeName := by
      simp [Finder.SetId]
    split
    · exact ⟨hs1, fun a _ ha => hrec a ha, fun h => by cases h⟩
    · rename_i ref href
      obtain ⟨hk, _, _⟩ := newModelRefFromModel_key R hR _ ref href
      rw [hid, hty, htn] at hk
      have hg := hgood
        { (s.SetId rModel id) with
          trace := (s.SetId rModel id).trace ++ [FindEvent.findModel ref.key] } ref rModel
        hs1 hr (by show ':' ∉ ((s.SetId rModel id).records rModel).typeName.data
                   rw [hty, htn]; exact hcolon _ _)
        (by show ref.key = ((s.SetId rModel id).records rModel).typeName ++ ":" ++
                   ((s.SetId rModel id).records rModel).id
            rw [hid, hty, htn]; exact hk)
        (by rw [hk]; exact hmiss)
      obtain ⟨g1, g2, g3⟩ := hg
      refine ⟨g1, ?_, ?_⟩
      · intro a ha hne
        rw [g2 a ha hne]
        exact hrec a hne
      · intro _
        rw [(g3 rModel hr).1]
        exact hid

theorem frame_findModelOneToOneRelation (R : Registry) (hR : R.WellFormed)
    (hcolon : ∀ n f, ':' ∉ (R.targetName n f).data)
    (self : Finder → modelRef → Nat → Finder × Ret) (hgood : GoodSelf self)
    (hext : ∀ (s : Finder) (mr : modelRef) (model : Nat), s.Extends (self s mr model).1)
    (s : Finder) (mr : modelRef) (model : Nat) (r : relationship)
    (hs : s.CacheOK) (hm : model < s.next) :
    s.Frame (findModelOneToOneRelation R self s mr model r).1 model ∧
    (∀ g, g ≠ r.fieldName →
      ((findModelOneToOneRelation R self s mr model r).1.records model).one g =
        (s.records model).one g) ∧
    (∀ g, ((findModelOneToOneRelation R self s mr model r).1.records model).many g =
        (s.records model).many g) ∧
    ((findModelOneToOneRelation R self s mr model r).2 = Ret.nil →
      ∃ reply id p,
        s.t.conn.read ⟨"GET", [.str (mr.key ++ ":" ++ r.redisName)]⟩ = .ok reply ∧
        redisString reply = .ok id ∧
        ((findModelOneToOneRelation R self s mr model r).1.records model).one r.fieldName =
          some p ∧
        p < (findModelOneToOneRelation R self s mr model r).1.next ∧
        ((findModelOneToOneRelation R self s mr model r).1.records p).id = id) := by
  have hread : ∀ c, s.Frame (s.read c) model :=
    fun c => ⟨Finder.cacheOK_of_le hs (fun _ _ h => h) (le_refl _) (fun _ _ _ => ⟨rfl, rfl⟩),
      fun _ _ _ => rfl, fun _ _ => ⟨rfl, rfl⟩⟩
  unfold findModelOneToOneRelation
  simp only
  split
  · exact ⟨hread _, fun _ _ => rfl, fun _ => rfl, fun h => by cases h⟩
  · rename_i reply hreply
    split
    · exact ⟨hread _, fun _ _ => rfl, fun _ => rfl, fun h => by cases h⟩
    · rename_i id hid
      split
      · rename_i prior hprior
        have hp := hs _ _ hprior
        have hkey := key_inj _ _ _ _ (hcolon _ _) hp.2.1 hp.2.2
        refine ⟨⟨?_, ?_, ?_⟩, ?_, ?_, ?_⟩
        · refine Finder.cacheOK_of_le hs (fun _ _ h => h) (le_refl _) ?_
          intro k p _
          by_cases hpm : p = model <;> simp [Finder.setOne, Finder.read, hpm]
        · intro a _ ha
          simp [Finder.setOne, Finder.read, ha]
        · intro a _
          by_cases hpm : a = model <;> simp [Finder.setOne, Finder.read, hpm]
        · intro g hg
          simp [Finder.setOne, Finder.read, hg]
        · intro g
          simp [Finder.setOne, Finder.read]
        · intro _
          refine ⟨reply, id, prior, hreply, hid, ?_, hp.1, ?_⟩
          · simp [Finder.setOne, Finder.read]
          · by_cases hpm : prior = model
            · simp only [Finder.setOne, Finder.read, hpm, if_true]
              rw [← hpm]; exact hkey.2.symm
            · simp only [Finder.setOne, Finder.read, hpm, if_false]
              exact hkey.2.symm
      · rename_i hnone
        have hnone0 : s.t.modelCache
            (R.targetName mr.modelSpec.modelName r.fieldName ++ ":" ++ id) = none := hnone
        generalize hs2 : ((s.read ⟨"GET", [.str (mr.key ++ ":" ++ r.redisName)]⟩).new
          (R.targetName mr.modelSpec.modelName r.fieldName)).setOne model r.fieldName
            (s.read ⟨"GET", [.str (mr.key ++ ":" ++ r.redisName)]⟩).next = s2
        have hn2 : s2.next = s.next + 1 := by rw [← hs2]; rfl
        have hc2 : s2.t.modelCache = s.t.modelCache := by rw [← hs2]; rfl
        have hne : model ≠ s.next := Nat.ne_of_lt hm
        have hrec2 : ∀ a, a < s.next → a ≠ model → s2.records a = s.records a := by
          intro a ha hne2
          have : a ≠ s.next := Nat.ne_of_lt ha
          rw [← hs2]; simp [Finder.setOne, Finder.new, Finder.read, hne2, this]
        have hrecm : s2.records model =
            { s.records model with
              one := fun f => if f = r.fieldName then some s.next else (s.records model).one f } := by
          rw [← hs2]; simp [Finder.setOne, Finder.new, Finder.read, hne]
        have hrecn : (s2.records s.next).typeName =
            R.targetName mr.modelSpec.modelName r.fieldName := by
          rw [← hs2]; simp [Finder.setOne, Finder.new, Finder.read, hne.symm]
        have hid2 : ∀ a, a < s.next → (s2.records a).id = (s.records a).id ∧
            (s2.records a).typeName = (s.records a).typeName := by
          intro a ha
          by_cases ham : a = model
          · rw [ham, hrecm]; exact ⟨rfl, rfl⟩
          · rw [hrec2 a ha ham]; exact ⟨rfl, rfl⟩
        have hcache2 : s2.CacheOK := by
          refine Finder.cacheOK_of_le hs (fun k p h => by rw [hc2] at h; exact h) (by rw [hn2]; omega) ?_
          intro k p hk
          exact ⟨(hid2 p (hs k p hk).1).2, (hid2 p (hs k p hk).1).1⟩
        have hft := frame_findTarget R hR hcolon self hgood s2 mr r s.next id hcache2
          (by rw [hn2]; omega)
          (by intro k hk; rw [hc2] at hk; exact absurd (hs k _ hk).1 (lt_irrefl _))
          hrecn (by rw [hc2]; exact hnone0)
        have hex := extends_findTarget R self hext s2 mr r s.next id
        rw [show (s.read ⟨"GET", [.str (mr.key ++ ":" ++ r.redisName)]⟩).next = s.next from rfl]
        generalize findTarget R self s2 mr r s.next id = res at hft hex ⊢
        obtain ⟨f1, f2, f3⟩ := hft
        have hlt : ∀ a, a < s.next → a < s2.next := fun a ha => by rw [hn2]; omega
        have hresm : res.1.records model = s2.records model :=
          f2 model (hlt _ hm) hne
        refine ⟨⟨f1, ?_, ?_⟩, ?_, ?_, ?_⟩
        · intro a ha ham
          rw [f2 a (hlt a ha) (Nat.ne_of_lt ha), hrec2 a ha ham]
        · intro a ha
          rw [f2 a (hlt a ha) (Nat.ne_of_lt ha)]
          exact hid2 a ha
        · intro g hg
          rw [hresm, hrecm]; simp [hg]
        · intro g
          rw [hresm, hrecm]
        · intro hnil
          refine ⟨reply, id, s.next, hreply, hid, ?_, ?_, f3 hnil⟩
          · rw [hresm, hrecm]; simp
          · have := hex.2.2.2.1
            rw [hn2] at this; omega

theorem Finder.cacheOK_appendMany (s : Finder) (hs : s.CacheOK) (model : Nat) (f : String)
    (p : Nat) : (s.appendMany model f p).CacheOK := by
  refine Finder.cacheOK_of_le hs (fun _ _ h => h) (le_refl _) ?_
  intro k q _
  by_cases hq : q = model <;> simp [Finder.appendMany, hq]

theorem Finder.cacheOK_new (s : Finder) (hs : s.CacheOK) (typeName : String) :
    (s.new typeName).CacheOK := by
  refine Finder.cacheOK_of_le hs (fun _ _ h => h) (Nat.le_succ _) ?_
  intro k q hk
  have hq : q ≠ s.next := Nat.ne_of_lt (hs k q hk).1
  simp [Finder.new, hq]

theorem frame_findModelOneToManyRelation_loop (R : Registry) (hR : R.WellFormed)
    (hcolon : ∀ n f, ':' ∉ (R.targetName n f).data)
    (self : Finder → modelRef → Nat → Finder × Ret) (hgood : GoodSelf self)
    (hext : ∀ (s : Finder) (mr : modelRef) (model : Nat), s.Extends (self s mr model).1)
    (mr : modelRef) (model : Nat) (r : relationship) (ids : List String) (s : Finder)
    (hs : s.CacheOK) (hm : model < s.next) :
    s.Frame (findModelOneToManyRelation.loop R self mr model r ids s).1 model ∧
    (∀ g, ((findModelOneToManyRelation.loop R self mr model r ids s).1.records model).one g =
        (s.records model).one g) ∧
    (∀ g, g ≠ r.fieldName →
      ((findModelOneToManyRelation.loop R self mr model r ids s).1.records model).many g =
        (s.records model).many g) ∧
    ((findModelOneToManyRelation.loop R self mr model r ids s).2 = Ret.nil →
      ∃ ps,
        ((findModelOneToManyRelation.loop R self mr model r ids s).1.records model).many
            r.fieldName = (s.records model).many r.fieldName ++ ps ∧
        (findModelOneToManyRelation.loop R self mr model r ids s).1.ids ps = ids ∧
        ∀ p ∈ ps, p < (findModelOneToManyRelation.loop R self mr model r ids s).1.next) := by
  induction ids generalizing s with
  | nil =>
    refine ⟨⟨hs, fun _ _ _ => rfl, fun _ _ => ⟨rfl, rfl⟩⟩, fun _ => rfl, fun _ _ => rfl, ?_⟩
    intro _
    exact ⟨[], by simp [findModelOneToManyRelation.loop], rfl, by simp⟩
  | cons id ids ih =>
    unfold findModelOneToManyRelation.loop
    simp only
    split
    · rename_i prior hprior
      have hp := hs _ _ hprior
      have hkey := key_inj _ _ _ _ (hcolon _ _) hp.2.1 hp.2.2
      have hs1 := s.cacheOK_appendMany hs model r.fieldName prior
      have hrecm : (s.appendMany model r.fieldName prior).records model =
          { s.records model with
            many := fun f => if f = r.fieldName then (s.records model).many f ++ [prior]
              else (s.records model).many f } := by
        simp [Finder.appendMany]
      have hrec : ∀ a, a ≠ model →
          (s.appendMany model r.fieldName prior).records a = s.records a := by
        intro a ha; simp [Finder.appendMany, ha]
      have hid1 : ∀ a, ((s.appendMany model r.fieldName prior).records a).id = (s.records a).id ∧
          ((s.appendMany model r.fieldName prior).records a).typeName =
            (s.records a).typeName := by
        intro a
        by_cases ha : a = model
        · rw [ha, hrecm]; exact ⟨rfl, rfl⟩
        · rw [hrec a ha]; exact ⟨rfl, rfl⟩
      have h := ih (s.appendMany model r.fieldName prior) hs1 hm
      have hx := extends_findModelOneToManyRelation_loop R self hext mr model r ids
        (s.appendMany model r.fieldName prior)
      generalize findModelOneToManyRelation.loop R self mr model r ids
        (s.appendMany model r.fieldName prior) = res at h hx ⊢
      obtain ⟨⟨f1, f2, f3⟩, h2, h3, h4⟩ := h
      refine ⟨⟨f1, ?_, ?_⟩, ?_, ?_, ?_⟩
      · intro a ha ham
        rw [f2 a ha ham, hrec a ham]
      · intro a ha
        rw [(f3 a ha).1, (f3 a ha).2]
        exact hid1 a
      · intro g
        rw [h2 g, hrecm]
      · intro g hg
        rw [h3 g hg, hrecm]; simp [hg]
      · intro hnil
        obtain ⟨ps, e1, e2, e3⟩ := h4 hnil
        refine ⟨prior :: ps, ?_, ?_, ?_⟩
        · rw [e1, hrecm]; simp
        · have e4 : (res.1.records prior).id = id := by
            rw [(f3 prior hp.1).1, (hid1 prior).1]
            exact hkey.2.symm
          simp only [Finder.ids, List.map_cons, e4]
          exact congrArg _ e2
        · intro p hp2
          rcases List.mem_cons.mp hp2 with hp3 | hp3
          · rw [hp3]
            exact lt_of_lt_of_le hp.1 hx.2.2.2.1
          · exact e3 p hp3
    · rename_i hnone
      have hs0 := s.cacheOK_new hs (R.targetName mr.modelSpec.modelName r.fieldName)
      have hne : model ≠ s.next := Nat.ne_of_lt hm
      have hrec0 : ∀ a, a < s.next →
          (s.new (R.targetName mr.modelSpec.modelName r.fieldName)).records a = s.records a := by
        intro a ha
        have : a ≠ s.next := Nat.ne_of_lt ha
        simp [Finder.new, this]
      have hft := frame_findTarget R hR hcolon self hgood
        (s.new (R.targetName mr.modelSpec.modelName r.fieldName)) mr r s.next id hs0
        (Nat.lt_succ_self _)
        (by intro k hk; exact absurd (hs k _ hk).1 (lt_irrefl _))
        (by simp [Finder.new]) hnone
      have hex0 := extends_findTarget R self hext
        (s.new (R.targetName mr.modelSpec.modelName r.fieldName)) mr r s.next id
      generalize findTarget R self (s.new (R.targetName mr.modelSpec.modelName r.fieldName))
        mr r s.next id = res0 at hft hex0 ⊢
      have hex := (s.extends_new (R.targetName mr.modelSpec.modelName r.fieldName)).trans hex0
      have hsn0 : s.next < res0.1.next := hex0.2.2.2.1
      obtain ⟨f1, f2, f3⟩ := hft
      have hlt : ∀ a, a < s.next →
          a < (s.new (R.targetName mr.modelSpec.modelName r.fieldName)).next :=
        fun a ha => Nat.lt_succ_of_lt ha
      have hrec1 : ∀ a, a < s.next → res0.1.records a = s.records a := by
        intro a ha
        rw [f2 a (hlt a ha) (Nat.ne_of_lt ha), hrec0 a ha]
      split
      · rename_i hnil0
        have hs2 := res0.1.cacheOK_appendMany f1 model r.fieldName s.next
        have hm2 : model < (res0.1.appendMany model r.fieldName s.next).next :=
          lt_of_lt_of_le hm hex.2.2.2.1
        have hrecm : (res0.1.appendMany model r.fieldName s.next).records model =
            { s.records model with
              many := fun f => if f = r.fieldName then (s.records model).many f ++ [s.next]
                else (s.records model).many f } := by
          simp [Finder.appendMany, hrec1 model hm]
        have hrec : ∀ a, a ≠ model →
            (res0.1.appendMany model r.fieldName s.next).records a = res0.1.records a := by
          intro a ha; simp [Finder.appendMany, ha]
        have hid1 : ∀ a, ((res0.1.appendMany model r.fieldName s.next).records a).id =
              (res0.1.records a).id ∧
            ((res0.1.appendMany model r.fieldName s.next).records a).typeName =
              (res0.1.records a).typeName := by
          intro a
          by_cases ha : a = model
          · simp [Finder.appendMany, ha]
          · rw [hrec a ha]; exact ⟨rfl, rfl⟩
        have h := ih (res0.1.appendMany model r.fieldName s.next) hs2 hm2
        have hx := extends_findModelOneToManyRelation_loop R self hext mr model r ids
          (res0.1.appendMany model r.fieldName s.next)
        generalize findModelOneToManyRelation.loop R self mr model r ids
          (res0.1.appendMany model r.fieldName s.next) = res at h hx ⊢
        obtain ⟨⟨g1, g2, g3⟩, h2, h3, h4⟩ := h
        have hle : s.next ≤ (res0.1.appendMany model r.fieldName s.next).next := hex.2.2.2.1
        refine ⟨⟨g1, ?_, ?_⟩, ?_, ?_, ?_⟩
        · intro a ha ham
          rw [g2 a (lt_of_lt_of_le ha hle) ham, hrec a ham, hrec1 a ha]
        · intro a ha
          rw [(g3 a (lt_of_lt_of_le ha hle)).1, (g3 a (lt_of_lt_of_le ha hle)).2,
            (hid1 a).1, (hid1 a).2, hrec1 a ha]
          exact ⟨rfl, rfl⟩
        · intro g
          rw [h2 g, hrecm]
        · intro g hg
          rw [h3 g hg, hrecm]; simp [hg]
        · intro hnil
          obtain ⟨ps, e1, e2, e3⟩ := h4 hnil
          have hsn : s.next < (res0.1.appendMany model r.fieldName s.next).next := hsn0
          refine ⟨s.next :: ps, ?_, ?_, ?_⟩
          · rw [e1, hrecm]; simp
          · have e4 : (res.1.records s.next).id = id := by
              rw [(g3 s.next hsn).1, (hid1 s.next).1]
              exact f3 hnil0
            simp only [Finder.ids, List.map_cons, e4]
            exact congrArg _ e2
          · intro p hp2
            rcases List.mem_cons.mp hp2 with hp3 | hp3
            · rw [hp3]
              exact lt_of_lt_of_le hsn hx.2.2.2.1
            · exact e3 p hp3
      · rename_i hnot
        refine ⟨⟨f1, ?_, ?_⟩, ?_, ?_, ?_⟩
        · intro a ha _
          exact hrec1 a ha
        · intro a ha
          rw [hrec1 a ha]; exact ⟨rfl, rfl⟩
        · intro g
          rw [hrec1 model hm]
        · intro g _
          rw [hrec1 model hm]
        · intro hnil
          exact absurd hnil (by simpa using hnot)

theorem frame_findModelOneToManyRelation (R : Registry) (hR : R.WellFormed)
    (hcolon : ∀ n f, ':' ∉ (R.targetName n f).data)
    (self : Finder → modelRef → Nat → Finder × Ret) (hgood : GoodSelf self)
    (hext : ∀ (s : Finder) (mr : modelRef) (model : Nat), s.Extends (self s mr model).1)
    (s : Finder) (mr : modelRef) (model : Nat) (r : relationship)
    (hs : s.CacheOK) (hm : model < s.next) :
    s.Frame (findModelOneToManyRelation R self s mr model r).1 model ∧
    (∀ g, ((findModelOneToManyRelation R self s mr model r).1.records model).one g =
        (s.records model).one g) ∧
    (∀ g, g ≠ r.fieldName →
      ((findModelOneToManyRelation R self s mr model r).1.records model).many g =
        (s.records model).many g) ∧
    ((findModelOneToManyRelation R self s mr model r).2 = Ret.nil →
      ∃ reply ids ps,
        s.t.conn.read ⟨"SMEMBERS", [.str (mr.key ++ ":" ++ r.redisName)]⟩ = .ok reply ∧
        redisStrings reply = .ok ids ∧
        ((findModelOneToManyRelation R self s mr model r).1.records model).many r.fieldName =
          (s.records model).many r.fieldName ++ ps ∧
        (findModelOneToManyRelation R self s mr model r).1.ids ps = ids ∧
        ∀ p ∈ ps, p < (findModelOneToManyRelation R self s mr model r).1.next) := by
  have hread : ∀ c, s.Frame (s.read c) model :=
    fun c => ⟨Finder.cacheOK_of_le hs (fun _ _ h => h) (le_refl _) (fun _ _ _ => ⟨rfl, rfl⟩),
      fun _ _ _ => rfl, fun _ _ => ⟨rfl, rfl⟩⟩
  unfold findModelOneToManyRelation
  simp only
  split
  · exact ⟨hread _, fun _ => rfl, fun _ _ => rfl, fun h => by cases h⟩
  · rename_i reply hreply
    split
    · exact ⟨hread _, fun _ => rfl, fun _ _ => rfl, fun h => by cases h⟩
    · rename_i ids hids
      have h := frame_findModelOneToManyRelation_loop R hR hcolon self hgood hext mr model r ids
        (s.read ⟨"SMEMBERS", [.str (mr.key ++ ":" ++ r.redisName)]⟩) (hread _).1 hm
      generalize findModelOneToManyRelation.loop R self mr model r ids
        (s.read ⟨"SMEMBERS", [.str (mr.key ++ ":" ++ r.redisName)]⟩) = res at h ⊢
      obtain ⟨h1, h2, h3, h4⟩ := h
      refine ⟨h1, h2, h3, ?_⟩
      intro hnil
      obtain ⟨ps, e1, e2, e3⟩ := h4 hnil
      exact ⟨reply, ids, ps, hreply, hids, e1, e2, e3⟩

theorem Finder.frame_trans {s s1 s2 : Finder} {model : Nat} (h1 : s.Frame s1 model)
    (hn : s.next ≤ s1.next) (h2 : s1.Frame s2 model) : s.Frame s2 model := by
  obtain ⟨_, a2, a3⟩ := h1
  obtain ⟨b1, b2, b3⟩ := h2
  refine ⟨b1, ?_, ?_⟩
  · intro a ha ham
    rw [b2 a (lt_of_lt_of_le ha hn) ham, a2 a ha ham]
  · intro a ha
    rw [(b3 a (lt_of_lt_of_le ha hn)).1, (b3 a (lt_of_lt_of_le ha hn)).2]
    exact a3 a ha

/-- A field that holds what is stored still does after a step that keeps the frame and the
    field. -/
theorem Finder.Loaded.stable {s s' : Finder} {conn : Conn} {mr : modelRef} {model : Nat}
    {r : relationship} (h : s.Loaded conn mr model r) (hf : s.Frame s' model)
    (hn : s.next ≤ s'.next)
    (h1 : (s'.records model).one r.fieldName = (s.records model).one r.fieldName)
    (h2 : (s'.records model).many r.fieldName = (s.records model).many r.fieldName) :
    s'.Loaded conn mr model r := by
  unfold Finder.Loaded at h ⊢
  cases hr : r.rType with
  | oneToOne =>
    rw [hr] at h
    obtain ⟨reply, id, p, e1, e2, e3, e4, e5⟩ := h
    exact ⟨reply, id, p, e1, e2, by rw [h1]; exact e3, lt_of_lt_of_le e4 hn,
      by rw [(hf.2.2 p e4).1]; exact e5⟩
  | oneToMany =>
    rw [hr] at h
    obtain ⟨reply, ids, e1, e2, e3, e4⟩ := h
    refine ⟨reply, ids, e1, e2, ?_, ?_⟩
    · rw [h2, ← e3]
      simp only [Finder.ids]
      apply List.map_congr_left
      intro p hp
      exact (hf.2.2 p (e4 p hp)).1
    · intro p hp
      rw [h2] at hp
      exact lt_of_lt_of_le (e4 p hp) hn

theorem frame_findModelRelationships_loop (R : Registry) (hR : R.WellFormed)
    (hcolon : ∀ n f, ':' ∉ (R.targetName n f).data)
    (self : Finder → modelRef → Nat → Finder × Ret) (hgood : GoodSelf self)
    (hext : ∀ (s : Finder) (mr : modelRef) (model : Nat), s.Extends (self s mr model).1)
    (mr : modelRef) (model : Nat) (includes : Option (List String))
    (rs : List relationship) (s : Finder) (hs : s.CacheOK) (hm : model < s.next) :
    s.Frame (findModelRelationships.loop R self mr model includes rs s).1 model ∧
    (∀ g, (∀ r ∈ rs, skipped includes r.fieldName = false → r.fieldName ≠ g) →
      ((findModelRelationships.loop R self mr model includes rs s).1.records model).one g =
        (s.records model).one g ∧
      ((findModelRelationships.loop R self mr model includes rs s).1.records model).many g =
        (s.records model).many g) ∧
    ((rs.map fun r => r.fieldName).Nodup →
      (∀ r ∈ rs, (s.records model).many r.fieldName = []) →
      (findModelRelationships.loop R self mr model includes rs s).2 = Ret.nil →
      ∀ r ∈ rs, skipped includes r.fieldName = false →
        (findModelRelationships.loop R self mr model includes rs s).1.Loaded s.t.conn mr model
          r) := by
  induction rs generalizing s with
  | nil =>
    refine ⟨⟨hs, fun _ _ _ => rfl, fun _ _ => ⟨rfl, rfl⟩⟩, fun _ _ => ⟨rfl, rfl⟩, ?_⟩
    intro _ _ _ r hr
    cases hr
  | cons r rs ih =>
    unfold findModelRelationships.loop
    split
    · rename_i hskip
      obtain ⟨i1, i2, i3⟩ := ih s hs hm
      refine ⟨i1, ?_, ?_⟩
      · intro g hg
        exact i2 g (fun r2 hr2 => hg r2 (List.mem_cons_of_mem _ hr2))
      · intro hnd hun hnil r2 hr2 hns
        rcases List.mem_cons.mp hr2 with he | hin
        · rw [he, hskip] at hns; cases hns
        · exact i3 (List.nodup_cons.mp hnd).2
            (fun r3 hr3 => hun r3 (List.mem_cons_of_mem _ hr3)) hnil r2 hin hns
    · rename_i hskip
      have tail : ∀ res : Finder × Ret, s.Extends res.1 → s.Frame res.1 model →
          (∀ g, g ≠ r.fieldName → (res.1.records model).one g = (s.records model).one g ∧
            (res.1.records model).many g = (s.records model).many g) →
          ((s.records model).many r.fieldName = [] → res.2 = Ret.nil →
            res.1.Loaded s.t.conn mr model r) →
          s.Frame (match res.2 with
            | Ret.nil => findModelRelationships.loop R self mr model includes rs res.1
            | ret => (res.1, ret)).1 model ∧
          (∀ g, (∀ r2 ∈ r :: rs, skipped includes r2.fieldName = false → r2.fieldName ≠ g) →
            ((match res.2 with
              | Ret.nil => findModelRelationships.loop R self mr model includes rs res.1
              | ret => (res.1, ret)).1.records model).one g = (s.records model).one g ∧
            ((match res.2 with
              | Ret.nil => findModelRelationships.loop R self mr model includes rs res.1
              | ret => (res.1, ret)).1.records model).many g = (s.records model).many g) ∧
          (((r :: rs).map fun r => r.fieldName).Nodup →
            (∀ r2 ∈ r :: rs, (s.records model).many r2.fieldName = []) →
            (match res.2 with
              | Ret.nil => findModelRelationships.loop R self mr model includes rs res.1
              | ret => (res.1, ret)).2 = Ret.nil →
            ∀ r2 ∈ r :: rs, skipped includes r2.fieldName = false →
              (match res.2 with
                | Ret.nil => findModelRelationships.loop R self mr model includes rs res.1
                | ret => (res.1, ret)).1.Loaded s.t.conn mr model r2) := by
        intro res hx hf hg hl
        split
        · rename_i hnil1
          obtain ⟨i1, i2, i3⟩ := ih res.1 hf.1 (lt_of_lt_of_le hm hx.2.2.2.1)
          have hx2 := extends_findModelRelationships_loop R self hext mr model includes rs res.1
          generalize findModelRelationships.loop R self mr model includes rs res.1 = fin
            at i1 i2 i3 hx2 ⊢
          refine ⟨Finder.frame_trans hf hx.2.2.2.1 i1, ?_, ?_⟩
          · intro g hgg
            have h1 := i2 g (fun r2 hr2 => hgg r2 (List.mem_cons_of_mem _ hr2))
            have h2 := hg g (fun he => hgg r (List.mem_cons_self _ _)
              (by simpa using hskip) he.symm)
            exact ⟨h1.1.trans h2.1, h1.2.trans h2.2⟩
          · intro hnd hun hnil r2 hr2 hns
            have hnd2 := List.nodup_cons.mp hnd
            have hfresh : ∀ r3 ∈ rs, r3.fieldName ≠ r.fieldName := by
              intro r3 hr3 he
              exact hnd2.1 (List.mem_map.mpr ⟨r3, hr3, he⟩)
            have hun2 : ∀ r3 ∈ rs, (res.1.records model).many r3.fieldName = [] := by
              intro r3 hr3
              rw [(hg _ (hfresh r3 hr3)).2]
              exact hun r3 (List.mem_cons_of_mem _ hr3)
            rcases List.mem_cons.mp hr2 with he | hin
            · rw [he]
              have hl1 := hl (hun r (List.mem_cons_self _ _)) hnil1
              have hsame := i2 r.fieldName (fun r3 hr3 _ => hfresh r3 hr3)
              exact hl1.stable i1 hx2.2.2.2.1 hsame.1 hsame.2
            · have := i3 hnd2.2 hun2 hnil r2 hin hns
              rw [hx.2.2.1] at this
              exact this
        · rename_i hnot
          refine ⟨hf, ?_, ?_⟩
          · intro g hgg
            exact hg g (fun he => hgg r (List.mem_cons_self _ _) (by simpa using hskip) he.symm)
          · intro _ _ hnil
            exact absurd hnil (by simpa using hnot)
      cases hr : r.rType with
      | oneToOne =>
        obtain ⟨a1, a2, a3, a4⟩ :=
          frame_findModelOneToOneRelation R hR hcolon self hgood hext s mr model r hs hm
        refine tail (findModelOneToOneRelation R self s mr model r)
          (extends_findModelOneToOneRelation R self hext s mr model r) a1
          (fun g hg => ⟨a2 g hg, a3 g⟩) ?_
        intro _ hnil
        unfold Finder.Loaded
        rw [hr]
        exact a4 hnil
      | oneToMany =>
        obtain ⟨a1, a2, a3, a4⟩ :=
          frame_findModelOneToManyRelation R hR hcolon self hgood hext s mr model r hs hm
        refine tail (findModelOneToManyRelation R self s mr model r)
          (extends_findModelOneToManyRelation R self hext s mr model r) a1
          (fun g hg => ⟨a2 g, a3 g hg⟩) ?_
        intro hun hnil
        unfold Finder.Loaded
        rw [hr]
        obtain ⟨reply, ids, ps, e1, e2, e3, e4, e5⟩ := a4 hnil
        rw [hun, List.nil_append] at e3
        exact ⟨reply, ids, e1, e2, by rw [e3]; exact e4, by rw [e3]; exact e5⟩

theorem Finder.memory_findModelLists (s : Finder) (mr : modelRef)
    (includes : Option (List String)) :
    (s.findModelLists mr includes).records = s.records ∧
    (s.findModelLists mr includes).next = s.next ∧
    (s.findModelLists mr includes).t.modelCache = s.t.modelCache := by
  unfold Finder.findModelLists
  generalize mr.modelSpec.lists = lists
  induction lists generalizing s with
  | nil => exact ⟨rfl, rfl, rfl⟩
  | cons l ls ih =>
    rw [List.foldl_cons]
    split
    · exact ih s
    · exact ih _

theorem Finder.memory_findModelSets (s : Finder) (mr : modelRef)
    (includes : Option (List String)) :
    (s.findModelSets mr includes).records = s.records ∧
    (s.findModelSets mr includes).next = s.next ∧
    (s.findModelSets mr includes).t.modelCache = s.t.modelCache := by
  unfold Finder.findModelSets
  generalize mr.modelSpec.sets = sets
  induction sets generalizing s with
  | nil => exact ⟨rfl, rfl, rfl⟩
  | cons l ls ih =>
    rw [List.foldl_cons]
    split
    · exact ih s
    · exact ih _

theorem Finder.memory_findHash (R : Registry) (s : Finder) (mr : modelRef)
    (includes : Option (List String)) :
    (s.findHash R mr includes).records = s.records ∧
    (s.findHash R mr includes).next = s.next ∧
    (s.findHash R mr includes).t.modelCache = s.t.modelCache := by
  unfold Finder.findHash
  split
  · exact ⟨rfl, rfl, rfl⟩
  · split
    · exact ⟨rfl, rfl, rfl⟩
    · exact ⟨rfl, rfl, rfl⟩

theorem frame_findModel_miss (R : Registry) (hR : R.WellFormed)
    (hcolon : ∀ n f, ':' ∉ (R.targetName n f).data)
    (self : Finder → modelRef → Nat → Finder × Ret) (hgood : GoodSelf self)
    (hext : ∀ (s : Finder) (mr : modelRef) (model : Nat), s.Extends (self s mr model).1)
    (s : Finder) (mr : modelRef) (model : Nat) (includes : Option (List String))
    (hs : s.CacheOK) (hm : model < s.next)
    (hty : ':' ∉ (s.records model).typeName.data)
    (hkey : mr.key = (s.records model).typeName ++ ":" ++ (s.records model).id) :
    s.Frame (findModel.miss R self s mr model includes).1 model := by
  have hs1 : (s.register mr.key model).CacheOK := by
    intro k p hk
    by_cases hkk : k = mr.key
    · have hp : p = model := by
        simp [Finder.register, hkk] at hk
        exact hk.symm
      rw [hp, hkk]
      exact ⟨hm, hty, hkey⟩
    · have hk2 : s.t.modelCache k = some p := by
        simpa [Finder.register, hkk] using hk
      exact hs k p hk2
  have h2 := (s.register mr.key model).memory_findHash R mr includes
  unfold findModel.miss
  simp only
  have h3 : (if mr.modelSpec.lists.length ≠ 0 then
        ((s.register mr.key model).findHash R mr includes).findModelLists mr includes
       else (s.register mr.key model).findHash R mr includes).records = s.records ∧
      (if mr.modelSpec.lists.length ≠ 0 then
        ((s.register mr.key model).findHash R mr includes).findModelLists mr includes
       else (s.register mr.key model).findHash R mr includes).next = s.next ∧
      (if mr.modelSpec.lists.length ≠ 0 then
        ((s.register mr.key model).findHash R mr includes).findModelLists mr includes
       else (s.register mr.key model).findHash R mr includes).t.modelCache =
        (s.register mr.key model).t.modelCache := by
    split
    · have := Finder.memory_findModelLists
        ((s.register mr.key model).findHash R mr includes) mr includes
      exact ⟨this.1.trans h2.1, this.2.1.trans h2.2.1, this.2.2.trans h2.2.2⟩
    · exact h2
  generalize (if mr.modelSpec.lists.length ≠ 0 then
        ((s.register mr.key model).findHash R mr includes).findModelLists mr includes
       else (s.register mr.key model).findHash R mr includes) = s3 at h3 ⊢
  have h4 : (if mr.modelSpec.sets.length ≠ 0 then s3.findModelSets mr includes else s3).records
        = s.records ∧
      (if mr.modelSpec.sets.length ≠ 0 then s3.findModelSets mr includes else s3).next
        = s.next ∧
      (if mr.modelSpec.sets.length ≠ 0 then s3.findModelSets mr includes
        else s3).t.modelCache = (s.register mr.key model).t.modelCache := by
    split
    · have := Finder.memory_findModelSets s3 mr includes
      exact ⟨this.1.trans h3.1, this.2.1.trans h3.2.1, this.2.2.trans h3.2.2⟩
    · exact h3
  generalize (if mr.modelSpec.sets.length ≠ 0 then s3.findModelSets mr includes else s3) = s4
    at h4 ⊢
  obtain ⟨r4, n4, c4⟩ := h4
  have hs4 : s4.CacheOK := by
    refine Finder.cacheOK_of_le hs1 (fun k p h => by rw [c4] at h; exact h) (by rw [n4]; exact le_refl _) ?_
    intro k p _
    rw [r4]
    exact ⟨rfl, rfl⟩
  have hf4 : s.Frame s4 model :=
    ⟨hs4, fun a _ _ => by rw [r4], fun a _ => by rw [r4]; exact ⟨rfl, rfl⟩⟩
  split
  · exact Finder.frame_trans hf4 (by rw [n4])
      (frame_findModelRelationships_loop R hR hcolon self hgood hext mr model includes
        mr.modelSpec.relationships s4 hs4 (by rw [n4]; exact hm)).1
  · exact hf4

theorem good_findModel (R : Registry) (hR : R.WellFormed)
    (hcolon : ∀ n f, ':' ∉ (R.targetName n f).data) (fuel : Nat) :
    GoodSelf (fun s mr model => findModel R fuel s mr model none) := by
  induction fuel with
  | zero =>
    intro s mr model hs _ _ _ hmiss
    show s.Frame (findModel R 0 s mr model none).1 model
    rw [findModel_zero R s mr model none hmiss]
    exact ⟨hs, fun _ _ _ => rfl, fun _ _ => ⟨rfl, rfl⟩⟩
  | succ fuel ih =>
    intro s mr model hs hm hty hkey hmiss
    show s.Frame (findModel R (fuel + 1) s mr model none).1 model
    rw [findModel_succ R fuel s mr model none hmiss]
    exact frame_findModel_miss R hR hcolon _ ih
      (fun s mr model => extends_findModel R fuel s mr model none) s mr model none hs hm hty hkey
/-- C12, as the code has it: `findModelRelationships` looks at the relationships that the
    filter `includes` selects (all of them without a filter).  For a record whose relationship
    fields are unset, in a memory with which the cache agrees, the names of the types holding
    no colon and the relationship fields having different names: when it succeeds, every
    selected to-one field refers to a record whose id is the id that GET returns for its
    relation key, every selected to-many field holds one record per id that SMEMBERS returns,
    in that order, whether the records were cached or are new; a relationship field that the
    filter leaves out is unset still. -/
theorem findModelRelationships_spec (R : Registry) (hR : R.WellFormed)
    (hcolon : ∀ n f, ':' ∉ (R.targetName n f).data) (fuel : Nat)
    (s : Finder) (mr : modelRef) (model : Nat) (includes : Option (List String))
    (hs : s.CacheOK) (hm : model < s.next)
    (hnd : (mr.modelSpec.relationships.map fun r => r.fieldName).Nodup)
    (hunset : ∀ r ∈ mr.modelSpec.relationships,
      (s.records model).one r.fieldName = none ∧ (s.records model).many r.fieldName = [])
    (hnil : (findModelRelationships R (fun s mr model => findModel R fuel s mr model none)
      s mr model includes).2 = Ret.nil) :
    ∀ r ∈ mr.modelSpec.relationships,
      (skipped includes r.fieldName = false →
        (findModelRelationships R (fun s mr model => findModel R fuel s mr model none)
          s mr model includes).1.Loaded s.t.conn mr model r) ∧
      (skipped includes r.fieldName = true →
        ((findModelRelationships R (fun s mr model => findModel R fuel s mr model none)
          s mr model includes).1.records model).one r.fieldName = none ∧
        ((findModelRelationships R (fun s mr model => findModel R fuel s mr model none)
          s mr model includes).1.records model).many r.fieldName = []) := by
  obtain ⟨_, h2, h3⟩ := frame_findModelRelationships_loop R hR hcolon
    (fun s mr model => findModel R fuel s mr model none) (good_findModel R hR hcolon fuel)
    (fun s mr model => extends_findModel R fuel s mr model none) mr model includes
    mr.modelSpec.relationships s hs hm
  intro r hr
  constructor
  · intro hsk
    exact h3 hnd (fun r2 hr2 => (hunset r2 hr2).2) hnil r hr hsk
  · intro hsk
    have := h2 r.fieldName (fun r2 _ hns he => by rw [he, hsk] at hns; cases hns)
    exact ⟨this.1.trans (hunset r hr).1, this.2.trans (hunset r hr).2⟩

theorem cycleRegistry_wellFormed : cycleRegistry.WellFormed := by
  intro n ms h
  simp only [cycleRegistry] at h
  split_ifs at h with h1 h2
  · cases h; rw [h1]; rfl
  · cases h; rw [h2]; rfl

theorem cycleRegistry_colon (n f : String) : ':' ∉ (cycleRegistry.targetName n f).data := by
  simp only [cycleRegistry]
  split_ifs <;> decide

theorem newTransaction_cacheOK (conn : Conn) (records : Nat → Record) (next : Nat)
    (trace : List FindEvent) :
    Finder.CacheOK { t := newTransaction conn, records := records, next := next, trace := trace } := by
  intro k p h
  cases h

/-- C12 at inputs: the color "c1" on the store `cycleConn`, without a filter.  Its owner is
    a record with the id "a1" and its fans are records with the ids "a1" and "a2", the
    addresses 1 and 3; both fans were in the cache when the loop came to them. -/
theorem findModelRelationships_spec_witness :
    (findModelRelationships cycleRegistry
      (fun s mr model => findModel cycleRegistry 4 s mr model none)
      colorStart colorRef 0 none).2 = Ret.nil ∧
    (findModelRelationships cycleRegistry
      (fun s mr model => findModel cycleRegistry 4 s mr model none)
      colorStart colorRef 0 none).1.Loaded cycleConn colorRef 0 ⟨"Owner", "Owner", .oneToOne⟩ ∧
    (findModelRelationships cycleRegistry
      (fun s mr model => findModel cycleRegistry 4 s mr model none)
      colorStart colorRef 0 none).1.Loaded cycleConn colorRef 0 ⟨"Fans", "Fans", .oneToMany⟩ ∧
    ((findModelRelationships cycleRegistry
      (fun s mr model => findModel cycleRegistry 4 s mr model none)
      colorStart colorRef 0 none).1.records 0).many "Fans" = [1, 3] :=
  ⟨rfl,
   ((findModelRelationships_spec cycleRegistry cycleRegistry_wellFormed cycleRegistry_colon 4
      colorStart colorRef 0 none (newTransaction_cacheOK _ _ _ _) (by decide) (by decide)
      (by intro r _; exact ⟨rfl, rfl⟩) (by rfl)) ⟨"Owner", "Owner", .oneToOne⟩
      (by decide)).1 rfl,
   ((findModelRelationships_spec cycleRegistry cycleRegistry_wellFormed cycleRegistry_colon 4
      colorStart colorRef 0 none (newTransaction_cacheOK _ _ _ _) (by decide) (by decide)
      (by intro r _; exact ⟨rfl, rfl⟩) (by rfl)) ⟨"Fans", "Fans", .oneToMany⟩
      (by decide)).1 rfl,
   rfl⟩

/-- C12, an input on which the claim fails: with the filter `["Name"]` the call for the artist
    "a1", whose relationship field is unset, succeeds and leaves the field `FavoriteColor`
    unset, although GET returns the id "c1" for its relation key. -/
theorem findModelRelationships_filter_skips :
    (cycleStart.records 0).one "FavoriteColor" = none ∧
    cycleConn.read ⟨"GET", [.str "artist:a1:FavoriteColor"]⟩ = .ok (.str "c1") ∧
    (findModelRelationships cycleRegistry
      (fun s mr model => findModel cycleRegistry 3 s mr model none)
      cycleStart artistRef 0 (some ["Name"])).2 = Ret.nil ∧
    ((findModelRelationships cycleRegistry
      (fun s mr model => findModel cycleRegistry 3 s mr model none)
      cycleStart artistRef 0 (some ["Name"])).1.records 0).one "FavoriteColor" = none ∧
    ¬ (findModelRelationships cycleRegistry
      (fun s mr model => findModel cycleRegistry 3 s mr model none)
      cycleStart artistRef 0 (some ["Name"])).1.Loaded cycleConn artistRef 0
        ⟨"FavoriteColor", "FavoriteColor", .oneToOne⟩ := by
  refine ⟨rfl, rfl, rfl, rfl, ?_⟩
  rintro ⟨_, _, p, _, _, h, _⟩
  cases h

/-! ### Where `findModel` is called for the target of a relationship -/

theorem findModel_registers (R : Registry) (fuel : Nat) (s : Finder) (mr : modelRef)
    (model : Nat) (includes : Option (List String)) (h : s.t.modelCache mr.key = none) :
    (findModel R (fuel + 1) s mr model includes).1.t.modelCache mr.key = some model := by
  rw [findModel_succ R fuel s mr model includes h]
  exact (extends_findModel_miss R _ (fun s mr model => extends_findModel R fuel s mr model none)
    s mr model includes h).1.2.1 mr.key model (by simp [Finder.register])

theorem findTarget_call (R : Registry) (hR : R.WellFormed)
    (self : Finder → modelRef → Nat → Finder × Ret)
    (s : Finder) (mr : modelRef) (r : relationship) (rModel : Nat) (id : String)
    (ms : modelSpec) (hm : R.targetIsModel mr.modelSpec.modelName r.fieldName = true)
    (hms : R.modelSpecs (s.records rModel).typeName = some ms) :
    ∃ (s3 : Finder) (ref : modelRef),
      ref.key = (s.records rModel).typeName ++ ":" ++ id ∧
      s3.t = s.t ∧ s3.next = s.next ∧
      findTarget R self s mr r rModel id = self s3 ref rModel := by
  have hrec : ((s.SetId rModel id).records rModel).typeName = (s.records rModel).typeName := by
    simp [Finder.SetId]
  have hid : ((s.SetId rModel id).records rModel).id = id := by simp [Finder.SetId]
  cases h : R.newModelRefFromModel ((s.SetId rModel id).records rModel) with
  | error e =>
    unfold Registry.newModelRefFromModel at h
    rw [hrec, hms] at h
    cases h
  | ok ref =>
    obtain ⟨hk, _, _⟩ := newModelRefFromModel_key R hR _ ref h
    rw [hrec, hid] at hk
    refine ⟨{ (s.SetId rModel id) with
      trace := (s.SetId rModel id).trace ++ [FindEvent.findModel ref.key] }, ref, hk, rfl, rfl, ?_⟩
    unfold findTarget
    simp only [hm, Bool.not_true, Bool.false_eq_true, if_false, h]

theorem findModelOneToOneRelation_miss (R : Registry) (hR : R.WellFormed)
    (self : Finder → modelRef → Nat → Finder × Ret)
    (s : Finder) (mr : modelRef) (model : Nat) (r : relationship) (reply : Reply)
    (id : String) (ms : modelSpec)
    (hreply : s.t.conn.read ⟨"GET", [.str (mr.key ++ ":" ++ r.redisName)]⟩ = .ok reply)
    (hid : redisString reply = .ok id)
    (hmiss : s.t.modelCache (R.targetName mr.modelSpec.modelName r.fieldName ++ ":" ++ id)
      = none)
    (hm : R.targetIsModel mr.modelSpec.modelName r.fieldName = true)
    (hms : R.modelSpecs (R.targetName mr.modelSpec.modelName r.fieldName) = some ms) :
    ∃ (s3 : Finder) (ref : modelRef),
      ref.key = R.targetName mr.modelSpec.modelName r.fieldName ++ ":" ++ id ∧
      s3.t.modelCache ref.key = none ∧
      findModelOneToOneRelation R self s mr model r = self s3 ref s.next := by
  have hty : ((((s.read ⟨"GET", [.str (mr.key ++ ":" ++ r.redisName)]⟩).new
      (R.targetName mr.modelSpec.modelName r.fieldName)).setOne model r.fieldName
        s.next).records s.next).typeName = R.targetName mr.modelSpec.modelName r.fieldName := by
    by_cases h : s.next = model <;> simp [Finder.setOne, Finder.new, Finder.read, h]
  obtain ⟨s3, ref, hk, ht, _, hcall⟩ := findTarget_call R hR self
    (((s.read ⟨"GET", [.str (mr.key ++ ":" ++ r.redisName)]⟩).new
      (R.targetName mr.modelSpec.modelName r.fieldName)).setOne model r.fieldName s.next)
    mr r s.next id ms hm (by rw [hty]; exact hms)
  rw [hty] at hk
  refine ⟨s3, ref, hk, ?_, ?_⟩
  · rw [ht, hk]; exact hmiss
  · rw [← hcall]
    unfold findModelOneToOneRelation
    simp only [hreply, hid]
    have hmiss2 : (s.read ⟨"GET", [.str (mr.key ++ ":" ++ r.redisName)]⟩).t.modelCache
        (R.targetName mr.modelSpec.modelName r.fieldName ++ ":" ++ id) = none := hmiss
    simp only [hmiss2]
    rfl

theorem findModelOneToOneRelation_hit (R : Registry)
    (self : Finder → modelRef → Nat → Finder × Ret)
    (s : Finder) (mr : modelRef) (model : Nat) (r : relationship) (reply : Reply)
    (id : String) (prior : Nat)
    (hreply : s.t.conn.read ⟨"GET", [.str (mr.key ++ ":" ++ r.redisName)]⟩ = .ok reply)
    (hid : redisString reply = .ok id)
    (hhit : s.t.modelCache (R.targetName mr.modelSpec.modelName r.fieldName ++ ":" ++ id)
      = some prior) :
    findModelOneToOneRelation R self s mr model r =
      ((s.read ⟨"GET", [.str (mr.key ++ ":" ++ r.redisName)]⟩).setOne model r.fieldName prior,
        Ret.nil) := by
  unfold findModelOneToOneRelation
  simp only [hreply, hid]
  have hhit2 : (s.read ⟨"GET", [.str (mr.key ++ ":" ++ r.redisName)]⟩).t.modelCache
      (R.targetName mr.modelSpec.modelName r.fieldName ++ ":" ++ id) = some prior := hhit
  simp only [hhit2]

theorem findModelOneToManyRelation_loop_hit (R : Registry)
    (self : Finder → modelRef → Nat → Finder × Ret) (mr : modelRef) (model : Nat)
    (r : relationship) (id : String) (ids : List String) (s : Finder) (prior : Nat)
    (hhit : s.t.modelCache (R.targetName mr.modelSpec.modelName r.fieldName ++ ":" ++ id)
      = some prior) :
    findModelOneToManyRelation.loop R self mr model r (id :: ids) s =
      findModelOneToManyRelation.loop R self mr model r ids
        (s.appendMany model r.fieldName prior) := by
  rw [findModelOneToManyRelation.loop]
  simp only [hhit]

theorem findModelOneToManyRelation_loop_miss (R : Registry) (hR : R.WellFormed)
    (self : Finder → modelRef → Nat → Finder × Ret) (mr : modelRef) (model : Nat)
    (r : relationship) (id : String) (ids : List String) (s : Finder) (ms : modelSpec)
    (hmiss : s.t.modelCache (R.targetName mr.modelSpec.modelName r.fieldName ++ ":" ++ id)
      = none)
    (hm : R.targetIsModel mr.modelSpec.modelName r.fieldName = true)
    (hms : R.modelSpecs (R.targetName mr.modelSpec.modelName r.fieldName) = some ms) :
    ∃ (s3 : Finder) (ref : modelRef),
      ref.key = R.targetName mr.modelSpec.modelName r.fieldName ++ ":" ++ id ∧
      s3.t.modelCache ref.key = none ∧
      findModelOneToManyRelation.loop R self mr model r (id :: ids) s =
        if (self s3 ref s.next).2 = Ret.nil then
          findModelOneToManyRelation.loop R self mr model r ids
            ((self s3 ref s.next).1.appendMany model r.fieldName s.next)
        else self s3 ref s.next := by
  have hty : ((s.new (R.targetName mr.modelSpec.modelName r.fieldName)).records s.next).typeName
      = R.targetName mr.modelSpec.modelName r.fieldName := by
    simp [Finder.new]
  obtain ⟨s3, ref, hk, ht, _, hcall⟩ := findTarget_call R hR self
    (s.new (R.targetName mr.modelSpec.modelName r.fieldName)) mr r s.next id ms hm
    (by rw [hty]; exact hms)
  rw [hty] at hk
  refine ⟨s3, ref, hk, ?_, ?_⟩
  · rw [ht, hk]; exact hmiss
  · rw [← hcall, findModelOneToManyRelation.loop]
    simp only [hmiss]
    generalize findTarget R self (s.new (R.targetName mr.modelSpec.modelName r.fieldName))
      mr r s.next id = res
    obtain ⟨s4, ret⟩ := res
    cases ret <;> simp

theorem cycleConn_closed : Closed cycleRegistry cycleConn cycleKeys := by
  have key : ∀ (id : String), id = "c1" ∨ id = "a1" ∨ id = "a2" →
      ∀ n f, cycleRegistry.targetName n f ++ ":" ++ id ∈ cycleKeys := by
    intro id hid n f
    simp only [cycleRegistry]
    rcases hid with h | h | h <;> rw [h] <;> split_ifs <;> decide
  intro c reply h
  simp only [cycleConn] at h
  split_ifs at h <;> cases h
  all_goals
    constructor
    · intro id hid
      simp only [redisString] at hid
      cases hid <;> exact key _ (by simp)
    · intro ids hids id hmem
      simp only [redisStrings] at hids
      cases hids <;> exact key id (Or.inr (by simpa using hmem))

/-- C15: on a finite store (the list `U` holds every key a relationship read can refer to) and
    with a registry that holds every spec under its name, `findModel` terminates: with more
    fuel than `U` has keys it does not run out of fuel, cyclic references or not.  In
    `findModelOneToOneRelation` and in a step of the loop of `findModelOneToManyRelation`, a
    target whose key is cached is resolved to the cached address without any call (the result
    does not depend on `self`); for a target whose key is not cached the call of `findModel` is
    for that key, is made while the key is not in the cache, and leaves the key in the cache,
    at the address of the new record. -/
theorem findModel_terminates_spec (R : Registry) (hR : R.WellFormed) (U : List String)
    (fuel : Nat) (s : Finder) (mr : modelRef) (model : Nat) (includes : Option (List String))
    (hU : Closed R s.t.conn U) (hfuel : U.length < fuel) :
    (findModel R fuel s mr model includes).2 ≠ Ret.outOfFuel ∧
    (∀ (s1 : Finder) (mr1 : modelRef) (model1 : Nat) (r : relationship) (reply : Reply)
        (id : String),
      s1.t.conn.read ⟨"GET", [.str (mr1.key ++ ":" ++ r.redisName)]⟩ = .ok reply →
      redisString reply = .ok id →
      (∀ prior,
        s1.t.modelCache (R.targetName mr1.modelSpec.modelName r.fieldName ++ ":" ++ id)
          = some prior →
        ∀ self, findModelOneToOneRelation R self s1 mr1 model1 r =
          ((s1.read ⟨"GET", [.str (mr1.key ++ ":" ++ r.redisName)]⟩).setOne model1 r.fieldName
            prior, Ret.nil)) ∧
      (s1.t.modelCache (R.targetName mr1.modelSpec.modelName r.fieldName ++ ":" ++ id) = none →
        R.targetIsModel mr1.modelSpec.modelName r.fieldName = true →
        ∀ ms, R.modelSpecs (R.targetName mr1.modelSpec.modelName r.fieldName) = some ms →
        ∀ n, ∃ (s3 : Finder) (ref : modelRef),
          ref.key = R.targetName mr1.modelSpec.modelName r.fieldName ++ ":" ++ id ∧
          s3.t.modelCache ref.key = none ∧
          findModelOneToOneRelation R (fun s mr model => findModel R (n + 1) s mr model none)
            s1 mr1 model1 r = findModel R (n + 1) s3 ref s1.next none ∧
          (findModel R (n + 1) s3 ref s1.next none).1.t.modelCache ref.key = some s1.next)) ∧
    (∀ (s1 : Finder) (mr1 : modelRef) (model1 : Nat) (r : relationship) (id : String)
        (ids : List String),
      (∀ prior,
        s1.t.modelCache (R.targetName mr1.modelSpec.modelName r.fieldName ++ ":" ++ id)
          = some prior →
        ∀ self, findModelOneToManyRelation.loop R self mr1 model1 r (id :: ids) s1 =
          findModelOneToManyRelation.loop R self mr1 model1 r ids
            (s1.appendMany model1 r.fieldName prior)) ∧
      (s1.t.modelCache (R.targetName mr1.modelSpec.modelName r.fieldName ++ ":" ++ id) = none →
        R.targetIsModel mr1.modelSpec.modelName r.fieldName = true →
        ∀ ms, R.modelSpecs (R.targetName mr1.modelSpec.modelName r.fieldName) = some ms →
        ∀ n, ∃ (s3 : Finder) (ref : modelRef),
          ref.key = R.targetName mr1.modelSpec.modelName r.fieldName ++ ":" ++ id ∧
          s3.t.modelCache ref.key = none ∧
          findModelOneToManyRelation.loop R
              (fun s mr model => findModel R (n + 1) s mr model none) mr1 model1 r (id :: ids) s1 =
            (if (findModel R (n + 1) s3 ref s1.next none).2 = Ret.nil then
              findModelOneToManyRelation.loop R
                (fun s mr model => findModel R (n + 1) s mr model none) mr1 model1 r ids
                ((findModel R (n + 1) s3 ref s1.next none).1.appendMany model1 r.fieldName
                  s1.next)
            else findModel R (n + 1) s3 ref s1.next none) ∧
          (findModel R (n + 1) s3 ref s1.next none).1.t.modelCache ref.key = some s1.next)) := by
  refine ⟨?_, ?_, ?_⟩
  · exact term_findModel R hR s.t.conn U hU fuel s mr model includes rfl
      (lt_of_le_of_lt (uncached_le_length U _) hfuel)
  · intro s1 mr1 model1 r reply id hreply hid
    refine ⟨?_, ?_⟩
    · intro prior hhit self
      exact findModelOneToOneRelation_hit R self s1 mr1 model1 r reply id prior hreply hid hhit
    · intro hmiss hm ms hms n
      obtain ⟨s3, ref, hk, hc, hcall⟩ := findModelOneToOneRelation_miss R hR
        (fun s mr model => findModel R (n + 1) s mr model none) s1 mr1 model1 r reply id ms
        hreply hid hmiss hm hms
      exact ⟨s3, ref, hk, hc, hcall, findModel_registers R n s3 ref s1.next none hc⟩
  · intro s1 mr1 model1 r id ids
    refine ⟨?_, ?_⟩
    · intro prior hhit self
      exact findModelOneToManyRelation_loop_hit R self mr1 model1 r id ids s1 prior hhit
    · intro hmiss hm ms hms n
      obtain ⟨s3, ref, hk, hc, hcall⟩ := findModelOneToManyRelation_loop_miss R hR
        (fun s mr model => findModel R (n + 1) s mr model none) mr1 model1 r id ids s1 ms
        hmiss hm hms
      exact ⟨s3, ref, hk, hc, hcall, findModel_registers R n s3 ref s1.next none hc⟩

/-- C15 at inputs: on the store `cycleConn`, where the artist "a1" refers to the color "c1"
    and the color "c1" refers back to the artist "a1", the find of the artist "a1" returns nil;
    the owner of the color is the record of the find itself, at the address 0, and the second
    fan refers to the one record of the color, at the address 1. -/
theorem findModel_terminates_spec_witness :
    (findModel cycleRegistry 7 cycleStart artistRef 0 none).2 ≠ Ret.outOfFuel ∧
    (findModel cycleRegistry 7 cycleStart artistRef 0 none).2 = Ret.nil ∧
    ((findModel cycleRegistry 7 cycleStart artistRef 0 none).1.records 0).one "FavoriteColor"
      = some 1 ∧
    ((findModel cycleRegistry 7 cycleStart artistRef 0 none).1.records 1).one "Owner"
      = some 0 ∧
    ((findModel cycleRegistry 7 cycleStart artistRef 0 none).1.records 1).many "Fans"
      = [0, 2] ∧
    ((findModel cycleRegistry 7 cycleStart artistRef 0 none).1.records 2).one "FavoriteColor"
      = some 1 :=
  ⟨(findModel_terminates_spec cycleRegistry cycleRegistry_wellFormed cycleKeys 7 cycleStart
      artistRef 0 none cycleConn_closed (by decide)).1, rfl, rfl, rfl, rfl, rfl⟩

/-! ### The counter of possible key hits -/

/-- A handler whose own counter is not at 1 goes on after an empty reply, without a look at
    the existence index. -/
theorem scanAfterMiss_own_counter (conn : Conn) (mr : modelRef) (rest : Option Err)
    (h : mr.possibleKeyHits ≠ 1) : scanAfterMiss conn mr [] rest = ([], rest) := by
  have h2 : ¬ (mr.possibleKeyHits - 1 = 0) := by omega
  simp [scanAfterMiss, h2]

/-- C13, on the code: a playlist has two remote structures, its hash and one list, and the
    counter of its `modelRef` starts at 2; the store is empty and SISMEMBER answers 0.
    `findModel` queues HGETALL and LRANGE, each with a handler that holds the `modelRef` by
    value, its own counter at 2.  Both replies are empty; each handler takes 1 from its own
    counter, finds 1 and goes on: `exec` returns nil, and SISMEMBER is never sent.  For a
    record with one remote structure, the counter at 1, `exec` returns the KeyNotFound
    error. -/
theorem exec_nil_for_missing_record :
    (findModel playlistRegistry 1 playlistStart playlistRef 0 none).2 = Ret.nil ∧
    (findModel playlistRegistry 1 playlistStart playlistRef 0 none).1.t.commands =
      [⟨"HGETALL", [.str "playlist:x1"]⟩,
       ⟨"LRANGE", [.str "playlist:x1:Songs", .int 0, .int (-1)]⟩] ∧
    (findModel playlistRegistry 1 playlistStart playlistRef 0 none).1.t.handlers =
      [some (.newScanModelHandler playlistRef (playlistRegistry.scanModel playlistRef)),
       some (.newScanModelSliceHandler playlistRef)] ∧
    playlistRef.possibleKeyHits = 2 ∧
    emptyStore.read ⟨"SISMEMBER", [.str "playlist:all", .str "x1"]⟩ = .ok (.int 0) ∧
    ((findModel playlistRegistry 1 playlistStart playlistRef 0 none).1.t.exec demoClosures 5).map
        (fun r => (r.2.1, r.2.2)) =
      some ([.send "MULTI" [], .send "HGETALL" [.str "playlist:x1"],
             .send "LRANGE" [.str "playlist:x1:Songs", .int 0, .int (-1)], .doCmd "EXEC",
             .handler 0 (.multi []) none, .handler 1 (.multi []) none,
             .reset, .doCmd "DISCARD", .close], none) ∧
    ((findModel playlistRegistry 1 plainStart plainRef 0 none).1.t.exec demoClosures 5).map
        (fun r => (r.2.1, r.2.2)) =
      some ([.send "MULTI" [], .send "HGETALL" [.str "plain:x1"], .doCmd "EXEC",
             .side ⟨"SISMEMBER", [.str "plain:all", .str "x1"]⟩,
             .handler 0 (.multi []) (some (Err.keyNotFound "plain:x1")),
             .doCmd "DISCARD", .close], some (Err.keyNotFound "plain:x1")) := by
  refine ⟨rfl, rfl, rfl, rfl, rfl, ?_, ?_⟩ <;> decide

end Zoom
